import Mathlib

/-! # Sereal encoder for Python: `Python/Encoder/srl_encoder.c`

A shallow embedding of the encoder core and a verification of its
specification.

Conventions of the embedding.

* A byte is a `Nat` below 256; the output buffer `buf_start .. pos` is a
  `List Nat`, so `BUF_POS_OFS(enc)` is `enc.buf.length`.
* A `char *` into the buffer is a `Ptr`: the block it points into and the
  offset in that block.  The blocks of the buffer are counted in the order in
  which the allocator returns them: the constructor allocates block 0, and a
  growth of the buffer (in `srl_buffer.h`, which is not among the sources)
  either extends the block in place or moves the buffer to the next block, as
  the host decides (`realloc_moves`).  The host also gives the address of
  every block (`block_addr`); the address of a pointer is the address of its
  block plus its offset, and addresses are below `2 ^ 64`.
* The seen table `obj_seenhash` maps an object address to the `char *` that
  was `enc->pos` when the object was recorded.  The pointers of the table are
  not adjusted when the buffer moves, as in the C code, so after a move they
  point into a block that has been released.  The emitters use such a pointer
  as the C code does: the difference `pos - enc->buf_start` is the difference
  of the two addresses as the `unsigned long` it is assigned to (`ptr_diff`),
  and `SRL_SET_FBIT(*pos)` writes through it.  A write through a pointer into
  a released block is undefined behaviour in C; the embedding changes no byte
  of the output and records the write in the ghost field `stale_write`.
* The item loop of `srl_dump_pylist` counts with an `int`; the embedding runs
  over the items of the list, which is the loop for a list of fewer than
  `2 ^ 31` items.
* A C function returning `0` or `-1` (with the Python error indicator set)
  returns a `Ret`: `Ret.ok`, or `Ret.fail e` with the error that was set.
* The dispatcher recurses through the object graph, which may be cyclic; the
  embedding recurses structurally on a fuel argument and reports `Ret.nofuel`
  when it is used up.  `Ret.nofuel` is not a behaviour of the C code.
* The headers `srl_protocol.h`, `srl_encoder.h`, `srl_buffer.h` and `ptable.h`
  are not among the sources.  Their tag and option constants are parameters
  (`Protocol`); their functions and the numeric limits that the specification
  states are modelled from the specification.
-/

namespace Sereal

/-! ## Constants of the missing headers -/

/-- Tag bytes, encoding bits and option bits of `srl_protocol.h` and
`srl_encoder.h`.  The headers are not among the sources and the specification
names these values only symbolically, so they are parameters of the model. -/
structure Protocol where
  SRL_MAGIC_STRING : List Nat
  SRL_PROTOCOL_VERSION : Nat
  SRL_PROTOCOL_ENCODING_RAW : Nat
  SRL_PROTOCOL_ENCODING_SNAPPY : Nat
  SRL_PROTOCOL_ENCODING_SNAPPY_INCREMENTAL : Nat
  SRL_HDR_POS_LOW : Nat
  SRL_HDR_NEG_LOW : Nat
  SRL_HDR_VARINT : Nat
  SRL_HDR_ZIGZAG : Nat
  SRL_HDR_DOUBLE : Nat
  SRL_HDR_BINARY : Nat
  SRL_HDR_STR_UTF8 : Nat
  SRL_HDR_REFN : Nat
  SRL_HDR_REFP : Nat
  SRL_HDR_ARRAY : Nat
  SRL_HDR_COPY : Nat
  SRL_HDR_FALSE : Nat
  SRL_HDR_TRUE : Nat
  SRL_HDR_ARRAYREF_LOW : Nat
  SRL_HDR_SHORT_BINARY_LOW : Nat
  SRL_F_SHARED_HASHKEYS : Nat
  SRL_F_COMPRESS_SNAPPY : Nat
  SRL_F_COMPRESS_SNAPPY_INCREMENTAL : Nat
  INITIAL_BUFFER_SIZE : Nat

/-- The values of the Sereal protocol, version 1: the instance of the
parameters at which the concrete scenarios are evaluated.  The magic string is
`=srl`; the initial buffer size is the one the specification suggests. -/
def srl_v1 : Protocol where
  SRL_MAGIC_STRING := [0x3D, 0x73, 0x72, 0x6C]
  SRL_PROTOCOL_VERSION := 1
  SRL_PROTOCOL_ENCODING_RAW := 0x00
  SRL_PROTOCOL_ENCODING_SNAPPY := 0x10
  SRL_PROTOCOL_ENCODING_SNAPPY_INCREMENTAL := 0x20
  SRL_HDR_POS_LOW := 0x00
  SRL_HDR_NEG_LOW := 0x10
  SRL_HDR_VARINT := 0x20
  SRL_HDR_ZIGZAG := 0x21
  SRL_HDR_DOUBLE := 0x23
  SRL_HDR_BINARY := 0x26
  SRL_HDR_STR_UTF8 := 0x27
  SRL_HDR_REFN := 0x28
  SRL_HDR_REFP := 0x29
  SRL_HDR_ARRAY := 0x2B
  SRL_HDR_COPY := 0x2F
  SRL_HDR_FALSE := 0x3A
  SRL_HDR_TRUE := 0x3B
  SRL_HDR_ARRAYREF_LOW := 0x40
  SRL_HDR_SHORT_BINARY_LOW := 0x60
  SRL_F_SHARED_HASHKEYS := 1
  SRL_F_COMPRESS_SNAPPY := 2
  SRL_F_COMPRESS_SNAPPY_INCREMENTAL := 4
  INITIAL_BUFFER_SIZE := 1024

/-- Modelled from the spec: `SRL_MASK_SHORT_BINARY_LEN` of `srl_protocol.h`;
the short byte-string form holds lengths up to 31. -/
def SRL_MASK_SHORT_BINARY_LEN : Nat := 31

/-- Modelled from the spec: `SRL_MASK_ARRAYREF_COUNT` of `srl_protocol.h`;
the small array tag holds lengths up to 15. -/
def SRL_MASK_ARRAYREF_COUNT : Nat := 15

/-- Modelled from the spec: `SRL_MAX_VARINT_LENGTH` of `srl_protocol.h`;
the varint of a 64-bit integer has at most 10 bytes. -/
def SRL_MAX_VARINT_LENGTH : Nat := 10

/-- Modelled from the spec: the flag bit of `SRL_SET_FBIT`, the top bit of a
tag byte. -/
def SRL_HDR_TRACK_FLAG : Nat := 0x80

/-! ## The host: objects, allocator, recursion probe -/

/-- A Python object as the encoder observes it through the C API: what the
type checks answer and what the extractors return.  A float is its 64-bit
pattern; a text string is the result of `PyUnicode_AsUTF8String` (`none` when
the transcoding fails); a list holds the addresses of its items.  An instance
of a subclass answers the subclass checks like the base type and is the same
constructor here. -/
inductive PyObject where
  | pybool (b : Bool)
  | pyint (l : Int)
  | pyfloat (bits : Nat)
  | pystring (s : List Nat)
  | pyunicode (utf8 : Option (List Nat))
  | pylist (items : List Nat)
  | other (tp_name : String)
  deriving DecidableEq, Repr

/-- The interpreter around the encoder: the object at every address, whether
an allocation of a buffer of `n` bytes succeeds, whether an insertion into a
seen table holding `n` entries succeeds, the recursion limit that
`Py_EnterRecursiveCall` enforces (`none`: it never refuses), whether the
allocator moves the buffer when it grows the block `k` to `n` bytes
(`realloc_moves k n`), and the address of the block `k` of the buffer. -/
structure Host where
  heap : Nat → PyObject
  malloc_ok : Nat → Bool
  ptable_ok : Nat → Bool
  recursion_limit : Option Nat
  realloc_moves : Nat → Nat → Bool
  block_addr : Nat → Nat

/-- The Python error set by a failing call. -/
inductive PyErr where
  /-- The `NotImplementedError` "Snappy compression not implemented yet". -/
  | NotImplementedError_snappy
  /-- The `NotImplementedError` "srl_dump_pyobjc: %s dumping not implemented yet". -/
  | NotImplementedError_type (tp_name : String)
  /-- The `RuntimeError` "Hit maximum recursion depth (%lu),aborting serialization". -/
  | RuntimeError_max_depth (max_recursion_depth : Nat)
  /-- The `RuntimeError` of a refusing `Py_EnterRecursiveCall(msg)`. -/
  | RuntimeError_host (msg : String)
  /-- An allocation failed. -/
  | MemoryError
  /-- The transcoding `PyUnicode_AsUTF8String` failed. -/
  | UnicodeError
  /-- An extractor was applied to an object of another type. -/
  | TypeError
  deriving DecidableEq, Repr

/-- The outcome of a C function with an `int` status: `ok` is `0`, `fail e` is
`-1` with `e` set, `nofuel` is the embedding running out of fuel. -/
inductive Ret where
  | ok
  | fail (e : PyErr)
  | nofuel
  deriving DecidableEq, Repr

/-! ## The encoder session -/

/-- A `char *` into the output buffer: the block of the buffer that it points
into and the offset in that block. -/
structure Ptr where
  block : Nat
  ofs : Nat
  deriving DecidableEq, Repr

/-- One call of the dispatcher `srl_dump_pyobj` that passed the recursion
guard: the object, the write position at that moment and, when a pointer was
found for the object in the seen table, the offset that the emitter of the
object computes from it: `pos - enc->buf_start`, for a list of more than 15
items after its `pos++`. -/
structure Visit where
  obj : Nat
  ofs : Nat
  prior : Option Nat
  deriving DecidableEq, Repr

/-- The session `srl_encoder_t`.  The buffer lies in the block `buf_block`:
`enc->buf_start` is the pointer to the offset 0 of that block, `buf` holds the
bytes `buf_start .. pos`, so that `enc->pos` is the pointer to the offset
`buf.length`, and `buf_size` is `buf_end - buf_start`.  The seen table
`obj_seenhash` holds, for an object address, the `char *` that was `enc->pos`
when the object was recorded.  Four fields are not fields of the C struct:
`py_recursion_depth` is the interpreter's counter behind
`Py_EnterRecursiveCall`; `overrun`, `stale_write` and `visits` are ghost state
that no function reads: `overrun` records that an unchecked append wrote past
`buf_end`, `stale_write` that `SRL_SET_FBIT` wrote through a pointer that does
not point at a byte of the output, and `visits` lists the dispatcher's calls in
order. -/
structure srl_encoder_t where
  buf : List Nat
  buf_size : Nat
  buf_block : Nat
  operational_flags : Nat
  flags : Nat
  max_recursion_depth : Nat
  recursion_depth : Nat
  obj_seenhash : Option (List (Nat × Ptr))
  py_recursion_depth : Nat
  overrun : Bool
  stale_write : Bool
  visits : List Visit
  deriving DecidableEq, Repr

/-- The pointer `enc->buf_start`. -/
def srl_encoder_t.buf_start (enc : srl_encoder_t) : Ptr where
  block := enc.buf_block
  ofs := 0

/-- The pointer `enc->pos`. -/
def srl_encoder_t.pos (enc : srl_encoder_t) : Ptr where
  block := enc.buf_block
  ofs := enc.buf.length

/-- The constructor arguments `srl_encoder_ctor_args`. -/
structure srl_encoder_ctor_args where
  flags : Nat
  max_recursion_depth : Nat
  deriving DecidableEq, Repr

/-- The defaults `default_encoder_ctor_args`. -/
def default_encoder_ctor_args (P : Protocol) : srl_encoder_ctor_args where
  flags := P.SRL_F_SHARED_HASHKEYS
  max_recursion_depth := 0

/-- The session that `srl_encoder_ctor` sets up when its allocation succeeds:
an empty buffer of `INITIAL_BUFFER_SIZE - 1` usable bytes in the block 0, depth
0 and no seen table. -/
def fresh_session (P : Protocol) (args : srl_encoder_ctor_args) : srl_encoder_t where
  buf := []
  buf_size := P.INITIAL_BUFFER_SIZE - 1
  buf_block := 0
  operational_flags := 0
  flags := args.flags
  max_recursion_depth := args.max_recursion_depth
  recursion_depth := 0
  obj_seenhash := none
  py_recursion_depth := 0
  overrun := false
  stale_write := false
  visits := []

/-- The constructor `srl_encoder_ctor`: `none` is the return value `-1`. -/
def srl_encoder_ctor (P : Protocol) (h : Host) (args : srl_encoder_ctor_args) :
    Option srl_encoder_t :=
  if h.malloc_ok P.INITIAL_BUFFER_SIZE then some (fresh_session P args) else none

/-- The macro `SRL_ENC_HAVE_OPTION`. -/
def SRL_ENC_HAVE_OPTION (enc : srl_encoder_t) (flag_num : Nat) : Bool :=
  enc.flags &&& flag_num != 0

/-! ## The output buffer (`srl_buffer.h`) -/

/-- Modelled from the spec: the varint of `srl_buffer.h`, little-endian 7-bit
groups with the high bit set on every byte but the last.  The first argument
bounds the number of continuation bytes. -/
def varint_loop : Nat → Nat → List Nat
  | 0, n => [n]
  | k + 1, n => if n < 128 then [n] else (n % 128 + 128) :: varint_loop k (n / 128)

/-- Modelled from the spec: the varint of `n`; it always has at least one
byte. -/
def varint (n : Nat) : List Nat := varint_loop n n

/-- Conversion of a C `long` to `unsigned long`. -/
def to_ulong (l : Int) : Nat := (l % 2 ^ 64).toNat

/-- Conversion to `char`, as the byte it stores. -/
def to_char (l : Int) : Nat := (l % 256).toNat

/-- Modelled from the spec: the zigzag map `(n << 1) XOR (n >> 63)` on a
64-bit `long`, as an `unsigned long`. -/
def zigzag (l : Int) : Nat :=
  ((2 * to_ulong l) % 2 ^ 64) ^^^ (if l < 0 then 2 ^ 64 - 1 else 0)

/-- Modelled from the spec: the eight bytes of a double, little-endian. -/
def double_bytes (bits : Nat) : List Nat :=
  (List.range 8).map (fun i => bits / 256 ^ i % 256)

/-- Modelled from the spec: the checked layer `BUF_SIZE_ASSERT` of
`srl_buffer.h`: ensure room for `minlen` more bytes, growing the buffer to at
least twice its size when there is not; the growth fails when the allocator
refuses, and otherwise the buffer stays in its block or moves to the next
one, with its bytes, as the allocator decides. -/
def BUF_SIZE_ASSERT (h : Host) (enc : srl_encoder_t) (minlen : Nat) : Ret × srl_encoder_t :=
  if enc.buf.length + minlen ≤ enc.buf_size then (Ret.ok, enc)
  else if h.malloc_ok (max (2 * enc.buf_size) (enc.buf.length + minlen)) then
    (Ret.ok, { enc with
      buf_size := max (2 * enc.buf_size) (enc.buf.length + minlen)
      buf_block :=
        if h.realloc_moves enc.buf_block (max (2 * enc.buf_size) (enc.buf.length + minlen)) then
          enc.buf_block + 1
        else enc.buf_block })
  else (Ret.fail PyErr.MemoryError, enc)

/-- Modelled from the spec: the unchecked append `srl_buf_cat_str_nocheck`. -/
def srl_buf_cat_str_nocheck (enc : srl_encoder_t) (str : List Nat) : srl_encoder_t :=
  { enc with
    buf := enc.buf ++ str
    overrun := enc.overrun || decide (enc.buf_size < enc.buf.length + str.length) }

/-- Modelled from the spec: the unchecked append `srl_buf_cat_char_nocheck`. -/
def srl_buf_cat_char_nocheck (enc : srl_encoder_t) (c : Nat) : srl_encoder_t :=
  srl_buf_cat_str_nocheck enc [c]

/-- Modelled from the spec: the unchecked tag+varint append
`srl_buf_cat_varint_nocheck`. -/
def srl_buf_cat_varint_nocheck (enc : srl_encoder_t) (tag : Nat) (n : Nat) : srl_encoder_t :=
  srl_buf_cat_str_nocheck (srl_buf_cat_char_nocheck enc tag) (varint n)

/-- Modelled from the spec: the checked append `srl_buf_cat_char`. -/
def srl_buf_cat_char (h : Host) (enc : srl_encoder_t) (c : Nat) : Ret × srl_encoder_t :=
  match BUF_SIZE_ASSERT h enc 1 with
  | (Ret.ok, enc1) => (Ret.ok, srl_buf_cat_char_nocheck enc1 c)
  | r => r

/-- Modelled from the spec: the checked tag+varint append
`srl_buf_cat_varint`. -/
def srl_buf_cat_varint (h : Host) (enc : srl_encoder_t) (tag : Nat) (n : Nat) :
    Ret × srl_encoder_t :=
  match BUF_SIZE_ASSERT h enc (SRL_MAX_VARINT_LENGTH + 1) with
  | (Ret.ok, enc1) => (Ret.ok, srl_buf_cat_varint_nocheck enc1 tag n)
  | r => r

/-- Modelled from the spec: the checked tag+zigzag append
`srl_buf_cat_zigzag`. -/
def srl_buf_cat_zigzag (h : Host) (enc : srl_encoder_t) (tag : Nat) (n : Int) :
    Ret × srl_encoder_t :=
  srl_buf_cat_varint h enc tag (zigzag n)

/-- Modelled from the spec: the checked tag+double append
`srl_buf_cat_double`. -/
def srl_buf_cat_double (h : Host) (enc : srl_encoder_t) (tag : Nat) (bits : Nat) :
    Ret × srl_encoder_t :=
  match BUF_SIZE_ASSERT h enc (1 + 8) with
  | (Ret.ok, enc1) =>
    (Ret.ok, srl_buf_cat_str_nocheck (srl_buf_cat_char_nocheck enc1 tag) (double_bytes bits))
  | r => r

/-- The address of a pointer: the address of its block plus its offset. -/
def ptr_addr (h : Host) (p : Ptr) : Nat := h.block_addr p.block + p.ofs

/-- The pointer difference `p - q` as the `unsigned long` that the emitters
assign it to: the difference of the two addresses modulo `2 ^ 64`.  For two
pointers into the same block it is the difference of their offsets. -/
def ptr_diff (h : Host) (p q : Ptr) : Nat :=
  if ptr_addr h q ≤ ptr_addr h p then ptr_addr h p - ptr_addr h q
  else 2 ^ 64 - (ptr_addr h q - ptr_addr h p)

/-- The pointer `p + 1`. -/
def ptr_succ (p : Ptr) : Ptr where
  block := p.block
  ofs := p.ofs + 1

/-- Modelled from the spec: the macro `SRL_SET_FBIT` applied to `*pos`.  When
`pos` points at a byte of the output, the flag bit of that byte is set.  When
it does not (it points into a block that the buffer has left), no byte of the
output is changed and the write is recorded in `stale_write`. -/
def SRL_SET_FBIT (enc : srl_encoder_t) (pos : Ptr) : srl_encoder_t :=
  if pos.block = enc.buf_block ∧ pos.ofs < enc.buf.length then
    { enc with buf := enc.buf.set pos.ofs (enc.buf.getD pos.ofs 0 ||| SRL_HDR_TRACK_FLAG) }
  else { enc with stale_write := true }

/-! ## The seen table (`ptable.h`) -/

/-- Modelled from the spec: `PTABLE_fetch`, the value stored under a key. -/
def PTABLE_fetch (tbl : List (Nat × Ptr)) (key : Nat) : Option Ptr :=
  (tbl.find? (fun e => e.1 == key)).map (fun e => e.2)

/-- Modelled from the spec: `PTABLE_store`; the entry stored last for a key is
the one `PTABLE_fetch` finds. -/
def PTABLE_store (tbl : List (Nat × Ptr)) (key : Nat) (val : Ptr) : List (Nat × Ptr) :=
  (key, val) :: tbl

/-- The function `srl_track_obj`: the object is stored with the pointer
`enc->pos`. -/
def srl_track_obj (h : Host) (enc : srl_encoder_t) (obj : Nat) : Ret × srl_encoder_t :=
  match enc.obj_seenhash with
  | none =>
    if h.ptable_ok 0 then
      (Ret.ok, { enc with obj_seenhash := some (PTABLE_store [] obj enc.pos) })
    else (Ret.fail PyErr.MemoryError, enc)
  | some tbl =>
    if h.ptable_ok tbl.length then
      (Ret.ok, { enc with obj_seenhash := some (PTABLE_store tbl obj enc.pos) })
    else (Ret.fail PyErr.MemoryError, enc)

/-- The function `srl_find_obj`. -/
def srl_find_obj (enc : srl_encoder_t) (obj : Nat) : Option Ptr :=
  match enc.obj_seenhash with
  | none => none
  | some tbl => PTABLE_fetch tbl obj

/-! ## The C API of the host -/

/-- The type check `PyBool_Check`. -/
def PyBool_Check : PyObject → Bool
  | PyObject.pybool _ => true
  | _ => false

/-- The type check `PyInt_CheckExact`. -/
def PyInt_CheckExact : PyObject → Bool
  | PyObject.pyint _ => true
  | _ => false

/-- The type check `PyInt_Check`; `bool` is a subclass of `int`. -/
def PyInt_Check : PyObject → Bool
  | PyObject.pyint _ => true
  | PyObject.pybool _ => true
  | _ => false

/-- The type checks `PyFloat_CheckExact` and `PyFloat_Check`. -/
def PyFloat_Check : PyObject → Bool
  | PyObject.pyfloat _ => true
  | _ => false

/-- The type checks `PyString_CheckExact` and `PyString_Check`. -/
def PyString_Check : PyObject → Bool
  | PyObject.pystring _ => true
  | _ => false

/-- The type checks `PyUnicode_CheckExact` and `PyUnicode_Check`. -/
def PyUnicode_Check : PyObject → Bool
  | PyObject.pyunicode _ => true
  | _ => false

/-- The type checks `PyList_CheckExact` and `PyList_Check`. -/
def PyList_Check : PyObject → Bool
  | PyObject.pylist _ => true
  | _ => false

/-- The extractor `PyInt_AS_LONG`. -/
def PyInt_AS_LONG : PyObject → Int
  | PyObject.pyint l => l
  | PyObject.pybool b => if b then 1 else 0
  | _ => 0

/-- The extractor `PyFloat_AS_DOUBLE`, as the bit pattern. -/
def PyFloat_AS_DOUBLE : PyObject → Nat
  | PyObject.pyfloat bits => bits
  | _ => 0

/-- The extractor `PyString_AsStringAndSize`: the bytes `p[0 .. n)`, or `none`
for the return value `-1`. -/
def PyString_AsStringAndSize : PyObject → Option (List Nat)
  | PyObject.pystring s => some s
  | _ => none

/-- The transcoding `PyUnicode_AsUTF8String` followed by
`PyString_AsStringAndSize` on its result. -/
def PyUnicode_AsUTF8String : PyObject → Option (List Nat)
  | PyObject.pyunicode utf8 => utf8
  | _ => none

/-- The items `PyList_GET_ITEM(obj, 0 .. PyList_GET_SIZE(obj) - 1)`. -/
def PyList_items : PyObject → List Nat
  | PyObject.pylist items => items
  | _ => []

/-- The name `Py_TYPE(obj)->tp_name`. -/
def tp_name : PyObject → String
  | PyObject.pybool _ => "bool"
  | PyObject.pyint _ => "int"
  | PyObject.pyfloat _ => "float"
  | PyObject.pystring _ => "str"
  | PyObject.pyunicode _ => "unicode"
  | PyObject.pylist _ => "list"
  | PyObject.other n => n

/-! ## The encoder -/

/-- The function `VARINT_LEN`: `1 + x / (1<<7)` computed in `unsigned long`
and returned as `unsigned`. -/
def VARINT_LEN (x : Nat) : Nat := (1 + x % 2 ^ 64 / 128) % 2 ^ 64 % 2 ^ 32

/-- The function `SRL_ENTER_RECURSIVE_CALL`. -/
def SRL_ENTER_RECURSIVE_CALL (h : Host) (enc : srl_encoder_t) (msg : String) :
    Ret × srl_encoder_t :=
  if (match h.recursion_limit with
      | some lim => decide (lim < enc.py_recursion_depth + 1)
      | none => false) then
    (Ret.fail (PyErr.RuntimeError_host msg), enc)
  else
    let enc1 := { enc with
      py_recursion_depth := enc.py_recursion_depth + 1
      recursion_depth := enc.recursion_depth + 1 }
    if enc1.max_recursion_depth != 0 && decide (enc1.recursion_depth ≥ enc1.max_recursion_depth) then
      (Ret.fail (PyErr.RuntimeError_max_depth enc1.max_recursion_depth), enc1)
    else (Ret.ok, enc1)

/-- The function `SRL_LEAVE_RECURSIVE_CALL`. -/
def SRL_LEAVE_RECURSIVE_CALL (enc : srl_encoder_t) : srl_encoder_t :=
  { enc with
    py_recursion_depth := enc.py_recursion_depth - 1
    recursion_depth := enc.recursion_depth - 1 }

/-- The function `srl_write_header`.  The status of its `BUF_SIZE_ASSERT` is
not looked at; `sizeof(SRL_MAGIC_STRING)` counts the terminating zero. -/
def srl_write_header (P : Protocol) (h : Host) (enc : srl_encoder_t) : srl_encoder_t :=
  let version_and_flags :=
    (P.SRL_PROTOCOL_VERSION |||
      (if SRL_ENC_HAVE_OPTION enc P.SRL_F_COMPRESS_SNAPPY then P.SRL_PROTOCOL_ENCODING_SNAPPY
       else if SRL_ENC_HAVE_OPTION enc P.SRL_F_COMPRESS_SNAPPY_INCREMENTAL then
         P.SRL_PROTOCOL_ENCODING_SNAPPY_INCREMENTAL
       else P.SRL_PROTOCOL_ENCODING_RAW)) % 256
  let enc1 := (BUF_SIZE_ASSERT h enc ((P.SRL_MAGIC_STRING.length + 1) + 1 + 1)).2
  let enc2 := srl_buf_cat_str_nocheck enc1 P.SRL_MAGIC_STRING
  let enc3 := srl_buf_cat_char_nocheck enc2 version_and_flags
  srl_buf_cat_char_nocheck enc3 0

/-- The function `srl_dump_long`. -/
def srl_dump_long (P : Protocol) (h : Host) (enc : srl_encoder_t) (n : Int) :
    Ret × srl_encoder_t :=
  if n ≥ 0 then
    if n < 16 then srl_buf_cat_char h enc (P.SRL_HDR_POS_LOW ||| to_char n)
    else srl_buf_cat_varint h enc P.SRL_HDR_VARINT (to_ulong n)
  else
    if n > -17 then srl_buf_cat_char h enc (P.SRL_HDR_NEG_LOW ||| to_char (n + 32))
    else srl_buf_cat_zigzag h enc P.SRL_HDR_ZIGZAG n

/-- The function `srl_dump_pyint`; `pos` is the pointer found in the seen
table, `none` for `NULL`. -/
def srl_dump_pyint (P : Protocol) (h : Host) (enc : srl_encoder_t) (obj : Nat)
    (pos : Option Ptr) : Ret × srl_encoder_t :=
  let l := PyInt_AS_LONG (h.heap obj)
  match pos with
  | some p =>
    let d := ptr_diff h p enc.buf_start
    if l > 0 then
      if VARINT_LEN (to_ulong l) > VARINT_LEN d then srl_buf_cat_varint h enc P.SRL_HDR_COPY d
      else srl_dump_long P h enc l
    else
      let zz := zigzag l
      if VARINT_LEN zz > VARINT_LEN d then srl_buf_cat_varint h enc P.SRL_HDR_COPY d
      else srl_dump_long P h enc l
  | none => srl_dump_long P h enc l

/-- The function `srl_dump_pyfloat`; `sizeof(double)` is 8. -/
def srl_dump_pyfloat (P : Protocol) (h : Host) (enc : srl_encoder_t) (obj : Nat)
    (pos : Option Ptr) : Ret × srl_encoder_t :=
  match pos with
  | some p =>
    let d := ptr_diff h p enc.buf_start
    if VARINT_LEN d < 8 then srl_buf_cat_varint h enc P.SRL_HDR_COPY d
    else srl_buf_cat_double h enc P.SRL_HDR_DOUBLE (PyFloat_AS_DOUBLE (h.heap obj))
  | none => srl_buf_cat_double h enc P.SRL_HDR_DOUBLE (PyFloat_AS_DOUBLE (h.heap obj))

/-- The function `srl_dump_binary`, for the bytes `p[0 .. n)`. -/
def srl_dump_binary (P : Protocol) (h : Host) (enc : srl_encoder_t) (p : List Nat) :
    Ret × srl_encoder_t :=
  let n := p.length
  match BUF_SIZE_ASSERT h enc (1 + SRL_MAX_VARINT_LENGTH + n) with
  | (Ret.ok, enc1) =>
    let enc2 :=
      if n ≤ SRL_MASK_SHORT_BINARY_LEN then
        srl_buf_cat_char_nocheck enc1 (P.SRL_HDR_SHORT_BINARY_LOW ||| to_char n)
      else srl_buf_cat_varint_nocheck enc1 P.SRL_HDR_BINARY n
    (Ret.ok, srl_buf_cat_str_nocheck enc2 p)
  | r => r

/-- The function `srl_dump_pystring`; `(unsigned)n` keeps the low 32 bits. -/
def srl_dump_pystring (P : Protocol) (h : Host) (enc : srl_encoder_t) (obj : Nat)
    (pos : Option Ptr) : Ret × srl_encoder_t :=
  match PyString_AsStringAndSize (h.heap obj) with
  | none => (Ret.fail PyErr.TypeError, enc)
  | some p =>
    let n := p.length
    match pos with
    | some q =>
      let d := ptr_diff h q enc.buf_start
      if VARINT_LEN d < n % 2 ^ 32 then srl_buf_cat_varint h enc P.SRL_HDR_COPY d
      else srl_dump_binary P h enc p
    | none => srl_dump_binary P h enc p

/-- The function `srl_dump_pyunicode`. -/
def srl_dump_pyunicode (P : Protocol) (h : Host) (enc : srl_encoder_t) (obj : Nat)
    (pos : Option Ptr) : Ret × srl_encoder_t :=
  match PyUnicode_AsUTF8String (h.heap obj) with
  | none => (Ret.fail PyErr.UnicodeError, enc)
  | some p =>
    let n := p.length
    let inline_form : Ret × srl_encoder_t :=
      match BUF_SIZE_ASSERT h enc (1 + SRL_MAX_VARINT_LENGTH + n) with
      | (Ret.ok, enc1) =>
        (Ret.ok, srl_buf_cat_str_nocheck (srl_buf_cat_varint_nocheck enc1 P.SRL_HDR_STR_UTF8 n) p)
      | r => r
    match pos with
    | some q =>
      let d := ptr_diff h q enc.buf_start
      if VARINT_LEN d < n % 2 ^ 32 then srl_buf_cat_varint h enc P.SRL_HDR_COPY d
      else inline_form
    | none => inline_form

/-- The item loop of `srl_dump_pylist`: `dump` is `srl_dump_pyobj`, applied to
the items in index order until one fails. -/
def srl_dump_items (dump : srl_encoder_t → Nat → Ret × srl_encoder_t) :
    List Nat → srl_encoder_t → Ret × srl_encoder_t
  | [], enc => (Ret.ok, enc)
  | item :: rest, enc =>
    match dump enc item with
    | (Ret.ok, enc1) => srl_dump_items dump rest enc1
    | r => r

/-- The header of a list in `srl_dump_pylist` (the branch on
`len <= SRL_MASK_ARRAYREF_COUNT`): the tag `ARRAYREF_LOW + len`, or `REFN`,
`ARRAY` and the varint of `len`. -/
def srl_dump_list_header (P : Protocol) (h : Host) (enc : srl_encoder_t) (len : Nat) :
    Ret × srl_encoder_t :=
  if len ≤ SRL_MASK_ARRAYREF_COUNT then
    srl_buf_cat_char h enc ((P.SRL_HDR_ARRAYREF_LOW + to_char len) % 256)
  else
    match BUF_SIZE_ASSERT h enc (1 + 1 + SRL_MAX_VARINT_LENGTH) with
    | (Ret.ok, enc2) =>
      (Ret.ok, srl_buf_cat_varint_nocheck (srl_buf_cat_char_nocheck enc2 P.SRL_HDR_REFN)
        P.SRL_HDR_ARRAY len)
    | r => r

/-- The function `srl_dump_pylist`; `dump` is the recursive call of
`srl_dump_pyobj`. -/
def srl_dump_pylist (P : Protocol) (h : Host)
    (dump : srl_encoder_t → Nat → Ret × srl_encoder_t)
    (enc : srl_encoder_t) (obj : Nat) (pos : Option Ptr) : Ret × srl_encoder_t :=
  match SRL_ENTER_RECURSIVE_CALL h enc " serializing list" with
  | (Ret.ok, enc1) =>
    let items := PyList_items (h.heap obj)
    let len := items.length
    match pos with
    | some p =>
      let p1 := if len > SRL_MASK_ARRAYREF_COUNT then ptr_succ p else p
      let enc2 := SRL_SET_FBIT enc1 p1
      let r := srl_buf_cat_varint h enc2 P.SRL_HDR_REFP (ptr_diff h p1 enc2.buf_start)
      (r.1, SRL_LEAVE_RECURSIVE_CALL r.2)
    | none =>
      match srl_dump_list_header P h enc1 len with
      | (Ret.ok, enc3) =>
        let r1 := srl_dump_items dump items enc3
        (r1.1, SRL_LEAVE_RECURSIVE_CALL r1.2)
      | (e, enc3) => (e, SRL_LEAVE_RECURSIVE_CALL enc3)
  | r => r

/-- The classification of `srl_dump_pyobj`. -/
inductive srl_type where
  | NONE | BOOL | INT | FLOAT | STRING | UNICODE | LIST
  deriving DecidableEq, Repr

/-- The classification of `srl_dump_pyobj`: the exact checks, then the
subclass checks with `bool` before `int`. -/
def srl_classify (o : PyObject) : srl_type :=
  if PyInt_CheckExact o then srl_type.INT
  else if PyFloat_Check o then srl_type.FLOAT
  else if PyString_Check o then srl_type.STRING
  else if PyUnicode_Check o then srl_type.UNICODE
  else if PyList_Check o then srl_type.LIST
  else if PyBool_Check o then srl_type.BOOL
  else if PyInt_Check o then srl_type.INT
  else if PyFloat_Check o then srl_type.FLOAT
  else if PyString_Check o then srl_type.STRING
  else if PyUnicode_Check o then srl_type.UNICODE
  else if PyList_Check o then srl_type.LIST
  else srl_type.NONE

/-- The switch of `srl_dump_pyobj` over the classification. -/
def srl_dump_switch (P : Protocol) (h : Host)
    (dump : srl_encoder_t → Nat → Ret × srl_encoder_t)
    (type : srl_type) (enc : srl_encoder_t) (obj : Nat) (pos : Option Ptr) :
    Ret × srl_encoder_t :=
  match type with
  | srl_type.INT => srl_dump_pyint P h enc obj pos
  | srl_type.BOOL =>
    srl_buf_cat_char h enc
      (if h.heap obj = PyObject.pybool true then P.SRL_HDR_TRUE else P.SRL_HDR_FALSE)
  | srl_type.STRING => srl_dump_pystring P h enc obj pos
  | srl_type.UNICODE => srl_dump_pyunicode P h enc obj pos
  | srl_type.FLOAT => srl_dump_pyfloat P h enc obj pos
  | srl_type.LIST => srl_dump_pylist P h dump enc obj pos
  | srl_type.NONE => (Ret.fail (PyErr.NotImplementedError_type (tp_name (h.heap obj))), enc)

/-- The pointer that `srl_dump_pylist` flags and refers to for the list `obj`
found at the pointer `p`: `p` itself for the small array tag, `p + 1` (the
`ARRAY` after the `REFN`) for a list of more than 15 items. -/
def flag_ptr (h : Host) (obj : Nat) (p : Ptr) : Ptr :=
  if (PyList_items (h.heap obj)).length > SRL_MASK_ARRAYREF_COUNT then ptr_succ p else p

/-- The offset that the emitter of `obj` computes, in the session `enc`, from
the pointer `p` found in the seen table: `p - enc->buf_start`, for a list taken
from the pointer that it flags. -/
def emitter_ofs (h : Host) (enc : srl_encoder_t) (obj : Nat) (p : Ptr) : Nat :=
  ptr_diff h (if srl_classify (h.heap obj) = srl_type.LIST then flag_ptr h obj p else p)
    enc.buf_start

/-- The dispatcher `srl_dump_pyobj`, by recursion on the fuel.  The update of
`visits` is ghost code. -/
def srl_dump_pyobj (P : Protocol) (h : Host) :
    Nat → srl_encoder_t → Nat → Ret × srl_encoder_t
  | 0, enc, _ => (Ret.nofuel, enc)
  | fuel + 1, enc, obj =>
    match SRL_ENTER_RECURSIVE_CALL h enc " while Sereal dumping object" with
    | (Ret.ok, enc1) =>
      let type := srl_classify (h.heap obj)
      let pos := if type = srl_type.BOOL then none else srl_find_obj enc1 obj
      let enc2 := { enc1 with
        visits := enc1.visits ++ [{
          obj := obj
          ofs := enc1.buf.length
          prior := pos.map (emitter_ofs h enc1 obj) }] }
      let tracked : Ret × srl_encoder_t :=
        if type = srl_type.BOOL then (Ret.ok, enc2)
        else match pos with
          | some _ => (Ret.ok, enc2)
          | none => srl_track_obj h enc2 obj
      match tracked with
      | (Ret.ok, enc3) =>
        let r := srl_dump_switch P h (srl_dump_pyobj P h fuel) type enc3 obj pos
        (r.1, SRL_LEAVE_RECURSIVE_CALL r.2)
      | (e, enc3) => (e, SRL_LEAVE_RECURSIVE_CALL enc3)
    | r => r

/-- The result of `srl_encoder_dump`: the byte string, or `NULL` with the
error set. -/
inductive DumpRet where
  | bytes (out : List Nat)
  | fail (e : PyErr)
  | nofuel
  deriving DecidableEq, Repr

/-- The function `srl_encoder_dump`, with the session after the call. -/
def srl_encoder_dump (P : Protocol) (h : Host) (fuel : Nat) (enc : srl_encoder_t)
    (obj : Nat) : DumpRet × srl_encoder_t :=
  if !SRL_ENC_HAVE_OPTION enc (P.SRL_F_COMPRESS_SNAPPY ||| P.SRL_F_COMPRESS_SNAPPY_INCREMENTAL) then
    let enc1 := srl_write_header P h enc
    match srl_dump_pyobj P h fuel enc1 obj with
    | (Ret.ok, enc2) => (DumpRet.bytes enc2.buf, enc2)
    | (Ret.fail e, enc2) => (DumpRet.fail e, enc2)
    | (Ret.nofuel, enc2) => (DumpRet.nofuel, enc2)
  else (DumpRet.fail PyErr.NotImplementedError_snappy, enc)

/-! ## Hosts and sessions of the concrete scenarios -/

/-- A host in which no allocation fails, `Py_EnterRecursiveCall` never
refuses and the buffer stays in the block 0, over the given heap. -/
def host_of (heap : Nat → PyObject) : Host where
  heap := heap
  malloc_ok := fun _ => true
  ptable_ok := fun _ => true
  recursion_limit := none
  realloc_moves := fun _ _ => false
  block_addr := fun _ => 0

/-- The fresh session of the scenarios: protocol version 1, default
arguments. -/
def session_v1 : srl_encoder_t := fresh_session srl_v1 (default_encoder_ctor_args srl_v1)

/-! ## The dispatcher, split at its item loop

`srl_dump_pyobj` recurses only through the item loop of `srl_dump_pylist`.
The two definitions below are the dispatcher on the paths that reach the loop
(`list_open`: the session right before the first item) and on the paths that
do not (`srl_dump_leaf`); `srl_dump_pyobj_succ` proves that they add up to the
dispatcher. -/

/-- For a list that is not in the seen table, and when both recursion guards,
the table insertion and the write of the list header succeed: the session
right after the header, where the item loop starts.  Otherwise `none`. -/
def list_open (P : Protocol) (h : Host) (enc : srl_encoder_t) (obj : Nat) :
    Option srl_encoder_t :=
  match SRL_ENTER_RECURSIVE_CALL h enc " while Sereal dumping object" with
  | (Ret.ok, enc1) =>
    if srl_classify (h.heap obj) = srl_type.LIST then
      match srl_find_obj enc1 obj with
      | some _ => none
      | none =>
        match srl_track_obj h { enc1 with
            visits := enc1.visits ++ [{ obj := obj, ofs := enc1.buf.length, prior := none }] }
            obj with
        | (Ret.ok, enc3) =>
          match SRL_ENTER_RECURSIVE_CALL h enc3 " serializing list" with
          | (Ret.ok, enc4) =>
            match srl_dump_list_header P h enc4 (PyList_items (h.heap obj)).length with
            | (Ret.ok, enc5) => some enc5
            | _ => none
          | _ => none
        | _ => none
    else none
  | _ => none

/-- The dispatcher on the paths that do not reach the item loop; there it does
not call itself, and one unit of fuel is enough. -/
def srl_dump_leaf (P : Protocol) (h : Host) (enc : srl_encoder_t) (obj : Nat) :
    Ret × srl_encoder_t :=
  srl_dump_pyobj P h 1 enc obj

/-- The offset of the tag byte that `srl_dump_pylist` flags and refers to for
a list recorded at the offset `o`: `o` itself for the small array tag, one past
it (the `ARRAY` after the `REFN`) for a list of more than 15 items.  It is the
offset of `flag_ptr`. -/
def flag_ofs (h : Host) (obj o : Nat) : Nat :=
  if (PyList_items (h.heap obj)).length > SRL_MASK_ARRAYREF_COUNT then o + 1 else o

/-- The elementary changes of a session that the dispatcher is made of:
a change of the fields that carry no output (`buf_size`, `buf_block`,
`overrun`, the depth counters), an append to the buffer, a logged visit, the
recording of an object that is not in the seen table with the pointer to the
current write position, and the write of the flag bit through the pointer to
the tag of a recorded list. -/
inductive Prim (h : Host) : srl_encoder_t → srl_encoder_t → Prop where
  | misc (a b : srl_encoder_t) : b.buf = a.buf → b.obj_seenhash = a.obj_seenhash →
      b.visits = a.visits → b.flags = a.flags →
      b.max_recursion_depth = a.max_recursion_depth →
      b.operational_flags = a.operational_flags → Prim h a b
  | append (a : srl_encoder_t) (bytes : List Nat) : Prim h a { a with buf := a.buf ++ bytes }
  | visit (a : srl_encoder_t) (obj : Nat) (pos : Option Nat) :
      Prim h a { a with visits := a.visits ++ [{ obj := obj, ofs := a.buf.length, prior := pos }] }
  | track (a : srl_encoder_t) (obj : Nat) : srl_find_obj a obj = none →
      Prim h a { a with
        obj_seenhash := some (PTABLE_store (a.obj_seenhash.getD []) obj a.pos) }
  | flag (a : srl_encoder_t) (obj : Nat) (p : Ptr) : srl_find_obj a obj = some p →
      srl_classify (h.heap obj) = srl_type.LIST → Prim h a (SRL_SET_FBIT a (flag_ptr h obj p))

/-- A session reached from another one by elementary changes. -/
def Steps (h : Host) : srl_encoder_t → srl_encoder_t → Prop :=
  Relation.ReflTransGen (Prim h)

/-- The session `b` is `a` continued: the buffer is longer, the bytes of `a`
are unchanged but for the flag bit, set only on the tag of a list that `a`
has recorded; the seen table keeps its entries and every new entry is a
pointer to an offset at or behind the end of `a`; the visit log is extended, by
visits at or behind the end of `a`; the configuration is the same. -/
def Mono (h : Host) (a b : srl_encoder_t) : Prop :=
  a.buf.length ≤ b.buf.length ∧
  (∀ i, i < a.buf.length →
    b.buf.getD i 0 = a.buf.getD i 0 ∨
    (b.buf.getD i 0 = a.buf.getD i 0 ||| SRL_HDR_TRACK_FLAG ∧
      ∃ obj p, srl_find_obj a obj = some p ∧ srl_classify (h.heap obj) = srl_type.LIST ∧
        i = flag_ofs h obj p.ofs)) ∧
  (∀ obj p, srl_find_obj a obj = some p → srl_find_obj b obj = some p) ∧
  (∀ obj p, srl_find_obj b obj = some p →
    srl_find_obj a obj = some p ∨ (srl_find_obj a obj = none ∧ a.buf.length ≤ p.ofs)) ∧
  (∃ vs, b.visits = a.visits ++ vs ∧ ∀ v ∈ vs, a.buf.length ≤ v.ofs) ∧
  b.flags = a.flags ∧ b.max_recursion_depth = a.max_recursion_depth

/-- The session after the dispatcher `dump` has been applied to the items in
order, each call starting from the session that the previous one left. -/
def run_items (dump : srl_encoder_t → Nat → Ret × srl_encoder_t) :
    List Nat → srl_encoder_t → srl_encoder_t
  | [], enc => enc
  | item :: rest, enc => run_items dump rest (dump enc item).2

/-- The bytes of a list header: the tag `ARRAYREF_LOW + len` for up to 15
items, else `REFN`, `ARRAY` and the varint of `len`. -/
def list_header_bytes (P : Protocol) (len : Nat) : List Nat :=
  if len ≤ 15 then [(P.SRL_HDR_ARRAYREF_LOW + len) % 256]
  else P.SRL_HDR_REFN :: P.SRL_HDR_ARRAY :: varint len

/-! ## The bytes of one value -/

/-- The inline form of a value that is not a list: what its emitter appends
when it does not emit COPY. -/
def scalar_inline (P : Protocol) : PyObject → List Nat
  | PyObject.pybool b => [if b then P.SRL_HDR_TRUE else P.SRL_HDR_FALSE]
  | PyObject.pyint l =>
    if l ≥ 0 then
      if l < 16 then [P.SRL_HDR_POS_LOW ||| to_char l]
      else P.SRL_HDR_VARINT :: varint (to_ulong l)
    else
      if l > -17 then [P.SRL_HDR_NEG_LOW ||| to_char (l + 32)]
      else P.SRL_HDR_ZIGZAG :: varint (zigzag l)
  | PyObject.pyfloat bits => P.SRL_HDR_DOUBLE :: double_bytes bits
  | PyObject.pystring s =>
    if s.length ≤ SRL_MASK_SHORT_BINARY_LEN then
      (P.SRL_HDR_SHORT_BINARY_LOW ||| to_char s.length) :: s
    else P.SRL_HDR_BINARY :: (varint s.length ++ s)
  | PyObject.pyunicode (some s) => P.SRL_HDR_STR_UTF8 :: (varint s.length ++ s)
  | _ => []

/-- The test under which the emitter of a value emits COPY, for the offset `d`
that it has computed from the pointer found. -/
def copy_test : PyObject → Nat → Bool
  | PyObject.pyint l, d =>
    if l > 0 then decide (VARINT_LEN (to_ulong l) > VARINT_LEN d)
    else decide (VARINT_LEN (zigzag l) > VARINT_LEN d)
  | PyObject.pyfloat _, d => decide (VARINT_LEN d < 8)
  | PyObject.pystring s, d => decide (VARINT_LEN d < s.length % 2 ^ 32)
  | PyObject.pyunicode (some s), d => decide (VARINT_LEN d < s.length % 2 ^ 32)
  | _, _ => false

/-- The bytes that the emitter of a value that is not a list appends, given
the offset computed from the pointer found in the seen table: COPY and the
varint of the offset when the test holds, the inline form otherwise. -/
def scalar_bytes (P : Protocol) (o : PyObject) (pos : Option Nat) : List Nat :=
  match pos with
  | some d => if copy_test o d then P.SRL_HDR_COPY :: varint d else scalar_inline P o
  | none => scalar_inline P o

/-- The session `b` is `a` with `bytes` appended to the buffer; the seen table,
the visit log, the depth counters and the configuration are those of `a`. -/
def Emitted (a b : srl_encoder_t) (bytes : List Nat) : Prop :=
  b.buf = a.buf ++ bytes ∧ b.obj_seenhash = a.obj_seenhash ∧ b.visits = a.visits ∧
  b.recursion_depth = a.recursion_depth ∧ b.py_recursion_depth = a.py_recursion_depth ∧
  b.flags = a.flags ∧ b.max_recursion_depth = a.max_recursion_depth ∧
  b.operational_flags = a.operational_flags

/-- The session `e` in which the item loop of a list starts, for a list `obj`
that the session `a` has not recorded: the visit is logged, the list is
recorded with the pointer to the write position of `a`, its header is
appended, and both recursion guards have been passed. -/
def ListOpened (P : Protocol) (h : Host) (a : srl_encoder_t) (obj : Nat) (e : srl_encoder_t) :
    Prop :=
  e.buf = a.buf ++ list_header_bytes P (PyList_items (h.heap obj)).length ∧
  e.obj_seenhash = some (PTABLE_store (a.obj_seenhash.getD []) obj a.pos) ∧
  e.visits = a.visits ++ [{ obj := obj, ofs := a.buf.length, prior := none }] ∧
  e.recursion_depth = a.recursion_depth + 2 ∧
  e.py_recursion_depth = a.py_recursion_depth + 2 ∧
  e.flags = a.flags ∧ e.max_recursion_depth = a.max_recursion_depth ∧
  e.operational_flags = a.operational_flags

/-- A host in which no allocation fails and the recursion probe never
refuses. -/
def Host.reliable (h : Host) : Prop :=
  (∀ n, h.malloc_ok n = true) ∧ (∀ n, h.ptable_ok n = true) ∧ h.recursion_limit = none

/-- The offset that the emitter of `obj` computes in the session `a`, when the
seen table holds a pointer for `obj`; a boolean is not looked up. -/
def found_ofs (h : Host) (a : srl_encoder_t) (obj : Nat) : Option Nat :=
  if srl_classify (h.heap obj) = srl_type.BOOL then none
  else (srl_find_obj a obj).map (emitter_ofs h a obj)

/-- The visit that the dispatcher logs for `obj` in the session `a`. -/
def visit_of (h : Host) (a : srl_encoder_t) (obj : Nat) : Visit where
  obj := obj
  ofs := a.buf.length
  prior := found_ofs h a obj

/-- The number of addresses of `dom` that the seen table does not hold. -/
def unseen (dom : Finset Nat) (a : srl_encoder_t) : Nat :=
  (dom.filter (fun x => srl_find_obj a x = none)).card

/-! ## Values -/

/-- A value as a decoder of the output returns it: a boolean, an integer, a
float as its bit pattern, a byte string, a text string (its UTF-8 bytes) or a
list of values.  The identity of objects is not part of a value. -/
inductive Value where
  | bool (b : Bool)
  | int (l : Int)
  | float (bits : Nat)
  | bytes (s : List Nat)
  | text (s : List Nat)
  | list (items : List Value)

/-- The value of an object that is not a list: an integer must be a C `long`
of 64 bits and a float a pattern of 64 bits; a text string that cannot be
transcoded and an unsupported object have no value. -/
def scalar_value : PyObject → Option Value
  | PyObject.pybool b => some (Value.bool b)
  | PyObject.pyint l => if -2 ^ 63 ≤ l ∧ l < 2 ^ 63 then some (Value.int l) else none
  | PyObject.pyfloat bits => if bits < 2 ^ 64 then some (Value.float bits) else none
  | PyObject.pystring s => some (Value.bytes s)
  | PyObject.pyunicode (some s) => some (Value.text s)
  | _ => none

/-- The values of the objects at the addresses `xs`, when `f` gives the value
of each of them. -/
def values_of (f : Nat → Option Value) : List Nat → Option (List Value)
  | [] => some []
  | x :: xs =>
    match f x, values_of f xs with
    | some v, some vs => some (v :: vs)
    | _, _ => none

/-- The value tree of the object at address `x`, with lists unfolded down to
the nesting depth `d`; shared objects are unfolded at every occurrence.  It is
`none` when the depth is not enough, hence at every depth when a list is
reachable from itself, and when an object without a value is reached. -/
def value_of (h : Host) : Nat → Nat → Option Value
  | 0, _ => none
  | d + 1, x =>
    match h.heap x with
    | PyObject.pylist items => (values_of (value_of h d) items).map Value.list
    | o => scalar_value o

/-- The session after `SRL_ENTER_RECURSIVE_CALL` has incremented both depth
counters. -/
def entered (a : srl_encoder_t) : srl_encoder_t :=
  { a with
    py_recursion_depth := a.py_recursion_depth + 1
    recursion_depth := a.recursion_depth + 1 }

/-- A failure `r` of the call of the dispatcher on `obj` that is neither of a
recursion guard nor of a call on an item: an allocation has failed (in a host
in which some allocation fails), the text string `obj` cannot be transcoded, or
the type of `obj` is not supported. -/
def OtherFail (h : Host) (obj : Nat) (r : Ret) : Prop :=
  (r = Ret.fail PyErr.MemoryError ∧ ¬ h.reliable) ∨
  (r = Ret.fail PyErr.UnicodeError ∧ h.heap obj = PyObject.pyunicode none) ∨
  (r = Ret.fail (PyErr.NotImplementedError_type (tp_name (h.heap obj))) ∧
    srl_classify (h.heap obj) = srl_type.NONE)

/-- The ways in which the call of the dispatcher on `obj` from the session `a`
fails outside the item loop, with the result `r` and the session `b` it
returns.  `probe1` and `ceiling1`: the recursion guard of `srl_dump_pyobj`
fails, on the host probe (nothing is changed) or on the ceiling (both counters
stay incremented).  `probe2` and `ceiling2`: the guard of `srl_dump_pylist`
fails; the dispatcher then leaves once.  `other`: any other failure, after
which both guards that were passed have been left. -/
inductive LeafFail (h : Host) (a : srl_encoder_t) (obj : Nat) : Ret → srl_encoder_t → Prop where
  | probe1 : h.recursion_limit ≠ none →
      LeafFail h a obj (Ret.fail (PyErr.RuntimeError_host " while Sereal dumping object")) a
  | ceiling1 : a.max_recursion_depth ≠ 0 → a.max_recursion_depth ≤ a.recursion_depth + 1 →
      LeafFail h a obj (Ret.fail (PyErr.RuntimeError_max_depth a.max_recursion_depth)) (entered a)
  | probe2 (b : srl_encoder_t) : srl_classify (h.heap obj) = srl_type.LIST →
      (a.max_recursion_depth = 0 ∨ a.recursion_depth + 1 < a.max_recursion_depth) →
      h.recursion_limit ≠ none →
      b.recursion_depth = a.recursion_depth → b.py_recursion_depth = a.py_recursion_depth →
      b.visits = a.visits ++ [visit_of h a obj] →
      LeafFail h a obj (Ret.fail (PyErr.RuntimeError_host " serializing list")) b
  | ceiling2 (b : srl_encoder_t) : srl_classify (h.heap obj) = srl_type.LIST →
      a.max_recursion_depth ≠ 0 → a.recursion_depth + 1 < a.max_recursion_depth →
      a.max_recursion_depth ≤ a.recursion_depth + 2 →
      b.recursion_depth = a.recursion_depth + 1 →
      b.py_recursion_depth = a.py_recursion_depth + 1 →
      b.visits = a.visits ++ [visit_of h a obj] →
      LeafFail h a obj (Ret.fail (PyErr.RuntimeError_max_depth a.max_recursion_depth)) b
  | other (r : Ret) (b : srl_encoder_t) : OtherFail h obj r →
      (a.max_recursion_depth = 0 ∨ a.recursion_depth + 1 < a.max_recursion_depth) →
      b.recursion_depth = a.recursion_depth → b.py_recursion_depth = a.py_recursion_depth →
      b.visits = a.visits ++ [visit_of h a obj] →
      LeafFail h a obj r b

/-! ## The traversal of the specification and its depths -/

/-- The outcome of the traversal of the specification under a ceiling: a depth
at or above the ceiling has been entered (`hit`), or the traversal has come to
its end having visited the lists `seen`, or the fuel is used up. -/
inductive WalkRet where
  | hit
  | done (seen : List Nat)
  | nofuel
  deriving DecidableEq, Repr

/-- The traversal `w` of one value, applied to the items of a list from left to
right, up to the first one on which it does not come to its end. -/
def walk_items (w : List Nat → Nat → WalkRet) : List Nat → List Nat → WalkRet
  | [], seen => WalkRet.done seen
  | x :: xs, seen =>
    match w seen x with
    | WalkRet.done seen1 => walk_items w xs seen1
    | r => r

/-- The traversal in the words of the specification, under the ceiling `m`:
depth first, left to right, not descending into a list that has been visited
(`seen`); a value enclosed in `j` lists is dispatched at the depth `2 * j + 1`,
a list enclosed in `j` lists runs its list emitter at the depth `2 * j + 2`,
also when it has been visited before; entering a depth at or above `m` is a
`hit`.  The first argument is the fuel. -/
def ceiling_walk (h : Host) (m : Nat) : Nat → Nat → List Nat → Nat → WalkRet
  | 0, _, _, _ => WalkRet.nofuel
  | fuel + 1, j, seen, obj =>
    if m ≤ 2 * j + 1 then WalkRet.hit
    else if srl_classify (h.heap obj) = srl_type.LIST then
      if m ≤ 2 * j + 2 then WalkRet.hit
      else if obj ∈ seen then WalkRet.done seen
      else walk_items (ceiling_walk h m fuel (j + 1)) (PyList_items (h.heap obj)) (obj :: seen)
    else WalkRet.done seen

/-- The lists that the seen table of `a` holds are the lists `seen`. -/
def SeenLists (h : Host) (a : srl_encoder_t) (seen : List Nat) : Prop :=
  ∀ x, srl_classify (h.heap x) = srl_type.LIST → (srl_find_obj a x ≠ none ↔ x ∈ seen)

/-- A failure that is not of a recursion guard: `OtherFail` on some value. -/
def MiscFail (h : Host) (r : Ret) : Prop := ∃ x, OtherFail h x r

/-- The result `r` and session `b` of a run of the dispatcher agree with the
outcome `w` of the traversal of the specification at `j` enclosing lists under
the ceiling `m`, unless the run has failed for another reason. -/
def WalkAgrees (h : Host) (m j : Nat) (w : WalkRet) (r : Ret) (b : srl_encoder_t) : Prop :=
  MiscFail h r ∨
  match w with
  | WalkRet.hit => r = Ret.fail (PyErr.RuntimeError_max_depth m)
  | WalkRet.done seen => r = Ret.ok ∧ SeenLists h b seen ∧ b.recursion_depth = 2 * j
  | WalkRet.nofuel => r = Ret.nofuel

/-- What a run with the result `r` leaves on the depth counters, over their
values before it: nothing, but one when `r` is the failure on the ceiling
(`SRL_ENTER_RECURSIVE_CALL` has incremented and no one decrements). -/
def depth_left : Ret → Nat
  | Ret.fail (PyErr.RuntimeError_max_depth _) => 1
  | _ => 0

/-- The set `dom` of addresses holds, with every object, the items of that
object when it is a list: a finite object graph. -/
def ItemsClosed (h : Host) (dom : Finset Nat) : Prop :=
  ∀ x ∈ dom, ∀ y ∈ PyList_items (h.heap x), y ∈ dom

/-- The lists among the addresses `dom`. -/
def lists_of (h : Host) (dom : Finset Nat) : Finset Nat :=
  dom.filter (fun x => srl_classify (h.heap x) = srl_type.LIST)

/-- The sum of the lengths of the lists of `dom` that the seen table does not
hold. -/
def pending (h : Host) (dom : Finset Nat) (a : srl_encoder_t) : Nat :=
  Finset.sum ((lists_of h dom).filter (fun x => srl_find_obj a x = none))
    (fun x => (PyList_items (h.heap x)).length)

/-- Of two visits of the same list, the later one has found a position: only
the first visit of a list goes through its items. -/
def VisitedOnce (h : Host) (vs : List Visit) : Prop :=
  vs.Pairwise (fun v w =>
    v.obj = w.obj → srl_classify (h.heap v.obj) = srl_type.LIST → w.prior ≠ none)

/-- Every list that the session has visited is in its seen table. -/
def Recorded (h : Host) (c : srl_encoder_t) : Prop :=
  ∀ v ∈ c.visits, srl_classify (h.heap v.obj) = srl_type.LIST → srl_find_obj c v.obj ≠ none

/-- A byte string of 2000 bytes `A`. -/
def long_string : List Nat := List.replicate 2000 65

/-- A host for the list `[L, S, L]`: object 0 is the list, object 1 is `L`,
the list `[7]`, object 2 is `S`, the byte string `long_string`, and object 3
is the integer 7.  No allocation fails and the recursion probe never refuses.
With `moves`, every growth of the buffer moves it to a new block, as `realloc`
may; without, the buffer grows in place.  The k-th block lies at the address
`base k`. -/
def host_lsl (moves : Bool) (base : Nat → Nat) : Host where
  heap := fun x =>
    if x = 0 then PyObject.pylist [1, 2, 1]
    else if x = 1 then PyObject.pylist [3]
    else if x = 2 then PyObject.pystring long_string
    else PyObject.pyint 7
  malloc_ok := fun _ => true
  ptable_ok := fun _ => true
  recursion_limit := none
  realloc_moves := fun _ _ => moves
  block_addr := base

/-- A host for the list `[A, F, B, S, X]`: object 0 is the list, object 1 is
`A`, the list `[1]`, object 2 is `F`, a byte string of 13 bytes, object 3 is
`B`, the list `[2]`, object 4 is `S`, the byte string `long_string`, objects 5
and 6 are the integers 1 and 2, and the last item `X` is the object `last`
(1 for `A`, 3 for `B`).  No allocation fails and the recursion probe never
refuses; every growth of the buffer moves it to a new block; the first block
lies at the address `base0` and the k-th block behind it at `8192 * k`. -/
def host_shared (last base0 : Nat) : Host where
  heap := fun x =>
    if x = 0 then PyObject.pylist [1, 2, 3, 4, last]
    else if x = 1 then PyObject.pylist [5]
    else if x = 2 then PyObject.pystring (List.replicate 13 70)
    else if x = 3 then PyObject.pylist [6]
    else if x = 4 then PyObject.pystring long_string
    else if x = 5 then PyObject.pyint 1
    else PyObject.pyint 2
  malloc_ok := fun _ => true
  ptable_ok := fun _ => true
  recursion_limit := none
  realloc_moves := fun _ _ => true
  block_addr := fun k => if k = 0 then base0 else 8192 * k

/-! ## The traversal of the specification and the unsupported values -/

/-- The outcome of the traversal of the specification that looks for
unsupported values: it has reached the value `x`, classified `NONE`, having
passed the values `order` before it; or it has come to its end, having visited
the lists `seen` and passed the values `order`; or the fuel is used up. -/
inductive TravRet where
  | unsupported (order : List Nat) (x : Nat)
  | done (seen : List Nat) (order : List Nat)
  | nofuel
  deriving DecidableEq, Repr

/-- The traversal `w` of one value, applied to the items of a list from left to
right, up to the first one on which it does not come to its end. -/
def trav_items (w : List Nat → List Nat → Nat → TravRet) :
    List Nat → List Nat → List Nat → TravRet
  | [], seen, order => TravRet.done seen order
  | x :: xs, seen, order =>
    match w seen order x with
    | TravRet.done seen1 order1 => trav_items w xs seen1 order1
    | r => r

/-- The traversal in the words of the specification: depth first, left to
right, not descending into a list object that has been visited (`seen`); it
stops at the first value classified `NONE`.  `order` lists the values passed so
far, in traversal order.  The first argument is the fuel. -/
def traversal (h : Host) : Nat → List Nat → List Nat → Nat → TravRet
  | 0, _, _, _ => TravRet.nofuel
  | fuel + 1, seen, order, obj =>
    if srl_classify (h.heap obj) = srl_type.NONE then TravRet.unsupported order obj
    else if srl_classify (h.heap obj) = srl_type.LIST then
      if obj ∈ seen then TravRet.done seen (order ++ [obj])
      else
        trav_items (traversal h fuel) (PyList_items (h.heap obj)) (obj :: seen) (order ++ [obj])
    else TravRet.done seen (order ++ [obj])

/-- The result `r` and session `b` of a run of the dispatcher agree with the
outcome `w` of the traversal.  When the traversal has reached an unsupported
value `x`: the run has failed with the not-implemented error for the type of
`x`, the dispatcher has been called on the values passed before `x` and on `x`,
in this order and on no value more, and the write position is the one at
which `x` was dispatched.  When the traversal has come to its end: the run has
succeeded, the lists of the seen table are the lists visited, and the
dispatcher has been called on the values passed, in this order. -/
def TravAgrees (h : Host) (w : TravRet) (r : Ret) (b : srl_encoder_t) : Prop :=
  match w with
  | TravRet.unsupported order x =>
    r = Ret.fail (PyErr.NotImplementedError_type (tp_name (h.heap x))) ∧
    b.visits.map Visit.obj = order ++ [x] ∧
    ∃ v, b.visits.getLast? = some v ∧ b.buf.length = v.ofs
  | TravRet.done seen order =>
    r = Ret.ok ∧ SeenLists h b seen ∧ b.visits.map Visit.obj = order
  | TravRet.nofuel => r = Ret.nofuel

/-- The outcome `w` of a traversal started with the values `order` passed:
the values passed since are supported, and the value at which it has stopped
is not. -/
def TravSound (h : Host) (order : List Nat) (w : TravRet) : Prop :=
  match w with
  | TravRet.unsupported o x =>
    srl_classify (h.heap x) = srl_type.NONE ∧
    ∃ mid, o = order ++ mid ∧ ∀ y ∈ mid, srl_classify (h.heap y) ≠ srl_type.NONE
  | TravRet.done _ o =>
    ∃ mid, o = order ++ mid ∧ ∀ y ∈ mid, srl_classify (h.heap y) ≠ srl_type.NONE
  | TravRet.nofuel => True

/-! ## Basic facts about the buffer primitives -/

theorem varint_loop_fuel : ∀ (k k1 n : Nat), n ≤ k → n ≤ k1 → varint_loop k n = varint_loop k1 n := by
  intro k
  induction k with
  | zero =>
    intro k1 n h0 _
    have : n = 0 := by omega
    subst this
    cases k1 <;> simp [varint_loop]
  | succ k ih =>
    intro k1 n h0 h1
    cases k1 with
    | zero =>
      have : n = 0 := by omega
      subst this
      simp [varint_loop]
    | succ k1 =>
      simp only [varint_loop]
      by_cases hn : n < 128
      · simp [hn]
      · simp only [hn, if_false]
        rw [ih k1 (n / 128) (by omega) (by omega)]

theorem varint_eq (n : Nat) :
    varint n = if n < 128 then [n] else (n % 128 + 128) :: varint (n / 128) := by
  unfold varint
  cases n with
  | zero => simp [varint_loop]
  | succ m =>
    simp only [varint_loop]
    by_cases hn : m + 1 < 128
    · simp [hn]
    · simp only [hn, if_false]
      rw [varint_loop_fuel m ((m + 1) / 128) ((m + 1) / 128) (by omega) (le_refl _)]

theorem varint_length_pos (n : Nat) : 1 ≤ (varint n).length := by
  rw [varint_eq]; split <;> simp

theorem varint_length_le (n : Nat) : (varint n).length ≤ 1 + n / 128 := by
  induction n using Nat.strong_induction_on with
  | _ n ih =>
    rw [varint_eq]
    by_cases hn : n < 128
    · simp [hn]
    · simp only [hn, if_false, List.length_cons]
      have := ih (n / 128) (by omega)
      omega

theorem varint_length_mono (a b : Nat) (hab : a ≤ b) : (varint a).length ≤ (varint b).length := by
  induction b using Nat.strong_induction_on generalizing a with
  | _ b ih =>
    rw [varint_eq a, varint_eq b]
    by_cases ha : a < 128
    · simp only [ha, if_true]
      split <;> simp
    · have hb : ¬ b < 128 := by omega
      simp only [ha, hb, if_false, List.length_cons]
      have := ih (b / 128) (by omega) (a / 128) (Nat.div_le_div_right hab)
      omega

theorem BUF_SIZE_ASSERT_spec (h : Host) (enc : srl_encoder_t) (n : Nat) :
    (∃ sz bl, BUF_SIZE_ASSERT h enc n = (Ret.ok, { enc with buf_size := sz, buf_block := bl })) ∨
    BUF_SIZE_ASSERT h enc n = (Ret.fail PyErr.MemoryError, enc) := by
  unfold BUF_SIZE_ASSERT
  split
  · exact Or.inl ⟨enc.buf_size, enc.buf_block, rfl⟩
  · split
    · exact Or.inl ⟨_, _, rfl⟩
    · exact Or.inr rfl

theorem BUF_SIZE_ASSERT_ok (h : Host) (hm : ∀ k, h.malloc_ok k = true) (enc : srl_encoder_t)
    (n : Nat) : ∃ sz bl, BUF_SIZE_ASSERT h enc n = (Ret.ok, { enc with buf_size := sz, buf_block := bl }) := by
  unfold BUF_SIZE_ASSERT
  split
  · exact ⟨enc.buf_size, enc.buf_block, rfl⟩
  · rw [if_pos (hm _)]
    exact ⟨_, _, rfl⟩

theorem srl_buf_cat_char_spec (h : Host) (enc : srl_encoder_t) (c : Nat) :
    (∃ sz bl, srl_buf_cat_char h enc c =
      (Ret.ok, srl_buf_cat_char_nocheck { enc with buf_size := sz, buf_block := bl } c)) ∨
    srl_buf_cat_char h enc c = (Ret.fail PyErr.MemoryError, enc) := by
  unfold srl_buf_cat_char
  rcases BUF_SIZE_ASSERT_spec h enc 1 with ⟨sz, bl, e⟩ | e
  · rw [e]; exact Or.inl ⟨sz, bl, rfl⟩
  · rw [e]; exact Or.inr rfl

theorem srl_buf_cat_varint_spec (h : Host) (enc : srl_encoder_t) (tag n : Nat) :
    (∃ sz bl, srl_buf_cat_varint h enc tag n =
      (Ret.ok, srl_buf_cat_varint_nocheck { enc with buf_size := sz, buf_block := bl } tag n)) ∨
    srl_buf_cat_varint h enc tag n = (Ret.fail PyErr.MemoryError, enc) := by
  unfold srl_buf_cat_varint
  rcases BUF_SIZE_ASSERT_spec h enc (SRL_MAX_VARINT_LENGTH + 1) with ⟨sz, bl, e⟩ | e
  · rw [e]; exact Or.inl ⟨sz, bl, rfl⟩
  · rw [e]; exact Or.inr rfl

theorem srl_buf_cat_double_spec (h : Host) (enc : srl_encoder_t) (tag bits : Nat) :
    (∃ sz bl, srl_buf_cat_double h enc tag bits =
      (Ret.ok, srl_buf_cat_str_nocheck (srl_buf_cat_char_nocheck { enc with buf_size := sz, buf_block := bl } tag)
        (double_bytes bits))) ∨
    srl_buf_cat_double h enc tag bits = (Ret.fail PyErr.MemoryError, enc) := by
  unfold srl_buf_cat_double
  rcases BUF_SIZE_ASSERT_spec h enc (1 + 8) with ⟨sz, bl, e⟩ | e
  · rw [e]; exact Or.inl ⟨sz, bl, rfl⟩
  · rw [e]; exact Or.inr rfl

theorem srl_buf_cat_char_ok (h : Host) (hm : ∀ k, h.malloc_ok k = true) (enc : srl_encoder_t)
    (c : Nat) : (srl_buf_cat_char h enc c).1 = Ret.ok ∧
      (srl_buf_cat_char h enc c).2.buf = enc.buf ++ [c] := by
  unfold srl_buf_cat_char
  obtain ⟨sz, bl, e⟩ := BUF_SIZE_ASSERT_ok h hm enc 1
  rw [e]
  simp [srl_buf_cat_char_nocheck, srl_buf_cat_str_nocheck]

theorem srl_buf_cat_varint_ok (h : Host) (hm : ∀ k, h.malloc_ok k = true) (enc : srl_encoder_t)
    (tag n : Nat) : (srl_buf_cat_varint h enc tag n).1 = Ret.ok ∧
      (srl_buf_cat_varint h enc tag n).2.buf = enc.buf ++ tag :: varint n := by
  unfold srl_buf_cat_varint
  obtain ⟨sz, bl, e⟩ := BUF_SIZE_ASSERT_ok h hm enc (SRL_MAX_VARINT_LENGTH + 1)
  rw [e]
  simp [srl_buf_cat_varint_nocheck, srl_buf_cat_char_nocheck, srl_buf_cat_str_nocheck]

theorem to_char_small (n : Int) (h0 : 0 ≤ n) (h1 : n < 256) : to_char n = n.toNat := by
  unfold to_char
  rw [Int.emod_eq_of_lt h0 h1]

theorem xor_all_ones (x : Nat) (hx : x < 2 ^ 64) : x ^^^ (2 ^ 64 - 1) = 2 ^ 64 - 1 - x := by
  apply Nat.eq_of_testBit_eq
  intro i
  have h1 : 2 ^ 64 - 1 - x = 2 ^ 64 - (x + 1) := by omega
  rw [h1, Nat.testBit_xor, Nat.testBit_two_pow_sub_one, Nat.testBit_two_pow_sub_succ hx]
  by_cases hi : i < 64
  · simp [hi]
  · have : x.testBit i = false := by
      apply Nat.testBit_lt_two_pow
      calc x < 2 ^ 64 := hx
        _ ≤ 2 ^ i := Nat.pow_le_pow_right (by decide) (by omega)
    simp [hi, this]

theorem to_ulong_nonneg (l : Int) (h0 : 0 ≤ l) (h1 : l < 2 ^ 63) : to_ulong l = l.toNat := by
  unfold to_ulong
  rw [Int.emod_eq_of_lt h0 (by omega)]

theorem to_ulong_neg (l : Int) (h0 : -2 ^ 63 ≤ l) (h1 : l < 0) :
    to_ulong l = (l + 2 ^ 64).toNat := by
  unfold to_ulong
  have : l % 2 ^ 64 = l + 2 ^ 64 := by
    rw [← Int.add_emod_self, Int.emod_eq_of_lt (by omega) (by omega)]
  rw [this]

theorem zigzag_nonneg (l : Int) (h0 : 0 ≤ l) (h1 : l < 2 ^ 63) : zigzag l = (2 * l).toNat := by
  unfold zigzag
  rw [to_ulong_nonneg l h0 h1, if_neg (by omega)]
  simp only [Nat.xor_zero]
  omega

theorem zigzag_neg (l : Int) (h0 : -2 ^ 63 ≤ l) (h1 : l < 0) :
    zigzag l = (-2 * l - 1).toNat := by
  unfold zigzag
  rw [to_ulong_neg l h0 h1, if_pos h1]
  have hx : 2 * (l + 2 ^ 64).toNat % 2 ^ 64 < 2 ^ 64 := Nat.mod_lt _ (by decide)
  rw [xor_all_ones _ hx]
  omega

/-! ## C2: the four integer forms -/

/-- C2: for every signed 64-bit integer `n`, `srl_dump_long` (the inline
emitter, which never emits COPY) succeeds when no allocation fails and appends
exactly: the byte `POS_LOW | n` when `0 <= n <= 15`; the byte
`NEG_LOW | (n + 32)` when `-16 <= n <= -1`; `VARINT` and `varint(n)` when
`n >= 16`; `ZIGZAG` and `varint(zigzag(n))` when `n <= -17`, where `zigzag` is
`(n << 1) XOR (n >> 63)`, that is `-2n - 1`.  The four ranges cover the
integers (and are disjoint).  With the protocol values, 0 gives `[0x00]`; 300
gives `[VARINT, 0xAC, 0x02]`. -/
theorem srl_dump_long_forms (P : Protocol) (h : Host) (enc : srl_encoder_t) (n : Int)
    (hm : ∀ k, h.malloc_ok k = true) (hlo : -2 ^ 63 ≤ n) (hhi : n < 2 ^ 63) :
    (srl_dump_long P h enc n).1 = Ret.ok ∧
    (0 ≤ n ∧ n ≤ 15 →
      (srl_dump_long P h enc n).2.buf = enc.buf ++ [P.SRL_HDR_POS_LOW ||| n.toNat]) ∧
    (-16 ≤ n ∧ n ≤ -1 →
      (srl_dump_long P h enc n).2.buf = enc.buf ++ [P.SRL_HDR_NEG_LOW ||| (n + 32).toNat]) ∧
    (16 ≤ n →
      (srl_dump_long P h enc n).2.buf = enc.buf ++ P.SRL_HDR_VARINT :: varint n.toNat) ∧
    (n ≤ -17 →
      (srl_dump_long P h enc n).2.buf = enc.buf ++ P.SRL_HDR_ZIGZAG :: varint (zigzag n) ∧
      zigzag n = (-2 * n - 1).toNat) ∧
    ((0 ≤ n ∧ n ≤ 15) ∨ (-16 ≤ n ∧ n ≤ -1) ∨ 16 ≤ n ∨ n ≤ -17) ∧
    (srl_dump_long srl_v1 h enc 0).2.buf = enc.buf ++ [0x00] ∧
    (srl_dump_long P h enc 300).2.buf = enc.buf ++ [P.SRL_HDR_VARINT, 0xAC, 0x02] := by
  refine ⟨?_, ?_, ?_, ?_, ?_, by omega, ?_, ?_⟩
  · unfold srl_dump_long srl_buf_cat_zigzag
    split <;> split <;>
      first
        | exact (srl_buf_cat_char_ok h hm enc _).1
        | exact (srl_buf_cat_varint_ok h hm enc _ _).1
  · rintro ⟨h0, h1⟩
    unfold srl_dump_long
    rw [if_pos (by omega), if_pos (by omega), (srl_buf_cat_char_ok h hm enc _).2,
      to_char_small n h0 (by omega)]
  · rintro ⟨h0, h1⟩
    unfold srl_dump_long
    rw [if_neg (by omega), if_pos (by omega), (srl_buf_cat_char_ok h hm enc _).2,
      to_char_small (n + 32) (by omega) (by omega)]
  · intro h0
    unfold srl_dump_long
    rw [if_pos (by omega), if_neg (by omega), (srl_buf_cat_varint_ok h hm enc _ _).2,
      to_ulong_nonneg n (by omega) hhi]
  · intro h0
    refine ⟨?_, zigzag_neg n hlo (by omega)⟩
    unfold srl_dump_long srl_buf_cat_zigzag
    rw [if_neg (by omega), if_neg (by omega), (srl_buf_cat_varint_ok h hm enc _ _).2]
  · unfold srl_dump_long
    rw [if_pos (by omega), if_pos (by omega), (srl_buf_cat_char_ok h hm enc _).2]
    rfl
  · unfold srl_dump_long
    rw [if_pos (by omega), if_neg (by omega), (srl_buf_cat_varint_ok h hm enc _ _).2]
    rfl


/-- C2, witness: the form chosen for `-300` is `ZIGZAG` and the varint of
`zigzag(-300) = 599`. -/
theorem srl_dump_long_forms_witness :
    (srl_dump_long srl_v1 (host_of fun _ => PyObject.pyint (-300)) session_v1 (-300)).2.buf =
      session_v1.buf ++ srl_v1.SRL_HDR_ZIGZAG :: varint (zigzag (-300)) ∧
    zigzag (-300) = 599 :=
  (srl_dump_long_forms srl_v1 (host_of fun _ => PyObject.pyint (-300)) session_v1 (-300)
    (fun _ => rfl) (by decide) (by decide)).2.2.2.2.1 (by decide)

theorem srl_buf_cat_double_ok (h : Host) (hm : ∀ k, h.malloc_ok k = true) (enc : srl_encoder_t)
    (tag bits : Nat) : (srl_buf_cat_double h enc tag bits).1 = Ret.ok ∧
      (srl_buf_cat_double h enc tag bits).2.buf = enc.buf ++ tag :: double_bytes bits := by
  unfold srl_buf_cat_double
  obtain ⟨sz, bl, e⟩ := BUF_SIZE_ASSERT_ok h hm enc (1 + 8)
  rw [e]
  simp [srl_buf_cat_char_nocheck, srl_buf_cat_str_nocheck]

theorem srl_dump_binary_ok (P : Protocol) (h : Host) (hm : ∀ k, h.malloc_ok k = true)
    (enc : srl_encoder_t) (p : List Nat) :
    (srl_dump_binary P h enc p).1 = Ret.ok ∧
    (srl_dump_binary P h enc p).2.buf = enc.buf ++
      (if p.length ≤ 31 then (P.SRL_HDR_SHORT_BINARY_LOW ||| p.length) :: p
       else P.SRL_HDR_BINARY :: (varint p.length ++ p)) := by
  unfold srl_dump_binary
  obtain ⟨sz, bl, e⟩ := BUF_SIZE_ASSERT_ok h hm enc (1 + SRL_MAX_VARINT_LENGTH + p.length)
  simp only [e, SRL_MASK_SHORT_BINARY_LEN, true_and]
  by_cases hp : p.length ≤ 31
  · have hc : to_char (p.length : Int) = p.length := by
      rw [to_char_small _ (by omega) (by omega)]; simp
    simp [hp, hc, srl_buf_cat_char_nocheck, srl_buf_cat_str_nocheck]
  · simp [hp, srl_buf_cat_varint_nocheck, srl_buf_cat_char_nocheck, srl_buf_cat_str_nocheck]

theorem srl_dump_pyunicode_inline (P : Protocol) (h : Host) (hm : ∀ k, h.malloc_ok k = true)
    (enc : srl_encoder_t) (obj : Nat) (pos : Option Ptr) (utf8 : List Nat)
    (ho : h.heap obj = PyObject.pyunicode (some utf8))
    (hc : ∀ q, pos = some q → ¬ VARINT_LEN (ptr_diff h q enc.buf_start) < utf8.length % 2 ^ 32) :
    (srl_dump_pyunicode P h enc obj pos).1 = Ret.ok ∧
    (srl_dump_pyunicode P h enc obj pos).2.buf =
      enc.buf ++ P.SRL_HDR_STR_UTF8 :: (varint utf8.length ++ utf8) := by
  unfold srl_dump_pyunicode
  obtain ⟨sz, bl, e⟩ := BUF_SIZE_ASSERT_ok h hm enc (1 + SRL_MAX_VARINT_LENGTH + utf8.length)
  simp only [ho, PyUnicode_AsUTF8String, e]
  cases pos with
  | none =>
    simp [srl_buf_cat_varint_nocheck, srl_buf_cat_char_nocheck, srl_buf_cat_str_nocheck]
  | some q =>
    have hq := hc q rfl
    simp only [if_neg hq]
    simp [srl_buf_cat_varint_nocheck, srl_buf_cat_char_nocheck, srl_buf_cat_str_nocheck]

theorem srl_dump_pystring_inline (P : Protocol) (h : Host)
    (enc : srl_encoder_t) (obj : Nat) (pos : Option Ptr) (s : List Nat)
    (ho : h.heap obj = PyObject.pystring s)
    (hc : ∀ q, pos = some q → ¬ VARINT_LEN (ptr_diff h q enc.buf_start) < s.length % 2 ^ 32) :
    srl_dump_pystring P h enc obj pos = srl_dump_binary P h enc s := by
  unfold srl_dump_pystring
  simp only [ho, PyString_AsStringAndSize]
  cases pos with
  | none => rfl
  | some q =>
    have hq := hc q rfl
    simp only [if_neg hq]

/-! ## C3: the string forms -/

/-- C3: for a byte string `s` of length `n` that is not emitted as COPY,
`srl_dump_binary` appends the tag `SHORT_BINARY_LOW | n` and the `n` bytes when
`n <= 31`, and `BINARY`, `varint(n)` and the `n` bytes when `n > 31`
(`srl_dump_pystring` then is `srl_dump_binary`); for a text string whose UTF-8
form is `s` and that is not emitted as COPY, `srl_dump_pyunicode` appends
`STR_UTF8`, `varint(n)` and the `n` bytes, for every `n`.  The payload is the
input bytes in order.  "Not emitted as COPY" is: no position was found, or the
test `VARINT_LEN(d) < (unsigned)n` fails, for `d = pos - enc->buf_start`. -/
theorem string_emitters_forms (P : Protocol) (h : Host) (enc : srl_encoder_t) (obj : Nat)
    (pos : Option Ptr) (s : List Nat) (hm : ∀ k, h.malloc_ok k = true)
    (hc : ∀ q, pos = some q → ¬ VARINT_LEN (ptr_diff h q enc.buf_start) < s.length % 2 ^ 32) :
    ((srl_dump_binary P h enc s).1 = Ret.ok ∧
      (s.length ≤ 31 → (srl_dump_binary P h enc s).2.buf =
        enc.buf ++ (P.SRL_HDR_SHORT_BINARY_LOW ||| s.length) :: s) ∧
      (31 < s.length → (srl_dump_binary P h enc s).2.buf =
        enc.buf ++ P.SRL_HDR_BINARY :: (varint s.length ++ s))) ∧
    (h.heap obj = PyObject.pystring s →
      srl_dump_pystring P h enc obj pos = srl_dump_binary P h enc s) ∧
    (h.heap obj = PyObject.pyunicode (some s) →
      (srl_dump_pyunicode P h enc obj pos).1 = Ret.ok ∧
      (srl_dump_pyunicode P h enc obj pos).2.buf =
        enc.buf ++ P.SRL_HDR_STR_UTF8 :: (varint s.length ++ s)) := by
  have hb := srl_dump_binary_ok P h hm enc s
  refine ⟨⟨hb.1, ?_, ?_⟩, ?_, ?_⟩
  · intro hs; rw [hb.2, if_pos hs]
  · intro hs; rw [hb.2, if_neg (by omega)]
  · intro ho; exact srl_dump_pystring_inline P h enc obj pos s ho hc
  · intro ho; exact srl_dump_pyunicode_inline P h hm enc obj pos s ho hc

theorem VARINT_LEN_small (x : Nat) (hx : x < 2 ^ 39 - 128) : VARINT_LEN x = 1 + x / 128 := by
  unfold VARINT_LEN
  omega

theorem VARINT_LEN_le (x : Nat) : VARINT_LEN x ≤ 1 + x / 128 := by
  unfold VARINT_LEN
  omega

theorem srl_dump_long_length (P : Protocol) (h : Host) (hm : ∀ k, h.malloc_ok k = true)
    (enc : srl_encoder_t) (l : Int) :
    (srl_dump_long P h enc l).2.buf.length =
      enc.buf.length + (if 0 ≤ l then (if l < 16 then 1 else 1 + (varint (to_ulong l)).length)
        else (if l > -17 then 1 else 1 + (varint (zigzag l)).length)) := by
  unfold srl_dump_long srl_buf_cat_zigzag
  split <;> split <;>
    simp [(srl_buf_cat_char_ok h hm enc _).2, (srl_buf_cat_varint_ok h hm enc _ _).2] <;> omega

/-! ## C7: copy profitability -/

/-- Copy profitability for every pointer `q` found in the seen table whose
offset `d = q - enc->buf_start` is below `2^39 - 128`, the offsets at which
`VARINT_LEN(d)` does not wrap around in its 32-bit result: each emitter
chooses COPY exactly under its test, and then `COPY + varint(d)` is no longer
than the inline form (strictly shorter for floats, whose inline form has 9
bytes, and for strings, whose inline form has at least `1 + len` bytes). -/
theorem copy_profitable_below_wrap (P : Protocol) (h : Host) (enc : srl_encoder_t) (obj d : Nat)
    (q : Ptr) (hq : ptr_diff h q enc.buf_start = d)
    (hm : ∀ k, h.malloc_ok k = true) (hd : d < 2 ^ 39 - 128) :
    (∀ l : Int, h.heap obj = PyObject.pyint l → -2 ^ 63 ≤ l → l < 2 ^ 63 →
      (((0 < l ∧ VARINT_LEN (to_ulong l) > VARINT_LEN d) ∨
          (l ≤ 0 ∧ VARINT_LEN (zigzag l) > VARINT_LEN d)) →
        (srl_dump_pyint P h enc obj (some q)).2.buf = enc.buf ++ P.SRL_HDR_COPY :: varint d ∧
        (P.SRL_HDR_COPY :: varint d).length ≤
          (srl_dump_long P h enc l).2.buf.length - enc.buf.length) ∧
      (¬ ((0 < l ∧ VARINT_LEN (to_ulong l) > VARINT_LEN d) ∨
          (l ≤ 0 ∧ VARINT_LEN (zigzag l) > VARINT_LEN d)) →
        srl_dump_pyint P h enc obj (some q) = srl_dump_long P h enc l)) ∧
    (∀ bits : Nat, h.heap obj = PyObject.pyfloat bits →
      (VARINT_LEN d < 8 →
        (srl_dump_pyfloat P h enc obj (some q)).2.buf = enc.buf ++ P.SRL_HDR_COPY :: varint d ∧
        (P.SRL_HDR_COPY :: varint d).length <
          (srl_buf_cat_double h enc P.SRL_HDR_DOUBLE bits).2.buf.length - enc.buf.length ∧
        (srl_buf_cat_double h enc P.SRL_HDR_DOUBLE bits).2.buf.length - enc.buf.length = 9) ∧
      (¬ VARINT_LEN d < 8 →
        srl_dump_pyfloat P h enc obj (some q) =
          srl_buf_cat_double h enc P.SRL_HDR_DOUBLE bits)) ∧
    (∀ s : List Nat, h.heap obj = PyObject.pystring s →
      (VARINT_LEN d < s.length % 2 ^ 32 →
        (srl_dump_pystring P h enc obj (some q)).2.buf = enc.buf ++ P.SRL_HDR_COPY :: varint d ∧
        (P.SRL_HDR_COPY :: varint d).length <
          (srl_dump_binary P h enc s).2.buf.length - enc.buf.length ∧
        1 + s.length ≤ (srl_dump_binary P h enc s).2.buf.length - enc.buf.length) ∧
      (¬ VARINT_LEN d < s.length % 2 ^ 32 →
        srl_dump_pystring P h enc obj (some q) = srl_dump_binary P h enc s)) ∧
    (∀ s : List Nat, h.heap obj = PyObject.pyunicode (some s) →
      (VARINT_LEN d < s.length % 2 ^ 32 →
        (srl_dump_pyunicode P h enc obj (some q)).2.buf =
          enc.buf ++ P.SRL_HDR_COPY :: varint d ∧
        (P.SRL_HDR_COPY :: varint d).length <
          (srl_dump_pyunicode P h enc obj none).2.buf.length - enc.buf.length ∧
        1 + s.length ≤ (srl_dump_pyunicode P h enc obj none).2.buf.length - enc.buf.length) ∧
      (¬ VARINT_LEN d < s.length % 2 ^ 32 →
        srl_dump_pyunicode P h enc obj (some q) = srl_dump_pyunicode P h enc obj none)) := by
  have hvd := VARINT_LEN_small d hd
  have hld := varint_length_le d
  refine ⟨?_, ?_, ?_, ?_⟩
  · intro l ho hlo hhi
    constructor
    · intro hc
      have hcopy : (srl_dump_pyint P h enc obj (some q)).2.buf =
          enc.buf ++ P.SRL_HDR_COPY :: varint d := by
        unfold srl_dump_pyint
        simp only [ho, PyInt_AS_LONG, hq]
        rcases hc with ⟨h1, h2⟩ | ⟨h1, h2⟩
        · rw [if_pos h1, if_pos h2]; exact (srl_buf_cat_varint_ok h hm enc _ _).2
        · rw [if_neg (by omega), if_pos h2]; exact (srl_buf_cat_varint_ok h hm enc _ _).2
      refine ⟨hcopy, ?_⟩
      rw [srl_dump_long_length P h hm enc l]
      simp only [List.length_cons, Nat.add_sub_cancel_left]
      rcases hc with ⟨h1, h2⟩ | ⟨h1, h2⟩
      · have hu := to_ulong_nonneg l (by omega) hhi
        have h3 := VARINT_LEN_le (to_ulong l)
        have hdl : d ≤ to_ulong l := by
          by_contra hcon
          have : to_ulong l / 128 ≤ d / 128 := Nat.div_le_div_right (by omega)
          omega
        have hl16 : ¬ l < 16 := by
          intro hl
          have : to_ulong l < 16 := by rw [hu]; omega
          have : to_ulong l / 128 = 0 := by omega
          omega
        rw [if_pos (by omega), if_neg hl16]
        have := varint_length_mono d (to_ulong l) hdl
        omega
      · have h3 := VARINT_LEN_le (zigzag l)
        have hdl : d ≤ zigzag l := by
          by_contra hcon
          have : zigzag l / 128 ≤ d / 128 := Nat.div_le_div_right (by omega)
          omega
        have hz128 : 128 ≤ zigzag l := by
          by_contra hcon
          have : zigzag l / 128 = 0 := by omega
          omega
        have hneg : l < 0 := by
          by_contra hcon
          have : l = 0 := by omega
          subst this
          revert hz128; decide
        have hzz := zigzag_neg l hlo hneg
        rw [if_neg (by omega), if_neg (by omega)]
        have := varint_length_mono d (zigzag l) hdl
        omega
    · intro hc
      unfold srl_dump_pyint
      simp only [ho, PyInt_AS_LONG, hq]
      by_cases h1 : l > 0
      · rw [if_pos h1, if_neg (fun h2 => hc (Or.inl ⟨h1, h2⟩))]
      · rw [if_neg h1, if_neg (fun h2 => hc (Or.inr ⟨by omega, h2⟩))]
  · intro bits ho
    have hdbl := (srl_buf_cat_double_ok h hm enc P.SRL_HDR_DOUBLE bits).2
    constructor
    · intro hc
      refine ⟨?_, ?_, ?_⟩
      · unfold srl_dump_pyfloat
        simp only [hq, if_pos hc]
        exact (srl_buf_cat_varint_ok h hm enc _ _).2
      · rw [hdbl]; simp [double_bytes]; omega
      · rw [hdbl]; simp [double_bytes]
    · intro hc
      unfold srl_dump_pyfloat
      simp only [hq, if_neg hc, ho, PyFloat_AS_DOUBLE]
  · intro s ho
    have hb := (srl_dump_binary_ok P h hm enc s).2
    have hlen : 1 + s.length ≤ (srl_dump_binary P h enc s).2.buf.length - enc.buf.length := by
      rw [hb]; split <;> simp <;> omega
    constructor
    · intro hc
      refine ⟨?_, ?_, hlen⟩
      · unfold srl_dump_pystring
        simp only [ho, PyString_AsStringAndSize, hq, if_pos hc]
        exact (srl_buf_cat_varint_ok h hm enc _ _).2
      · have : s.length % 2 ^ 32 ≤ s.length := Nat.mod_le _ _
        simp only [List.length_cons]
        omega
    · intro hc
      exact srl_dump_pystring_inline P h enc obj (some q) s ho
        (fun q1 hq1 => by cases hq1; rw [hq]; exact hc)
  · intro s ho
    have hb := (srl_dump_pyunicode_inline P h hm enc obj none s ho (by simp)).2
    have hlen : 1 + s.length ≤
        (srl_dump_pyunicode P h enc obj none).2.buf.length - enc.buf.length := by
      rw [hb]; simp; omega
    constructor
    · intro hc
      refine ⟨?_, ?_, hlen⟩
      · unfold srl_dump_pyunicode
        simp only [ho, PyUnicode_AsUTF8String, hq, if_pos hc]
        exact (srl_buf_cat_varint_ok h hm enc _ _).2
      · have : s.length % 2 ^ 32 ≤ s.length := Nat.mod_le _ _
        simp only [List.length_cons]
        omega
    · intro hc
      unfold srl_dump_pyunicode
      simp only [ho, PyUnicode_AsUTF8String, hq, if_neg hc]


/-- C3, witness: a text string of three bytes found at offset 700 is not
emitted as COPY (`VARINT_LEN(700) = 6`) and is emitted as `STR_UTF8`, the
length and the bytes. -/
theorem string_emitters_forms_witness :
    (srl_dump_pyunicode srl_v1 (host_of fun _ => PyObject.pyunicode (some [97, 98, 99]))
        session_v1 0 (some { block := 0, ofs := 700 })).2.buf =
      session_v1.buf ++ srl_v1.SRL_HDR_STR_UTF8 :: (varint [97, 98, 99].length ++ [97, 98, 99]) :=
  ((string_emitters_forms srl_v1 (host_of fun _ => PyObject.pyunicode (some [97, 98, 99]))
    session_v1 0 (some { block := 0, ofs := 700 }) [97, 98, 99] (fun _ => rfl)
    (fun q hq => by cases hq; decide)).2.2 rfl).2

/-- C7, at the failing input: the integer object 1, first emitted at offset
`2^39 - 128` and visited again.  `VARINT_LEN(2^39 - 128)` is `2^32` truncated to
`unsigned`, that is 0, so the test `VARINT_LEN(1) > VARINT_LEN(d)` holds and
`srl_dump_pyint` emits `COPY` and the six bytes of `varint(d)`: seven bytes,
where the inline form `srl_dump_long` emits the single byte `POS_LOW | 1`. -/
theorem srl_dump_pyint_copy_longer :
    VARINT_LEN (2 ^ 39 - 128) = 0 ∧
    (srl_dump_pyint srl_v1 (host_of fun _ => PyObject.pyint 1) session_v1 0
        (some { block := 0, ofs := 2 ^ 39 - 128 })).2.buf =
      session_v1.buf ++ [0x2F, 0x80, 0xFF, 0xFF, 0xFF, 0xFF, 0x0F] ∧
    (srl_dump_long srl_v1 (host_of fun _ => PyObject.pyint 1) session_v1 1).2.buf =
      session_v1.buf ++ [0x01] := by
  decide

/-! ## The dispatcher, split at its item loop -/

theorem srl_dump_pyobj_succ (P : Protocol) (h : Host) (fuel : Nat) (enc : srl_encoder_t)
    (obj : Nat) :
    srl_dump_pyobj P h (fuel + 1) enc obj =
      match list_open P h enc obj with
      | some e =>
        ((srl_dump_items (srl_dump_pyobj P h fuel) (PyList_items (h.heap obj)) e).1,
          SRL_LEAVE_RECURSIVE_CALL (SRL_LEAVE_RECURSIVE_CALL
            (srl_dump_items (srl_dump_pyobj P h fuel) (PyList_items (h.heap obj)) e).2))
      | none => srl_dump_leaf P h enc obj := by
  unfold srl_dump_leaf list_open
  simp only [srl_dump_pyobj]
  rcases he : SRL_ENTER_RECURSIVE_CALL h enc " while Sereal dumping object" with ⟨r, enc1⟩
  cases r with
  | ok =>
    simp only []
    by_cases ht : srl_classify (h.heap obj) = srl_type.LIST
    · simp only [ht, if_true, srl_dump_switch]
      simp only [show (srl_type.LIST = srl_type.BOOL) = False from by simp, if_false]
      cases hf : srl_find_obj enc1 obj with
      | some p =>
        simp only [srl_dump_pylist]
      | none =>
        simp only [Option.map_none']
        rcases htr : srl_track_obj h { enc1 with
            visits := enc1.visits ++ [{ obj := obj, ofs := enc1.buf.length, prior := none }] }
            obj with ⟨r3, enc3⟩
        cases r3 with
        | ok =>
          simp only [srl_dump_pylist]
          rcases he2 : SRL_ENTER_RECURSIVE_CALL h enc3 " serializing list" with ⟨r2, enc4⟩
          cases r2 with
          | ok =>
            simp only []
            rcases hc : srl_dump_list_header P h enc4 (PyList_items (h.heap obj)).length
              with ⟨r5, enc5⟩
            cases r5 <;> simp only []
          | fail e => simp only []
          | nofuel => simp only []
        | fail e => simp only []
        | nofuel => simp only []
    · simp only [ht, if_false]
      have : ∀ (d1 d2 : srl_encoder_t → Nat → Ret × srl_encoder_t) e p,
          srl_dump_switch P h d1 (srl_classify (h.heap obj)) e obj p =
          srl_dump_switch P h d2 (srl_classify (h.heap obj)) e obj p := by
        intro d1 d2 e p
        unfold srl_dump_switch
        cases hc : srl_classify (h.heap obj) <;> simp only [] 
        exact absurd hc ht
      simp only [this (srl_dump_pyobj P h fuel) (srl_dump_pyobj P h 0)]
      rfl
  | fail e => simp only []
  | nofuel => simp only []

/-! ## Every run of the dispatcher is a chain of elementary changes -/

theorem steps_refl (h : Host) (a : srl_encoder_t) : Steps h a a := Relation.ReflTransGen.refl

theorem steps_trans {h : Host} {a b c : srl_encoder_t} (h1 : Steps h a b) (h2 : Steps h b c) :
    Steps h a c := Relation.ReflTransGen.trans h1 h2

theorem steps_single {h : Host} {a b : srl_encoder_t} (h1 : Prim h a b) : Steps h a b :=
  Relation.ReflTransGen.single h1

theorem steps_misc {h : Host} (a b : srl_encoder_t) (h1 : b.buf = a.buf)
    (h2 : b.obj_seenhash = a.obj_seenhash) (h3 : b.visits = a.visits) (h4 : b.flags = a.flags)
    (h5 : b.max_recursion_depth = a.max_recursion_depth)
    (h6 : b.operational_flags = a.operational_flags) : Steps h a b :=
  steps_single (Prim.misc a b h1 h2 h3 h4 h5 h6)

theorem steps_nocheck (h : Host) (a : srl_encoder_t) (str : List Nat) :
    Steps h a (srl_buf_cat_str_nocheck a str) :=
  steps_trans (steps_single (Prim.append a str))
    (steps_misc _ _ rfl rfl rfl rfl rfl rfl)

theorem steps_char_nocheck (h : Host) (a : srl_encoder_t) (c : Nat) :
    Steps h a (srl_buf_cat_char_nocheck a c) := steps_nocheck h a [c]

theorem steps_varint_nocheck (h : Host) (a : srl_encoder_t) (tag n : Nat) :
    Steps h a (srl_buf_cat_varint_nocheck a tag n) :=
  steps_trans (steps_char_nocheck h a tag) (steps_nocheck h _ _)

theorem steps_size_assert (h : Host) (a : srl_encoder_t) (n : Nat) :
    Steps h a (BUF_SIZE_ASSERT h a n).2 := by
  rcases BUF_SIZE_ASSERT_spec h a n with ⟨sz, bl, e⟩ | e
  · rw [e]; exact steps_misc _ _ rfl rfl rfl rfl rfl rfl
  · rw [e]; exact steps_refl h a

theorem steps_cat_char (h : Host) (a : srl_encoder_t) (c : Nat) :
    Steps h a (srl_buf_cat_char h a c).2 := by
  rcases srl_buf_cat_char_spec h a c with ⟨sz, bl, e⟩ | e
  · rw [e]
    exact steps_trans (steps_misc a { a with buf_size := sz, buf_block := bl } rfl rfl rfl rfl rfl rfl)
      (steps_char_nocheck h _ c)
  · rw [e]; exact steps_refl h a

theorem steps_cat_varint (h : Host) (a : srl_encoder_t) (tag n : Nat) :
    Steps h a (srl_buf_cat_varint h a tag n).2 := by
  rcases srl_buf_cat_varint_spec h a tag n with ⟨sz, bl, e⟩ | e
  · rw [e]
    exact steps_trans (steps_misc a { a with buf_size := sz, buf_block := bl } rfl rfl rfl rfl rfl rfl)
      (steps_varint_nocheck h _ tag n)
  · rw [e]; exact steps_refl h a

theorem steps_cat_double (h : Host) (a : srl_encoder_t) (tag bits : Nat) :
    Steps h a (srl_buf_cat_double h a tag bits).2 := by
  rcases srl_buf_cat_double_spec h a tag bits with ⟨sz, bl, e⟩ | e
  · rw [e]
    exact steps_trans (steps_misc a { a with buf_size := sz, buf_block := bl } rfl rfl rfl rfl rfl rfl)
      (steps_trans (steps_char_nocheck h _ tag) (steps_nocheck h _ (double_bytes bits)))
  · rw [e]; exact steps_refl h a

theorem steps_dump_long (P : Protocol) (h : Host) (a : srl_encoder_t) (n : Int) :
    Steps h a (srl_dump_long P h a n).2 := by
  unfold srl_dump_long srl_buf_cat_zigzag
  split <;> split <;> first | exact steps_cat_char h a _ | exact steps_cat_varint h a _ _

theorem steps_dump_pyint (P : Protocol) (h : Host) (a : srl_encoder_t) (obj : Nat)
    (pos : Option Ptr) : Steps h a (srl_dump_pyint P h a obj pos).2 := by
  unfold srl_dump_pyint
  cases pos with
  | none => exact steps_dump_long P h a _
  | some p =>
    simp only []
    split <;> split <;> first | exact steps_cat_varint h a _ _ | exact steps_dump_long P h a _

theorem steps_dump_pyfloat (P : Protocol) (h : Host) (a : srl_encoder_t) (obj : Nat)
    (pos : Option Ptr) : Steps h a (srl_dump_pyfloat P h a obj pos).2 := by
  unfold srl_dump_pyfloat
  cases pos with
  | none => exact steps_cat_double h a _ _
  | some p =>
    simp only []
    split <;> first | exact steps_cat_varint h a _ _ | exact steps_cat_double h a _ _

theorem steps_dump_binary (P : Protocol) (h : Host) (a : srl_encoder_t) (p : List Nat) :
    Steps h a (srl_dump_binary P h a p).2 := by
  unfold srl_dump_binary
  rcases BUF_SIZE_ASSERT_spec h a (1 + SRL_MAX_VARINT_LENGTH + p.length) with ⟨sz, bl, e⟩ | e
  · simp only [e]
    refine steps_trans (steps_misc a { a with buf_size := sz, buf_block := bl } rfl rfl rfl rfl rfl rfl) ?_
    refine steps_trans ?_ (steps_nocheck h _ p)
    split
    · exact steps_char_nocheck h _ _
    · exact steps_varint_nocheck h _ _ _
  · simp only [e]; exact steps_refl h a

theorem steps_dump_pystring (P : Protocol) (h : Host) (a : srl_encoder_t) (obj : Nat)
    (pos : Option Ptr) : Steps h a (srl_dump_pystring P h a obj pos).2 := by
  unfold srl_dump_pystring
  cases PyString_AsStringAndSize (h.heap obj) with
  | none => exact steps_refl h a
  | some p =>
    cases pos with
    | none => exact steps_dump_binary P h a p
    | some q =>
      simp only []
      split <;> first | exact steps_cat_varint h a _ _ | exact steps_dump_binary P h a p

theorem steps_dump_pyunicode (P : Protocol) (h : Host) (a : srl_encoder_t) (obj : Nat)
    (pos : Option Ptr) : Steps h a (srl_dump_pyunicode P h a obj pos).2 := by
  unfold srl_dump_pyunicode
  cases PyUnicode_AsUTF8String (h.heap obj) with
  | none => exact steps_refl h a
  | some p =>
    have hin : Steps h a (match BUF_SIZE_ASSERT h a (1 + SRL_MAX_VARINT_LENGTH + p.length) with
        | (Ret.ok, enc1) =>
          ((Ret.ok, srl_buf_cat_str_nocheck
            (srl_buf_cat_varint_nocheck enc1 P.SRL_HDR_STR_UTF8 p.length) p) :
            Ret × srl_encoder_t)
        | r => r).2 := by
      rcases BUF_SIZE_ASSERT_spec h a (1 + SRL_MAX_VARINT_LENGTH + p.length) with ⟨sz, bl, e⟩ | e
      · rw [e]
        exact steps_trans (steps_misc a { a with buf_size := sz, buf_block := bl } rfl rfl rfl rfl rfl rfl)
          (steps_trans (steps_varint_nocheck h _ P.SRL_HDR_STR_UTF8 p.length)
            (steps_nocheck h _ p))
      · rw [e]; exact steps_refl h a
    cases pos with
    | none => exact hin
    | some q =>
      simp only []
      split
      · exact steps_cat_varint h a _ _
      · exact hin

theorem steps_enter (h : Host) (a : srl_encoder_t) (msg : String) :
    Steps h a (SRL_ENTER_RECURSIVE_CALL h a msg).2 := by
  unfold SRL_ENTER_RECURSIVE_CALL
  split
  · exact steps_refl h a
  · simp only []
    split <;> exact steps_misc _ _ rfl rfl rfl rfl rfl rfl

theorem steps_leave (h : Host) (a : srl_encoder_t) :
    Steps h a (SRL_LEAVE_RECURSIVE_CALL a) := steps_misc _ _ rfl rfl rfl rfl rfl rfl

theorem steps_track_obj (h : Host) (a : srl_encoder_t) (obj : Nat)
    (hf : srl_find_obj a obj = none) : Steps h a (srl_track_obj h a obj).2 := by
  unfold srl_track_obj
  cases hs : a.obj_seenhash with
  | none =>
    simp only []
    split
    · have := Prim.track (h := h) a obj hf
      rw [hs] at this
      exact steps_single this
    · exact steps_refl h a
  | some tbl =>
    simp only []
    split
    · have := Prim.track (h := h) a obj hf
      rw [hs] at this
      exact steps_single this
    · exact steps_refl h a

theorem steps_dump_items (h : Host) (dump : srl_encoder_t → Nat → Ret × srl_encoder_t)
    (hd : ∀ a x, Steps h a (dump a x).2) (items : List Nat) :
    ∀ a, Steps h a (srl_dump_items dump items a).2 := by
  induction items with
  | nil => intro a; exact steps_refl h a
  | cons x xs ih =>
    intro a
    simp only [srl_dump_items]
    have hx := hd a x
    rcases hr : dump a x with ⟨r, b⟩
    rw [hr] at hx
    cases r with
    | ok => exact steps_trans hx (ih b)
    | fail e => exact hx
    | nofuel => exact hx

theorem steps_list_header (P : Protocol) (h : Host) (a : srl_encoder_t) (len : Nat) :
    Steps h a (srl_dump_list_header P h a len).2 := by
  unfold srl_dump_list_header
  split
  · exact steps_cat_char h a _
  · rcases BUF_SIZE_ASSERT_spec h a (1 + 1 + SRL_MAX_VARINT_LENGTH) with ⟨sz, bl, e⟩ | e
    · rw [e]
      exact steps_trans (steps_misc a { a with buf_size := sz, buf_block := bl } rfl rfl rfl rfl rfl rfl)
        (steps_trans (steps_char_nocheck h _ P.SRL_HDR_REFN)
          (steps_varint_nocheck h _ P.SRL_HDR_ARRAY _))
    · rw [e]; exact steps_refl h a

theorem steps_dump_pylist (P : Protocol) (h : Host)
    (dump : srl_encoder_t → Nat → Ret × srl_encoder_t)
    (hd : ∀ a x, Steps h a (dump a x).2) (a : srl_encoder_t) (obj : Nat) (pos : Option Ptr)
    (hpos : ∀ p, pos = some p → srl_find_obj a obj = some p)
    (hl : srl_classify (h.heap obj) = srl_type.LIST) :
    Steps h a (srl_dump_pylist P h dump a obj pos).2 := by
  unfold srl_dump_pylist
  have he := steps_enter h a " serializing list"
  rcases hr : SRL_ENTER_RECURSIVE_CALL h a " serializing list" with ⟨r, a1⟩
  rw [hr] at he
  have hs1 : a1.obj_seenhash = a.obj_seenhash := by
    have : a1 = (SRL_ENTER_RECURSIVE_CALL h a " serializing list").2 := by rw [hr]
    rw [this]
    unfold SRL_ENTER_RECURSIVE_CALL
    split
    · rfl
    · simp only []; split <;> rfl
  cases r with
  | ok =>
    simp only []
    cases pos with
    | some p =>
      simp only []
      have hf : srl_find_obj a1 obj = some p := by
        have := hpos p rfl
        unfold srl_find_obj at this ⊢
        rw [hs1]; exact this
      have hfl := steps_single (Prim.flag (h := h) a1 obj p hf hl)
      unfold flag_ofs at hfl
      exact steps_trans he (steps_trans hfl
        (steps_trans (steps_cat_varint h _ _ _) (steps_leave h _)))
    | none =>
      simp only []
      have hhdr := steps_list_header P h a1 (PyList_items (h.heap obj)).length
      rcases hh : srl_dump_list_header P h a1 (PyList_items (h.heap obj)).length with ⟨r3, a3⟩
      rw [hh] at hhdr
      cases r3 with
      | ok =>
        exact steps_trans he (steps_trans hhdr
          (steps_trans (steps_dump_items h dump hd _ a3) (steps_leave h _)))
      | fail e => exact steps_trans he (steps_trans hhdr (steps_leave h _))
      | nofuel => exact steps_trans he (steps_trans hhdr (steps_leave h _))
  | fail e => exact he
  | nofuel => exact he

theorem enter_seenhash (h : Host) (a : srl_encoder_t) (msg : String) :
    (SRL_ENTER_RECURSIVE_CALL h a msg).2.obj_seenhash = a.obj_seenhash ∧
    (SRL_ENTER_RECURSIVE_CALL h a msg).2.buf = a.buf ∧
    (SRL_ENTER_RECURSIVE_CALL h a msg).2.visits = a.visits := by
  unfold SRL_ENTER_RECURSIVE_CALL
  split
  · exact ⟨rfl, rfl, rfl⟩
  · simp only []; split <;> exact ⟨rfl, rfl, rfl⟩

theorem dump_steps (P : Protocol) (h : Host) :
    ∀ (fuel : Nat) (a : srl_encoder_t) (obj : Nat), Steps h a (srl_dump_pyobj P h fuel a obj).2 := by
  intro fuel
  induction fuel with
  | zero => intro a obj; exact steps_refl h a
  | succ fuel ih =>
    intro a obj
    simp only [srl_dump_pyobj]
    have he := steps_enter h a " while Sereal dumping object"
    have hse := enter_seenhash h a " while Sereal dumping object"
    rcases hr : SRL_ENTER_RECURSIVE_CALL h a " while Sereal dumping object" with ⟨r, a1⟩
    rw [hr] at he hse
    simp only [] at hse
    cases r with
    | ok =>
      simp only []
      have hv := steps_single (Prim.visit (h := h) a1 obj
        ((if srl_classify (h.heap obj) = srl_type.BOOL then none
          else srl_find_obj a1 obj).map (emitter_ofs h a1 obj)))
      refine steps_trans he (steps_trans hv ?_)
      by_cases hb : srl_classify (h.heap obj) = srl_type.BOOL
      · simp only [hb, if_true, srl_dump_switch]
        exact steps_trans (steps_cat_char h _ _) (steps_leave h _)
      · simp only [hb, if_false]
        have hsw : ∀ a3 : srl_encoder_t, srl_find_obj a3 obj = srl_find_obj a1 obj ∨
            srl_find_obj a1 obj = none →
            Steps h a3 (srl_dump_switch P h (srl_dump_pyobj P h fuel) (srl_classify (h.heap obj))
              a3 obj (srl_find_obj a1 obj)).2 := by
          intro a3 h3
          unfold srl_dump_switch
          cases hc : srl_classify (h.heap obj) with
          | NONE => exact steps_refl h a3
          | BOOL => exact absurd hc hb
          | INT => exact steps_dump_pyint P h a3 obj _
          | FLOAT => exact steps_dump_pyfloat P h a3 obj _
          | STRING => exact steps_dump_pystring P h a3 obj _
          | UNICODE => exact steps_dump_pyunicode P h a3 obj _
          | LIST =>
            refine steps_dump_pylist P h _ (ih) a3 obj _ ?_ hc
            intro p hp
            rcases h3 with h3 | h3
            · rw [h3]; exact hp
            · rw [h3] at hp; cases hp
        cases hf : srl_find_obj a1 obj with
        | some p =>
          simp only [Option.map_some']
          have := hsw { a1 with visits := a1.visits ++
            [{ obj := obj, ofs := a1.buf.length, prior := some (emitter_ofs h a1 obj p) }] }
            (Or.inl rfl)
          rw [hf] at this
          exact steps_trans this (steps_leave h _)
        | none =>
          simp only [Option.map_none']
          have htr := steps_track_obj h { a1 with visits := a1.visits ++
            [{ obj := obj, ofs := a1.buf.length, prior := none }] } obj hf
          rcases ht : srl_track_obj h { a1 with visits := a1.visits ++
            [{ obj := obj, ofs := a1.buf.length, prior := none }] } obj with ⟨r3, a3⟩
          rw [ht] at htr
          cases r3 with
          | ok =>
            simp only []
            have := hsw a3 (Or.inr hf)
            rw [hf] at this
            exact steps_trans htr (steps_trans this (steps_leave h _))
          | fail e => exact steps_trans htr (steps_leave h _)
          | nofuel => exact steps_trans htr (steps_leave h _)
    | fail e => exact he
    | nofuel => exact he

theorem flag_ptr_ofs (h : Host) (obj : Nat) (p : Ptr) :
    (flag_ptr h obj p).ofs = flag_ofs h obj p.ofs := by
  unfold flag_ptr flag_ofs ptr_succ
  split <;> rfl

theorem SRL_SET_FBIT_fields (enc : srl_encoder_t) (q : Ptr) :
    (SRL_SET_FBIT enc q).obj_seenhash = enc.obj_seenhash ∧
    (SRL_SET_FBIT enc q).visits = enc.visits ∧
    (SRL_SET_FBIT enc q).flags = enc.flags ∧
    (SRL_SET_FBIT enc q).max_recursion_depth = enc.max_recursion_depth ∧
    (SRL_SET_FBIT enc q).operational_flags = enc.operational_flags ∧
    (SRL_SET_FBIT enc q).recursion_depth = enc.recursion_depth ∧
    (SRL_SET_FBIT enc q).py_recursion_depth = enc.py_recursion_depth ∧
    (SRL_SET_FBIT enc q).buf_block = enc.buf_block ∧
    (SRL_SET_FBIT enc q).buf_size = enc.buf_size ∧
    (SRL_SET_FBIT enc q).overrun = enc.overrun ∧
    (SRL_SET_FBIT enc q).buf.length = enc.buf.length := by
  unfold SRL_SET_FBIT
  split <;> simp

/-- The write of `SRL_SET_FBIT` on the buffer: the flag bit is set at the
offset of the pointer, when the pointer points into the block of the buffer,
and no byte is changed when it does not. -/
theorem SRL_SET_FBIT_buf (enc : srl_encoder_t) (q : Ptr) :
    (q.block = enc.buf_block →
      (SRL_SET_FBIT enc q).buf =
        enc.buf.set q.ofs (enc.buf.getD q.ofs 0 ||| SRL_HDR_TRACK_FLAG)) ∧
    (q.block ≠ enc.buf_block → (SRL_SET_FBIT enc q).buf = enc.buf) ∧
    ((SRL_SET_FBIT enc q).buf =
        enc.buf.set q.ofs (enc.buf.getD q.ofs 0 ||| SRL_HDR_TRACK_FLAG) ∨
      (SRL_SET_FBIT enc q).buf = enc.buf) := by
  unfold SRL_SET_FBIT
  by_cases hb : q.block = enc.buf_block
  · by_cases hl : q.ofs < enc.buf.length
    · rw [if_pos ⟨hb, hl⟩]
      exact ⟨fun _ => rfl, fun hn => absurd hb hn, Or.inl rfl⟩
    · have hs : enc.buf.set q.ofs (enc.buf.getD q.ofs 0 ||| SRL_HDR_TRACK_FLAG) = enc.buf :=
        List.set_eq_of_length_le (by omega)
      rw [if_neg (fun hc => hl hc.2)]
      exact ⟨fun _ => hs.symm, fun _ => rfl, Or.inr rfl⟩
  · rw [if_neg (fun hc => hb hc.1)]
    exact ⟨fun hc => absurd hc hb, fun _ => rfl, Or.inr rfl⟩

theorem or_eq_zero_left (x y : Nat) (hxy : x ||| y = 0) : x = 0 := by
  apply Nat.eq_of_testBit_eq
  intro i
  have := congrArg (fun z => Nat.testBit z i) hxy
  simp only [Nat.testBit_or, Nat.zero_testBit, Bool.or_eq_false_iff] at this
  simp [this.1]

theorem or_eq_zero_right (x y : Nat) (hxy : x ||| y = 0) : y = 0 :=
  or_eq_zero_left y x (by rw [Nat.or_comm]; exact hxy)

theorem find_track (a : srl_encoder_t) (obj x : Nat) (q : Ptr) :
    srl_find_obj { a with
      obj_seenhash := some (PTABLE_store (a.obj_seenhash.getD []) obj q) } x =
      if obj = x then some q else srl_find_obj a x := by
  unfold srl_find_obj PTABLE_store PTABLE_fetch
  by_cases hx : obj = x
  · simp [hx, List.find?]
  · have : (obj == x) = false := by simpa using hx
    simp only [List.find?, this, hx, if_false]
    cases a.obj_seenhash <;> simp

theorem srl_write_header_fields (P : Protocol) (h : Host) (enc : srl_encoder_t) :
    (srl_write_header P h enc).buf = enc.buf ++ (P.SRL_MAGIC_STRING ++
      [(P.SRL_PROTOCOL_VERSION |||
        (if SRL_ENC_HAVE_OPTION enc P.SRL_F_COMPRESS_SNAPPY then P.SRL_PROTOCOL_ENCODING_SNAPPY
         else if SRL_ENC_HAVE_OPTION enc P.SRL_F_COMPRESS_SNAPPY_INCREMENTAL then
           P.SRL_PROTOCOL_ENCODING_SNAPPY_INCREMENTAL
         else P.SRL_PROTOCOL_ENCODING_RAW)) % 256, 0]) ∧
    (srl_write_header P h enc).obj_seenhash = enc.obj_seenhash ∧
    (srl_write_header P h enc).visits = enc.visits ∧
    (srl_write_header P h enc).flags = enc.flags ∧
    (srl_write_header P h enc).max_recursion_depth = enc.max_recursion_depth ∧
    (srl_write_header P h enc).recursion_depth = enc.recursion_depth ∧
    (srl_write_header P h enc).py_recursion_depth = enc.py_recursion_depth := by
  unfold srl_write_header
  rcases BUF_SIZE_ASSERT_spec h enc ((P.SRL_MAGIC_STRING.length + 1) + 1 + 1) with ⟨sz, bl, e⟩ | e <;>
    simp [e, srl_buf_cat_char_nocheck, srl_buf_cat_str_nocheck]

theorem have_option_or (enc : srl_encoder_t) (x y : Nat)
    (hxy : SRL_ENC_HAVE_OPTION enc (x ||| y) = false) :
    SRL_ENC_HAVE_OPTION enc x = false ∧ SRL_ENC_HAVE_OPTION enc y = false := by
  unfold SRL_ENC_HAVE_OPTION at *
  simp only [bne_eq_false_iff_eq] at *
  rw [Nat.and_or_distrib_left] at hxy
  exact ⟨or_eq_zero_left _ _ hxy, or_eq_zero_right _ _ hxy⟩

/-- A successful dump on a fresh session: no snappy flag is set, the header
is the six bytes of the raw encoding, the dispatcher has succeeded on the
session behind the header, and the result is the whole buffer. -/
theorem dump_ok_unfold (P : Protocol) (h : Host) (fuel : Nat)
    (args : srl_encoder_ctor_args) (root : Nat) (out : List Nat) (enc1 : srl_encoder_t)
    (hd : srl_encoder_dump P h fuel (fresh_session P args) root = (DumpRet.bytes out, enc1)) :
    (srl_write_header P h (fresh_session P args)).buf =
      P.SRL_MAGIC_STRING ++ [(P.SRL_PROTOCOL_VERSION ||| P.SRL_PROTOCOL_ENCODING_RAW) % 256, 0] ∧
    srl_dump_pyobj P h fuel (srl_write_header P h (fresh_session P args)) root = (Ret.ok, enc1) ∧
    out = enc1.buf := by
  unfold srl_encoder_dump at hd
  cases hopt : SRL_ENC_HAVE_OPTION (fresh_session P args)
      (P.SRL_F_COMPRESS_SNAPPY ||| P.SRL_F_COMPRESS_SNAPPY_INCREMENTAL) with
  | true => simp [hopt] at hd
  | false =>
    simp only [hopt, Bool.not_false, if_true] at hd
    obtain ⟨ho1, ho2⟩ := have_option_or _ _ _ hopt
    have hw := srl_write_header_fields P h (fresh_session P args)
    rw [ho1, ho2] at hw
    simp only [Bool.false_eq_true, if_false] at hw
    have hwb : (srl_write_header P h (fresh_session P args)).buf =
        P.SRL_MAGIC_STRING ++
          [(P.SRL_PROTOCOL_VERSION ||| P.SRL_PROTOCOL_ENCODING_RAW) % 256, 0] := by
      rw [hw.1]; rfl
    rcases hr : srl_dump_pyobj P h fuel (srl_write_header P h (fresh_session P args)) root
      with ⟨r, b⟩
    rw [hr] at hd
    cases r with
    | ok =>
      simp only [Prod.mk.injEq, DumpRet.bytes.injEq] at hd
      obtain ⟨hd1, hd2⟩ := hd
      subst hd2
      exact ⟨hwb, rfl, hd1.symm⟩
    | fail e => simp at hd
    | nofuel => simp at hd

/-! ## C1: the header, then the root value -/

theorem find_congr (a b : srl_encoder_t) (hs : b.obj_seenhash = a.obj_seenhash) (obj : Nat) :
    srl_find_obj b obj = srl_find_obj a obj := by
  unfold srl_find_obj; rw [hs]

theorem mono_refl (h : Host) (a : srl_encoder_t) : Mono h a a :=
  ⟨le_refl _, fun _ _ => Or.inl rfl, fun _ _ ho => ho, fun _ _ ho => Or.inl ho,
    ⟨[], by simp, by simp⟩, rfl, rfl⟩

theorem or_flag_idem (x : Nat) :
    (x ||| SRL_HDR_TRACK_FLAG) ||| SRL_HDR_TRACK_FLAG = x ||| SRL_HDR_TRACK_FLAG := by
  rw [Nat.or_assoc, Nat.or_self]

theorem le_flag_ofs (h : Host) (obj o : Nat) : o ≤ flag_ofs h obj o := by
  unfold flag_ofs; split <;> omega

theorem mono_trans (h : Host) (a b c : srl_encoder_t) (hab : Mono h a b) (hbc : Mono h b c) :
    Mono h a c := by
  obtain ⟨a1, a2, a3, a4, ⟨va, a5, a5'⟩, a6, a7⟩ := hab
  obtain ⟨b1, b2, b3, b4, ⟨vb, b5, b5'⟩, b6, b7⟩ := hbc
  refine ⟨le_trans a1 b1, ?_, fun obj o ho => b3 obj o (a3 obj o ho), ?_, ?_,
    b6.trans a6, b7.trans a7⟩
  · intro i hi
    rcases b2 i (by omega) with e | ⟨e, obj, o, ho, hl, hio⟩
    · rw [e]; exact a2 i hi
    · have hoa : srl_find_obj a obj = some o := by
        rcases a4 obj o ho with h1 | ⟨_, h2⟩
        · exact h1
        · have := le_flag_ofs h obj o.ofs
          omega
      rcases a2 i hi with e2 | ⟨e2, _⟩
      · exact Or.inr ⟨by rw [e, e2], obj, o, hoa, hl, hio⟩
      · exact Or.inr ⟨by rw [e, e2, or_flag_idem], obj, o, hoa, hl, hio⟩
  · intro obj o ho
    rcases b4 obj o ho with h1 | ⟨h1, h2⟩
    · exact a4 obj o h1
    · right
      refine ⟨?_, by omega⟩
      cases hfa : srl_find_obj a obj with
      | none => rfl
      | some o1 =>
        have := a3 obj o1 hfa
        rw [h1] at this; cases this
  · refine ⟨va ++ vb, by rw [b5, a5, List.append_assoc], ?_⟩
    intro v hv
    rcases List.mem_append.1 hv with hv | hv
    · exact a5' v hv
    · have := b5' v hv
      omega

theorem getD_append_lt (l1 l2 : List Nat) (i : Nat) (hi : i < l1.length) :
    (l1 ++ l2).getD i 0 = l1.getD i 0 := List.getD_append l1 l2 0 i hi

theorem getD_set (l : List Nat) (i j v : Nat) :
    (l.set j v).getD i 0 = if j = i ∧ i < l.length then v else l.getD i 0 := by
  simp only [List.getD_eq_getElem?_getD, List.getElem?_set]
  by_cases hji : j = i
  · subst hji
    by_cases hl : j < l.length
    · simp [hl]
    · have : l[j]? = none := List.getElem?_eq_none (by omega)
      simp [hl, this]
  · simp [hji]

theorem prim_mono (h : Host) (a b : srl_encoder_t) (hp : Prim h a b) : Mono h a b := by
  cases hp with
  | misc _ h1 h2 h3 h4 h5 h6 =>
    refine ⟨by rw [h1], fun i _ => Or.inl (by rw [h1]), ?_, ?_, ⟨[], by simp [h3], by simp⟩, h4, h5⟩
    · intro obj o ho; rw [find_congr a b h2]; exact ho
    · intro obj o ho; rw [find_congr a b h2] at ho; exact Or.inl ho
  | append bytes =>
    refine ⟨by simp, fun i hi => Or.inl (getD_append_lt _ _ i hi), fun _ _ ho => ho,
      fun _ _ ho => Or.inl ho, ⟨[], by simp, by simp⟩, rfl, rfl⟩
  | visit obj pos =>
    exact ⟨le_refl _, fun _ _ => Or.inl rfl, fun _ _ ho => ho, fun _ _ ho => Or.inl ho,
      ⟨[_], rfl, by simp⟩, rfl, rfl⟩
  | track obj hf =>
    refine ⟨le_refl _, fun _ _ => Or.inl rfl, ?_, ?_, ⟨[], by simp, by simp⟩, rfl, rfl⟩
    · intro x o ho
      rw [find_track]
      by_cases hx : obj = x
      · subst hx; rw [hf] at ho; cases ho
      · rw [if_neg hx]; exact ho
    · intro x o ho
      rw [find_track] at ho
      by_cases hx : obj = x
      · subst hx
        rw [if_pos rfl] at ho
        cases ho
        exact Or.inr ⟨hf, le_refl _⟩
      · rw [if_neg hx] at ho; exact Or.inl ho
  | flag obj o hf hl =>
    obtain ⟨f1, f2, f3, f4, _, _, _, _, _, _, f11⟩ := SRL_SET_FBIT_fields a (flag_ptr h obj o)
    refine ⟨by rw [f11], ?_, ?_, ?_, ⟨[], by simp [f2], by simp⟩, f3, f4⟩
    · intro i hi
      rcases (SRL_SET_FBIT_buf a (flag_ptr h obj o)).2.2 with e | e
      · rw [e, flag_ptr_ofs, getD_set]
        by_cases hc : flag_ofs h obj o.ofs = i ∧ i < a.buf.length
        · rw [if_pos hc]
          exact Or.inr ⟨by rw [hc.1], obj, o, hf, hl, hc.1.symm⟩
        · rw [if_neg hc]; exact Or.inl rfl
      · rw [e]; exact Or.inl rfl
    · intro x p ho; rw [find_congr a _ f1]; exact ho
    · intro x p ho; rw [find_congr a _ f1] at ho; exact Or.inl ho

theorem steps_mono (h : Host) (a b : srl_encoder_t) (hst : Steps h a b) : Mono h a b := by
  induction hst with
  | refl => exact mono_refl h a
  | tail _ hp ih => exact mono_trans h _ _ _ ih (prim_mono h _ _ hp)

theorem dump_mono (P : Protocol) (h : Host) (fuel : Nat) (a : srl_encoder_t) (obj : Nat) :
    Mono h a (srl_dump_pyobj P h fuel a obj).2 :=
  steps_mono h _ _ (dump_steps P h fuel a obj)

theorem run_items_append (dump : srl_encoder_t → Nat → Ret × srl_encoder_t) (xs ys : List Nat) :
    ∀ e, run_items dump (xs ++ ys) e = run_items dump ys (run_items dump xs e) := by
  induction xs with
  | nil => intro e; rfl
  | cons x xs ih => intro e; simp only [List.cons_append, run_items]; exact ih _

theorem run_items_take_succ (dump : srl_encoder_t → Nat → Ret × srl_encoder_t) (items : List Nat)
    (e : srl_encoder_t) (i : Nat) (hi : i < items.length) :
    run_items dump (items.take (i + 1)) e =
      (dump (run_items dump (items.take i) e) (items.get ⟨i, hi⟩)).2 := by
  have : items.take (i + 1) = items.take i ++ [items.get ⟨i, hi⟩] := by
    rw [List.take_succ]
    simp [List.getElem?_eq_getElem hi]
  rw [this, run_items_append]
  rfl

theorem srl_dump_items_ok (dump : srl_encoder_t → Nat → Ret × srl_encoder_t) (items : List Nat) :
    ∀ (e e1 : srl_encoder_t), srl_dump_items dump items e = (Ret.ok, e1) →
      e1 = run_items dump items e ∧
      ∀ i (hi : i < items.length),
        (dump (run_items dump (items.take i) e) (items.get ⟨i, hi⟩)).1 = Ret.ok := by
  induction items with
  | nil =>
    intro e e1 hr
    simp only [srl_dump_items, Prod.mk.injEq, true_and] at hr
    exact ⟨hr.symm, fun i hi => absurd hi (by simp)⟩
  | cons x xs ih =>
    intro e e1 hr
    simp only [srl_dump_items] at hr
    rcases hd : dump e x with ⟨r, b⟩
    rw [hd] at hr
    cases r with
    | ok =>
      obtain ⟨h1, h2⟩ := ih b e1 hr
      refine ⟨by simp only [run_items, hd]; exact h1, ?_⟩
      intro i hi
      cases i with
      | zero => simp [run_items, hd]
      | succ i =>
        have := h2 i (by simpa using hi)
        simpa [run_items, hd] using this
    | fail err => simp at hr
    | nofuel => simp at hr

theorem srl_dump_list_header_ok (P : Protocol) (h : Host) (a b : srl_encoder_t) (len : Nat)
    (hr : srl_dump_list_header P h a len = (Ret.ok, b)) :
    b.buf = a.buf ++ list_header_bytes P len ∧ b.obj_seenhash = a.obj_seenhash ∧
    b.visits = a.visits ∧ b.recursion_depth = a.recursion_depth ∧
    b.py_recursion_depth = a.py_recursion_depth ∧ b.flags = a.flags ∧
    b.max_recursion_depth = a.max_recursion_depth := by
  unfold srl_dump_list_header at hr
  unfold list_header_bytes
  simp only [SRL_MASK_ARRAYREF_COUNT] at hr
  by_cases hl : len ≤ 15
  · rw [if_pos hl] at hr
    rw [if_pos hl]
    have hc : to_char (len : Int) = len := by
      rw [to_char_small _ (by omega) (by omega)]; simp
    rcases srl_buf_cat_char_spec h a ((P.SRL_HDR_ARRAYREF_LOW + to_char (len : Int)) % 256)
      with ⟨sz, bl, e⟩ | e
    · rw [e] at hr
      simp only [Prod.mk.injEq, true_and] at hr
      subst hr
      simp [srl_buf_cat_char_nocheck, srl_buf_cat_str_nocheck, hc]
    · rw [e] at hr; simp at hr
  · rw [if_neg hl] at hr
    rw [if_neg hl]
    rcases BUF_SIZE_ASSERT_spec h a (1 + 1 + SRL_MAX_VARINT_LENGTH) with ⟨sz, bl, e⟩ | e
    · rw [e] at hr
      simp only [Prod.mk.injEq, true_and] at hr
      subst hr
      simp [srl_buf_cat_varint_nocheck, srl_buf_cat_char_nocheck, srl_buf_cat_str_nocheck]
    · rw [e] at hr; simp at hr

theorem enter_ok_fields (h : Host) (a b : srl_encoder_t) (msg : String)
    (hr : SRL_ENTER_RECURSIVE_CALL h a msg = (Ret.ok, b)) :
    b = { a with py_recursion_depth := a.py_recursion_depth + 1
                 recursion_depth := a.recursion_depth + 1 } := by
  unfold SRL_ENTER_RECURSIVE_CALL at hr
  split at hr
  · simp at hr
  · simp only [] at hr
    split at hr
    · simp at hr
    · simp only [Prod.mk.injEq, true_and] at hr
      exact hr.symm

/-! ## C4: a list is its header and then its items in order -/

theorem emitted_trans {a b c : srl_encoder_t} {x y : List Nat} (h1 : Emitted a b x)
    (h2 : Emitted b c y) : Emitted a c (x ++ y) := by
  obtain ⟨a1, a2, a3, a4, a5, a6, a7, a8⟩ := h1
  obtain ⟨b1, b2, b3, b4, b5, b6, b7, b8⟩ := h2
  exact ⟨by rw [b1, a1, List.append_assoc], b2.trans a2, b3.trans a3, b4.trans a4, b5.trans a5,
    b6.trans a6, b7.trans a7, b8.trans a8⟩

theorem emitted_char (h : Host) (a b : srl_encoder_t) (c : Nat)
    (hr : srl_buf_cat_char h a c = (Ret.ok, b)) : Emitted a b [c] := by
  rcases srl_buf_cat_char_spec h a c with ⟨sz, bl, e⟩ | e
  · rw [e] at hr
    simp only [Prod.mk.injEq, true_and] at hr
    subst hr
    exact ⟨rfl, rfl, rfl, rfl, rfl, rfl, rfl, rfl⟩
  · rw [e] at hr; simp at hr

theorem emitted_varint (h : Host) (a b : srl_encoder_t) (tag n : Nat)
    (hr : srl_buf_cat_varint h a tag n = (Ret.ok, b)) : Emitted a b (tag :: varint n) := by
  rcases srl_buf_cat_varint_spec h a tag n with ⟨sz, bl, e⟩ | e
  · rw [e] at hr
    simp only [Prod.mk.injEq, true_and] at hr
    subst hr
    refine ⟨?_, rfl, rfl, rfl, rfl, rfl, rfl, rfl⟩
    simp [srl_buf_cat_varint_nocheck, srl_buf_cat_char_nocheck, srl_buf_cat_str_nocheck]
  · rw [e] at hr; simp at hr

theorem emitted_double (h : Host) (a b : srl_encoder_t) (tag bits : Nat)
    (hr : srl_buf_cat_double h a tag bits = (Ret.ok, b)) :
    Emitted a b (tag :: double_bytes bits) := by
  rcases srl_buf_cat_double_spec h a tag bits with ⟨sz, bl, e⟩ | e
  · rw [e] at hr
    simp only [Prod.mk.injEq, true_and] at hr
    subst hr
    refine ⟨?_, rfl, rfl, rfl, rfl, rfl, rfl, rfl⟩
    simp [srl_buf_cat_char_nocheck, srl_buf_cat_str_nocheck]
  · rw [e] at hr; simp at hr

theorem cat_char_fail (h : Host) (a b : srl_encoder_t) (c : Nat) (r : Ret)
    (hr : srl_buf_cat_char h a c = (r, b)) (hne : r ≠ Ret.ok) :
    r = Ret.fail PyErr.MemoryError ∧ b = a := by
  rcases srl_buf_cat_char_spec h a c with ⟨sz, bl, e⟩ | e
  · rw [e] at hr; simp only [Prod.mk.injEq] at hr; exact absurd hr.1.symm hne
  · rw [e] at hr; simp only [Prod.mk.injEq] at hr; exact ⟨hr.1.symm, hr.2.symm⟩

theorem cat_varint_fail (h : Host) (a b : srl_encoder_t) (tag n : Nat) (r : Ret)
    (hr : srl_buf_cat_varint h a tag n = (r, b)) (hne : r ≠ Ret.ok) :
    r = Ret.fail PyErr.MemoryError ∧ b = a := by
  rcases srl_buf_cat_varint_spec h a tag n with ⟨sz, bl, e⟩ | e
  · rw [e] at hr; simp only [Prod.mk.injEq] at hr; exact absurd hr.1.symm hne
  · rw [e] at hr; simp only [Prod.mk.injEq] at hr; exact ⟨hr.1.symm, hr.2.symm⟩

theorem cat_double_fail (h : Host) (a b : srl_encoder_t) (tag n : Nat) (r : Ret)
    (hr : srl_buf_cat_double h a tag n = (r, b)) (hne : r ≠ Ret.ok) :
    r = Ret.fail PyErr.MemoryError ∧ b = a := by
  rcases srl_buf_cat_double_spec h a tag n with ⟨sz, bl, e⟩ | e
  · rw [e] at hr; simp only [Prod.mk.injEq] at hr; exact absurd hr.1.symm hne
  · rw [e] at hr; simp only [Prod.mk.injEq] at hr; exact ⟨hr.1.symm, hr.2.symm⟩

theorem dump_binary_cases (P : Protocol) (h : Host) (a b : srl_encoder_t) (s : List Nat) (r : Ret)
    (hr : srl_dump_binary P h a s = (r, b)) :
    (r = Ret.ok ∧ Emitted a b (scalar_inline P (PyObject.pystring s))) ∨
    (r = Ret.fail PyErr.MemoryError ∧ b = a) := by
  unfold srl_dump_binary at hr
  rcases BUF_SIZE_ASSERT_spec h a (1 + SRL_MAX_VARINT_LENGTH + s.length) with ⟨sz, bl, e⟩ | e
  · simp only [e, Prod.mk.injEq] at hr
    obtain ⟨h1, h2⟩ := hr
    left
    refine ⟨h1.symm, ?_⟩
    subst h2
    unfold scalar_inline
    by_cases hs : s.length ≤ SRL_MASK_SHORT_BINARY_LEN
    · simp only [hs, if_true]
      refine ⟨?_, rfl, rfl, rfl, rfl, rfl, rfl, rfl⟩
      simp [srl_buf_cat_char_nocheck, srl_buf_cat_str_nocheck]
    · simp only [hs, if_false]
      refine ⟨?_, rfl, rfl, rfl, rfl, rfl, rfl, rfl⟩
      simp [srl_buf_cat_varint_nocheck, srl_buf_cat_char_nocheck, srl_buf_cat_str_nocheck]
  · simp only [e, Prod.mk.injEq] at hr
    exact Or.inr ⟨hr.1.symm, hr.2.symm⟩

theorem dump_long_cases (P : Protocol) (h : Host) (a b : srl_encoder_t) (l : Int) (r : Ret)
    (hr : srl_dump_long P h a l = (r, b)) :
    (r = Ret.ok ∧ Emitted a b (scalar_inline P (PyObject.pyint l))) ∨
    (r = Ret.fail PyErr.MemoryError ∧ b = a) := by
  unfold srl_dump_long srl_buf_cat_zigzag at hr
  unfold scalar_inline
  by_cases hok : r = Ret.ok
  · left
    subst hok
    refine ⟨rfl, ?_⟩
    split at hr <;> split at hr <;> simp only [*, if_true, if_false] <;>
      first | exact emitted_char h a b _ hr | exact emitted_varint h a b _ _ hr
  · right
    split at hr <;> split at hr <;>
      first | exact cat_char_fail h a b _ r hr hok | exact cat_varint_fail h a b _ _ r hr hok

/-- The emitters of the values that are not lists: on success the bytes
`scalar_bytes` are appended; a failure leaves the session as it was. -/
theorem switch_scalar_cases (P : Protocol) (h : Host)
    (dump : srl_encoder_t → Nat → Ret × srl_encoder_t) (a b : srl_encoder_t) (obj : Nat)
    (pos : Option Ptr) (r : Ret) (hl : srl_classify (h.heap obj) ≠ srl_type.LIST)
    (hr : srl_dump_switch P h dump (srl_classify (h.heap obj)) a obj pos = (r, b)) :
    (r = Ret.ok ∧ srl_classify (h.heap obj) ≠ srl_type.NONE ∧
      h.heap obj ≠ PyObject.pyunicode none ∧
      Emitted a b (scalar_bytes P (h.heap obj)
          (pos.map (fun p => ptr_diff h p a.buf_start)))) ∨
    (b = a ∧ (r = Ret.fail PyErr.MemoryError ∨
      (r = Ret.fail PyErr.UnicodeError ∧ h.heap obj = PyObject.pyunicode none) ∨
      (r = Ret.fail (PyErr.NotImplementedError_type (tp_name (h.heap obj))) ∧
        srl_classify (h.heap obj) = srl_type.NONE))) := by
  cases ho : h.heap obj with
  | pybool v =>
    have hc : srl_classify (PyObject.pybool v) = srl_type.BOOL := rfl
    rw [ho, hc] at hr
    simp only [srl_dump_switch, ho] at hr
    by_cases hok : r = Ret.ok
    · subst hok
      left
      refine ⟨rfl, by simp [hc], by simp, ?_⟩
      have := emitted_char h a b _ hr
      have hsb : scalar_bytes P (PyObject.pybool v)
          (pos.map (fun p => ptr_diff h p a.buf_start)) =
          [if PyObject.pybool v = PyObject.pybool true then P.SRL_HDR_TRUE
           else P.SRL_HDR_FALSE] := by
        unfold scalar_bytes scalar_inline copy_test
        cases pos <;> cases v <;> simp
      rw [hsb]; exact this
    · right
      obtain ⟨h1, h2⟩ := cat_char_fail h a b _ r hr hok
      exact ⟨h2, Or.inl h1⟩
  | pyint l =>
    have hc : srl_classify (PyObject.pyint l) = srl_type.INT := rfl
    rw [ho, hc] at hr
    simp only [srl_dump_switch, srl_dump_pyint, ho, PyInt_AS_LONG] at hr
    have key : ∀ d, pos = some d → copy_test (PyObject.pyint l) (ptr_diff h d a.buf_start) = true →
        srl_buf_cat_varint h a P.SRL_HDR_COPY (ptr_diff h d a.buf_start) = (r, b) := by
      intro d hd hct
      subst hd
      simp only [copy_test] at hct
      simp only [] at hr
      by_cases hl0 : l > 0
      · simp only [hl0, if_true, decide_eq_true_eq] at hct
        simpa [hl0, hct] using hr
      · simp only [hl0, if_false, decide_eq_true_eq] at hct
        simpa [hl0, hct] using hr
    have key2 : (∀ d, pos = some d → copy_test (PyObject.pyint l) (ptr_diff h d a.buf_start) = false) →
        srl_dump_long P h a l = (r, b) := by
      intro hall
      cases pos with
      | none => exact hr
      | some d =>
        have hct := hall d rfl
        simp only [copy_test] at hct
        simp only [] at hr
        by_cases hl0 : l > 0
        · simp only [hl0, if_true, decide_eq_false_iff_not] at hct
          simpa [hl0, hct] using hr
        · simp only [hl0, if_false, decide_eq_false_iff_not] at hct
          simpa [hl0, hct] using hr
    by_cases hcopy : ∃ d, pos = some d ∧ copy_test (PyObject.pyint l) (ptr_diff h d a.buf_start) = true
    · obtain ⟨d, hd, hct⟩ := hcopy
      have hv := key d hd hct
      have hsb : scalar_bytes P (PyObject.pyint l)
          (pos.map (fun p => ptr_diff h p a.buf_start)) = P.SRL_HDR_COPY :: varint (ptr_diff h d a.buf_start) := by
        subst hd; simp [scalar_bytes, hct]
      by_cases hok : r = Ret.ok
      · subst hok
        exact Or.inl ⟨rfl, by simp [hc], by simp, by rw [hsb]; exact emitted_varint h a b _ _ hv⟩
      · obtain ⟨h1, h2⟩ := cat_varint_fail h a b _ _ r hv hok
        exact Or.inr ⟨h2, Or.inl h1⟩
    · have hall : ∀ d, pos = some d → copy_test (PyObject.pyint l) (ptr_diff h d a.buf_start) = false := by
        intro d hd
        cases hct : copy_test (PyObject.pyint l) (ptr_diff h d a.buf_start) with
        | false => rfl
        | true => exact absurd ⟨d, hd, hct⟩ hcopy
      have hv := key2 hall
      have hsb : scalar_bytes P (PyObject.pyint l)
          (pos.map (fun p => ptr_diff h p a.buf_start)) = scalar_inline P (PyObject.pyint l) := by
        cases pos with
        | none => rfl
        | some d => simp [scalar_bytes, hall d rfl]
      rcases dump_long_cases P h a b l r hv with ⟨h1, h2⟩ | ⟨h1, h2⟩
      · exact Or.inl ⟨h1, by simp [hc], by simp, by rw [hsb]; exact h2⟩
      · exact Or.inr ⟨h2, Or.inl h1⟩
  | pyfloat bits =>
    have hc : srl_classify (PyObject.pyfloat bits) = srl_type.FLOAT := rfl
    rw [ho, hc] at hr
    simp only [srl_dump_switch, srl_dump_pyfloat, ho, PyFloat_AS_DOUBLE] at hr
    by_cases hcopy : ∃ d, pos = some d ∧ copy_test (PyObject.pyfloat bits) (ptr_diff h d a.buf_start) = true
    · obtain ⟨d, hd, hct⟩ := hcopy
      subst hd
      have hsb : scalar_bytes P (PyObject.pyfloat bits)
          (some (ptr_diff h d a.buf_start)) = P.SRL_HDR_COPY :: varint (ptr_diff h d a.buf_start) := by
        simp [scalar_bytes, hct]
      simp only [copy_test, decide_eq_true_eq] at hct
      simp only [hct, if_true] at hr
      by_cases hok : r = Ret.ok
      · subst hok
        exact Or.inl ⟨rfl, by simp [hc], by simp, by rw [Option.map_some', hsb]; exact emitted_varint h a b _ _ hr⟩
      · obtain ⟨h1, h2⟩ := cat_varint_fail h a b _ _ r hr hok
        exact Or.inr ⟨h2, Or.inl h1⟩
    · have hv : srl_buf_cat_double h a P.SRL_HDR_DOUBLE bits = (r, b) := by
        cases pos with
        | none => exact hr
        | some d =>
          have hct : ¬ VARINT_LEN (ptr_diff h d a.buf_start) < 8 := by
            intro hlt
            exact hcopy ⟨d, rfl, by simp [copy_test, hlt]⟩
          simpa [hct] using hr
      have hsb : scalar_bytes P (PyObject.pyfloat bits)
          (pos.map (fun p => ptr_diff h p a.buf_start)) =
          P.SRL_HDR_DOUBLE :: double_bytes bits := by
        cases pos with
        | none => rfl
        | some d =>
          have hct : copy_test (PyObject.pyfloat bits) (ptr_diff h d a.buf_start) = false := by
            cases hct : copy_test (PyObject.pyfloat bits) (ptr_diff h d a.buf_start) with
            | false => rfl
            | true => exact absurd ⟨d, rfl, hct⟩ hcopy
          simp [scalar_bytes, hct, scalar_inline]
      by_cases hok : r = Ret.ok
      · subst hok
        exact Or.inl ⟨rfl, by simp [hc], by simp, by rw [hsb]; exact emitted_double h a b _ _ hv⟩
      · obtain ⟨h1, h2⟩ := cat_double_fail h a b _ _ r hv hok
        exact Or.inr ⟨h2, Or.inl h1⟩
  | pystring s =>
    have hc : srl_classify (PyObject.pystring s) = srl_type.STRING := rfl
    rw [ho, hc] at hr
    simp only [srl_dump_switch, srl_dump_pystring, ho, PyString_AsStringAndSize] at hr
    by_cases hcopy : ∃ d, pos = some d ∧ copy_test (PyObject.pystring s) (ptr_diff h d a.buf_start) = true
    · obtain ⟨d, hd, hct⟩ := hcopy
      subst hd
      have hsb : scalar_bytes P (PyObject.pystring s)
          (some (ptr_diff h d a.buf_start)) = P.SRL_HDR_COPY :: varint (ptr_diff h d a.buf_start) := by
        simp [scalar_bytes, hct]
      simp only [copy_test, decide_eq_true_eq] at hct
      simp only [hct, if_true] at hr
      by_cases hok : r = Ret.ok
      · subst hok
        exact Or.inl ⟨rfl, by simp [hc], by simp, by rw [Option.map_some', hsb]; exact emitted_varint h a b _ _ hr⟩
      · obtain ⟨h1, h2⟩ := cat_varint_fail h a b _ _ r hr hok
        exact Or.inr ⟨h2, Or.inl h1⟩
    · have hv : srl_dump_binary P h a s = (r, b) := by
        cases pos with
        | none => exact hr
        | some d =>
          have hct : ¬ VARINT_LEN (ptr_diff h d a.buf_start) < s.length % 2 ^ 32 := by
            intro hlt
            exact hcopy ⟨d, rfl, by simp only [copy_test, decide_eq_true_eq]; exact hlt⟩
          simp only [if_neg hct] at hr
          exact hr
      have hsb : scalar_bytes P (PyObject.pystring s)
          (pos.map (fun p => ptr_diff h p a.buf_start)) =
          scalar_inline P (PyObject.pystring s) := by
        cases pos with
        | none => rfl
        | some d =>
          have hct : copy_test (PyObject.pystring s) (ptr_diff h d a.buf_start) = false := by
            cases hct : copy_test (PyObject.pystring s) (ptr_diff h d a.buf_start) with
            | false => rfl
            | true => exact absurd ⟨d, rfl, hct⟩ hcopy
          simp [scalar_bytes, hct]
      rcases dump_binary_cases P h a b s r hv with ⟨h1, h2⟩ | ⟨h1, h2⟩
      · exact Or.inl ⟨h1, by simp [hc], by simp, by rw [hsb]; exact h2⟩
      · exact Or.inr ⟨h2, Or.inl h1⟩
  | pyunicode u =>
    have hc : srl_classify (PyObject.pyunicode u) = srl_type.UNICODE := rfl
    rw [ho, hc] at hr
    simp only [srl_dump_switch, srl_dump_pyunicode, ho, PyUnicode_AsUTF8String] at hr
    cases u with
    | none =>
      simp only [Prod.mk.injEq] at hr
      exact Or.inr ⟨hr.2.symm, Or.inr (Or.inl ⟨hr.1.symm, rfl⟩)⟩
    | some s =>
      simp only [] at hr
      by_cases hcopy : ∃ d, pos = some d ∧ copy_test (PyObject.pyunicode (some s)) (ptr_diff h d a.buf_start) = true
      · obtain ⟨d, hd, hct⟩ := hcopy
        subst hd
        have hsb : scalar_bytes P (PyObject.pyunicode (some s))
          (some (ptr_diff h d a.buf_start)) =
            P.SRL_HDR_COPY :: varint (ptr_diff h d a.buf_start) := by
          simp [scalar_bytes, hct]
        simp only [copy_test, decide_eq_true_eq] at hct
        simp only [hct, if_true] at hr
        by_cases hok : r = Ret.ok
        · subst hok
          exact Or.inl ⟨rfl, by simp [hc], by simp,
            by rw [Option.map_some', hsb]; exact emitted_varint h a b _ _ hr⟩
        · obtain ⟨h1, h2⟩ := cat_varint_fail h a b _ _ r hr hok
          exact Or.inr ⟨h2, Or.inl h1⟩
      · have hsb : scalar_bytes P (PyObject.pyunicode (some s))
          (pos.map (fun p => ptr_diff h p a.buf_start)) =
            P.SRL_HDR_STR_UTF8 :: (varint s.length ++ s) := by
          cases pos with
          | none => rfl
          | some d =>
            have hct : copy_test (PyObject.pyunicode (some s)) (ptr_diff h d a.buf_start) = false := by
              cases hct : copy_test (PyObject.pyunicode (some s)) (ptr_diff h d a.buf_start) with
              | false => rfl
              | true => exact absurd ⟨d, rfl, hct⟩ hcopy
            simp [scalar_bytes, hct, scalar_inline]
        have hv : (match BUF_SIZE_ASSERT h a (1 + SRL_MAX_VARINT_LENGTH + s.length) with
            | (Ret.ok, enc1) =>
              ((Ret.ok, srl_buf_cat_str_nocheck
                (srl_buf_cat_varint_nocheck enc1 P.SRL_HDR_STR_UTF8 s.length) s) :
                Ret × srl_encoder_t)
            | r => r) = (r, b) := by
          cases pos with
          | none => exact hr
          | some d =>
            have hct : ¬ VARINT_LEN (ptr_diff h d a.buf_start) < s.length % 2 ^ 32 := by
              intro hlt
              exact hcopy ⟨d, rfl, by simp only [copy_test, decide_eq_true_eq]; exact hlt⟩
            simp only [if_neg hct] at hr
            exact hr
        rcases BUF_SIZE_ASSERT_spec h a (1 + SRL_MAX_VARINT_LENGTH + s.length) with ⟨sz, bl, e⟩ | e
        · simp only [e, Prod.mk.injEq] at hv
          obtain ⟨h1, h2⟩ := hv
          subst h2
          refine Or.inl ⟨h1.symm, by simp [hc], by simp, ?_⟩
          rw [hsb]
          refine ⟨?_, rfl, rfl, rfl, rfl, rfl, rfl, rfl⟩
          simp [srl_buf_cat_varint_nocheck, srl_buf_cat_char_nocheck, srl_buf_cat_str_nocheck]
        · simp only [e, Prod.mk.injEq] at hv
          exact Or.inr ⟨hv.2.symm, Or.inl hv.1.symm⟩
  | pylist items =>
    rw [ho] at hl
    exact absurd rfl hl
  | other n =>
    have hc : srl_classify (PyObject.other n) = srl_type.NONE := rfl
    rw [ho, hc] at hr
    simp only [srl_dump_switch, ho, Prod.mk.injEq] at hr
    exact Or.inr ⟨hr.2.symm, Or.inr (Or.inr ⟨hr.1.symm, hc⟩)⟩

/-! ## One call of the dispatcher -/

theorem track_ok_fields (h : Host) (a b : srl_encoder_t) (obj : Nat)
    (hr : srl_track_obj h a obj = (Ret.ok, b)) :
    b = { a with obj_seenhash := some (PTABLE_store (a.obj_seenhash.getD []) obj a.pos) } := by
  unfold srl_track_obj at hr
  cases hs : a.obj_seenhash with
  | none =>
    simp only [hs] at hr
    split at hr
    · simp only [Prod.mk.injEq, true_and] at hr
      rw [← hr]; simp
    · simp at hr
  | some tbl =>
    simp only [hs] at hr
    split at hr
    · simp only [Prod.mk.injEq, true_and] at hr
      rw [← hr]; simp
    · simp at hr

theorem track_fail_fields (h : Host) (a b : srl_encoder_t) (obj : Nat) (r : Ret)
    (hr : srl_track_obj h a obj = (r, b)) (hne : r ≠ Ret.ok) :
    r = Ret.fail PyErr.MemoryError ∧ b = a := by
  unfold srl_track_obj at hr
  cases hs : a.obj_seenhash with
  | none =>
    simp only [hs] at hr
    split at hr
    · simp only [Prod.mk.injEq] at hr; exact absurd hr.1.symm hne
    · simp only [Prod.mk.injEq] at hr; exact ⟨hr.1.symm, hr.2.symm⟩
  | some tbl =>
    simp only [hs] at hr
    split at hr
    · simp only [Prod.mk.injEq] at hr; exact absurd hr.1.symm hne
    · simp only [Prod.mk.injEq] at hr; exact ⟨hr.1.symm, hr.2.symm⟩

theorem enter_fail_fields (h : Host) (a b : srl_encoder_t) (msg : String) (r : Ret)
    (hr : SRL_ENTER_RECURSIVE_CALL h a msg = (r, b)) (hne : r ≠ Ret.ok) :
    (r = Ret.fail (PyErr.RuntimeError_host msg) ∧ b = a ∧
      ∃ lim, h.recursion_limit = some lim ∧ lim < a.py_recursion_depth + 1) ∨
    (r = Ret.fail (PyErr.RuntimeError_max_depth a.max_recursion_depth) ∧
      b = { a with
        py_recursion_depth := a.py_recursion_depth + 1
        recursion_depth := a.recursion_depth + 1 } ∧
      a.max_recursion_depth ≠ 0 ∧ a.max_recursion_depth ≤ a.recursion_depth + 1) := by
  unfold SRL_ENTER_RECURSIVE_CALL at hr
  split at hr
  · rename_i hc
    simp only [Prod.mk.injEq] at hr
    left
    refine ⟨hr.1.symm, hr.2.symm, ?_⟩
    cases hl : h.recursion_limit with
    | none => simp [hl] at hc
    | some lim => exact ⟨lim, rfl, by simpa [hl] using hc⟩
  · simp only [] at hr
    split at hr
    · rename_i hc
      simp only [Prod.mk.injEq] at hr
      right
      simp only [Bool.and_eq_true, bne_iff_ne, ne_eq, decide_eq_true_eq] at hc
      exact ⟨hr.1.symm, hr.2.symm, hc.1, hc.2⟩
    · simp only [Prod.mk.injEq] at hr; exact absurd hr.1.symm hne

theorem enter_reliable (h : Host) (hh : h.reliable) (a : srl_encoder_t) (msg : String)
    (hm : a.max_recursion_depth = 0) :
    SRL_ENTER_RECURSIVE_CALL h a msg =
      (Ret.ok, { a with
        py_recursion_depth := a.py_recursion_depth + 1
        recursion_depth := a.recursion_depth + 1 }) := by
  unfold SRL_ENTER_RECURSIVE_CALL
  simp [hh.2.2, hm]

theorem SRL_SET_FBIT_congr (a a1 : srl_encoder_t) (q : Ptr) (hb : a1.buf = a.buf)
    (hk : a1.buf_block = a.buf_block) : (SRL_SET_FBIT a1 q).buf = (SRL_SET_FBIT a q).buf := by
  unfold SRL_SET_FBIT
  rw [hb, hk]
  split <;> rfl

theorem emitter_ofs_congr (h : Host) (a a1 : srl_encoder_t) (obj : Nat) (p : Ptr)
    (hk : a1.buf_block = a.buf_block) : emitter_ofs h a1 obj p = emitter_ofs h a obj p := by
  unfold emitter_ofs srl_encoder_t.buf_start
  rw [hk]

theorem emitter_ofs_scalar (h : Host) (a : srl_encoder_t) (obj : Nat) (p : Ptr)
    (hl : srl_classify (h.heap obj) ≠ srl_type.LIST) :
    emitter_ofs h a obj p = ptr_diff h p a.buf_start := by
  unfold emitter_ofs
  rw [if_neg hl]

theorem emitter_ofs_list (h : Host) (a : srl_encoder_t) (obj : Nat) (p : Ptr)
    (hl : srl_classify (h.heap obj) = srl_type.LIST) :
    emitter_ofs h a obj p = ptr_diff h (flag_ptr h obj p) a.buf_start := by
  unfold emitter_ofs
  rw [if_pos hl]

/-- A successful call of the dispatcher on a value that is not a list. -/
theorem dump_scalar_ok (P : Protocol) (h : Host) (fuel : Nat) (a b : srl_encoder_t) (obj : Nat)
    (hl : srl_classify (h.heap obj) ≠ srl_type.LIST)
    (hr : srl_dump_pyobj P h fuel a obj = (Ret.ok, b)) :
    srl_classify (h.heap obj) ≠ srl_type.NONE ∧ h.heap obj ≠ PyObject.pyunicode none ∧
    b.buf = a.buf ++ scalar_bytes P (h.heap obj) (found_ofs h a obj) ∧
    b.visits = a.visits ++ [visit_of h a obj] ∧
    b.obj_seenhash =
      (if srl_classify (h.heap obj) ≠ srl_type.BOOL ∧ srl_find_obj a obj = none then
        some (PTABLE_store (a.obj_seenhash.getD []) obj a.pos)
       else a.obj_seenhash) ∧
    b.recursion_depth = a.recursion_depth ∧ b.py_recursion_depth = a.py_recursion_depth ∧
    b.flags = a.flags ∧ b.max_recursion_depth = a.max_recursion_depth ∧
    b.operational_flags = a.operational_flags := by
  cases fuel with
  | zero => simp [srl_dump_pyobj] at hr
  | succ fuel =>
    simp only [srl_dump_pyobj] at hr
    rcases he : SRL_ENTER_RECURSIVE_CALL h a " while Sereal dumping object" with ⟨r1, a1⟩
    rw [he] at hr
    cases r1 with
    | ok =>
      have ha1 := enter_ok_fields h a a1 _ he
      simp only [] at hr
      have hfind : srl_find_obj a1 obj = srl_find_obj a obj :=
        find_congr a a1 (by rw [ha1]) obj
      have hem : emitter_ofs h a1 obj = emitter_ofs h a obj := by
        funext p; exact emitter_ofs_congr h a a1 obj p (by rw [ha1])
      rw [hfind, hem] at hr
      by_cases hb : srl_classify (h.heap obj) = srl_type.BOOL
      · simp only [hb, if_true, Option.map_none'] at hr
        rw [← hb] at hr
        rcases hsw : srl_dump_switch P h (srl_dump_pyobj P h fuel) (srl_classify (h.heap obj))
          { a1 with visits := a1.visits ++ [{ obj := obj, ofs := a1.buf.length, prior := none }] }
          obj none with ⟨r2, b2⟩
        rw [hsw] at hr
        simp only [Prod.mk.injEq] at hr
        obtain ⟨hr1, hr2⟩ := hr
        subst hr1
        rcases switch_scalar_cases P h _ _ b2 obj none Ret.ok hl hsw with
          ⟨_, h2, h3, h4⟩ | ⟨_, h2 | ⟨h2, _⟩ | ⟨h2, _⟩⟩ <;> try (simp at h2)
        obtain ⟨e1, e2, e3, e4, e5, e6, e7, e8⟩ := h4
        subst hr2
        subst ha1
        refine ⟨h2, h3, ?_, ?_, ?_, ?_, ?_, ?_, ?_, ?_⟩ <;>
          simp [SRL_LEAVE_RECURSIVE_CALL, e1, e2, e3, e4, e5, e6, e7, e8, hb, found_ofs, visit_of]
      · simp only [hb, if_false] at hr
        cases hf : srl_find_obj a obj with
        | some p =>
          simp only [hf, Option.map_some'] at hr
          rcases hsw : srl_dump_switch P h (srl_dump_pyobj P h fuel) (srl_classify (h.heap obj))
            { a1 with visits := a1.visits ++
              [{ obj := obj, ofs := a1.buf.length, prior := some (emitter_ofs h a obj p) }] }
            obj (some p) with ⟨r2, b2⟩
          rw [hsw] at hr
          simp only [Prod.mk.injEq] at hr
          obtain ⟨hr1, hr2⟩ := hr
          subst hr1
          rcases switch_scalar_cases P h _ _ b2 obj (some p) Ret.ok hl hsw with
            ⟨_, h2, h3, h4⟩ | ⟨_, h2 | ⟨h2, _⟩ | ⟨h2, _⟩⟩ <;> try (simp at h2)
          obtain ⟨e1, e2, e3, e4, e5, e6, e7, e8⟩ := h4
          subst hr2
          subst ha1
          have hes := emitter_ofs_scalar h a obj p hl
          refine ⟨h2, h3, ?_, ?_, ?_, ?_, ?_, ?_, ?_, ?_⟩ <;>
            simp [SRL_LEAVE_RECURSIVE_CALL, e1, e2, e3, e4, e5, e6, e7, e8, hb, found_ofs, visit_of,
              hf, hes, srl_encoder_t.buf_start]
        | none =>
          simp only [hf, Option.map_none'] at hr
          rcases htr : srl_track_obj h { a1 with visits := a1.visits ++
            [{ obj := obj, ofs := a1.buf.length, prior := none }] } obj with ⟨r3, a3⟩
          rw [htr] at hr
          cases r3 with
          | ok =>
            have ha3 := track_ok_fields h _ a3 obj htr
            simp only [] at hr
            rcases hsw : srl_dump_switch P h (srl_dump_pyobj P h fuel)
              (srl_classify (h.heap obj)) a3 obj none with ⟨r2, b2⟩
            rw [hsw] at hr
            simp only [Prod.mk.injEq] at hr
            obtain ⟨hr1, hr2⟩ := hr
            subst hr1
            rcases switch_scalar_cases P h _ _ b2 obj none Ret.ok hl hsw with
              ⟨_, h2, h3, h4⟩ | ⟨_, h2 | ⟨h2, _⟩ | ⟨h2, _⟩⟩ <;> try (simp at h2)
            obtain ⟨e1, e2, e3, e4, e5, e6, e7, e8⟩ := h4
            subst hr2
            subst ha3
            subst ha1
            refine ⟨h2, h3, ?_, ?_, ?_, ?_, ?_, ?_, ?_, ?_⟩ <;>
              simp [SRL_LEAVE_RECURSIVE_CALL, e1, e2, e3, e4, e5, e6, e7, e8, hb, found_ofs,
                visit_of, hf, srl_encoder_t.pos]
          | fail e => simp at hr
          | nofuel => simp at hr
    | fail e => simp at hr
    | nofuel => simp at hr

theorem size_assert_reliable (h : Host) (hh : h.reliable) (a : srl_encoder_t) (n : Nat) :
    (BUF_SIZE_ASSERT h a n).1 = Ret.ok := by
  obtain ⟨sz, bl, e⟩ := BUF_SIZE_ASSERT_ok h hh.1 a n
  rw [e]

theorem cat_varint_reliable (h : Host) (hh : h.reliable) (a : srl_encoder_t) (tag n : Nat) :
    (srl_buf_cat_varint h a tag n).1 = Ret.ok := (srl_buf_cat_varint_ok h hh.1 a tag n).1

theorem list_header_reliable (P : Protocol) (h : Host) (hh : h.reliable) (a : srl_encoder_t)
    (len : Nat) : (srl_dump_list_header P h a len).1 = Ret.ok := by
  unfold srl_dump_list_header
  split
  · exact (srl_buf_cat_char_ok h hh.1 a _).1
  · obtain ⟨sz, bl, e⟩ := BUF_SIZE_ASSERT_ok h hh.1 a (1 + 1 + SRL_MAX_VARINT_LENGTH)
    rw [e]

theorem list_header_emitted (P : Protocol) (h : Host) (a b : srl_encoder_t) (len : Nat)
    (hr : srl_dump_list_header P h a len = (Ret.ok, b)) :
    Emitted a b (list_header_bytes P len) := by
  obtain ⟨e1, e2, e3, e4, e5, e6, e7⟩ := srl_dump_list_header_ok P h a b len hr
  refine ⟨e1, e2, e3, e4, e5, e6, e7, ?_⟩
  unfold srl_dump_list_header at hr
  split at hr
  · exact (emitted_char h a b _ hr).2.2.2.2.2.2.2
  · rcases BUF_SIZE_ASSERT_spec h a (1 + 1 + SRL_MAX_VARINT_LENGTH) with ⟨sz, bl, e⟩ | e
    · simp only [e, Prod.mk.injEq, true_and] at hr
      subst hr
      rfl
    · simp [e] at hr

theorem list_header_fail (P : Protocol) (h : Host) (a b : srl_encoder_t) (len : Nat) (r : Ret)
    (hr : srl_dump_list_header P h a len = (r, b)) (hne : r ≠ Ret.ok) :
    r = Ret.fail PyErr.MemoryError ∧ b = a := by
  unfold srl_dump_list_header at hr
  split at hr
  · exact cat_char_fail h a b _ r hr hne
  · rcases BUF_SIZE_ASSERT_spec h a (1 + 1 + SRL_MAX_VARINT_LENGTH) with ⟨sz, bl, e⟩ | e
    · simp only [e, Prod.mk.injEq] at hr; exact absurd hr.1.symm hne
    · simp only [e, Prod.mk.injEq] at hr; exact ⟨hr.1.symm, hr.2.symm⟩

theorem track_reliable (h : Host) (hh : h.reliable) (a : srl_encoder_t) (obj : Nat) :
    (srl_track_obj h a obj).1 = Ret.ok := by
  unfold srl_track_obj
  cases a.obj_seenhash <;> simp [hh.2.1]

/-- A call of the dispatcher on a list that the seen table holds: the flag bit
is written through the pointer found (`flag_ptr`), and `REFP` is appended with
the offset computed from it. -/
theorem dump_refp_cases (P : Protocol) (h : Host) (fuel : Nat) (a b : srl_encoder_t)
    (obj : Nat) (p : Ptr) (r : Ret)
    (hl : srl_classify (h.heap obj) = srl_type.LIST) (hf : srl_find_obj a obj = some p)
    (hr : srl_dump_pyobj P h (fuel + 1) a obj = (r, b)) :
    r ≠ Ret.nofuel ∧
    (h.reliable → a.max_recursion_depth = 0 → r = Ret.ok) ∧
    (r = Ret.ok →
      b.buf = (SRL_SET_FBIT a (flag_ptr h obj p)).buf ++
        P.SRL_HDR_REFP :: varint (emitter_ofs h a obj p) ∧
      b.visits = a.visits ++ [visit_of h a obj] ∧
      b.obj_seenhash = a.obj_seenhash ∧
      b.recursion_depth = a.recursion_depth ∧ b.py_recursion_depth = a.py_recursion_depth ∧
      b.flags = a.flags ∧ b.max_recursion_depth = a.max_recursion_depth ∧
      b.operational_flags = a.operational_flags) := by
  simp only [srl_dump_pyobj] at hr
  rcases he : SRL_ENTER_RECURSIVE_CALL h a " while Sereal dumping object" with ⟨r1, a1⟩
  rw [he] at hr
  cases r1 with
  | ok =>
    have ha1 := enter_ok_fields h a a1 _ he
    have hfind : srl_find_obj a1 obj = some p := by
      rw [find_congr a a1 (by rw [ha1]) obj]; exact hf
    have hem : emitter_ofs h a1 obj = emitter_ofs h a obj := by
      funext q; exact emitter_ofs_congr h a a1 obj q (by rw [ha1])
    simp only [hl, hfind, hem, srl_dump_switch, srl_dump_pylist, Option.map_some',
      show (srl_type.LIST = srl_type.BOOL) = False from by simp, if_false] at hr
    rcases he2 : SRL_ENTER_RECURSIVE_CALL h { a1 with visits := a1.visits ++
        [{ obj := obj, ofs := a1.buf.length, prior := some (emitter_ofs h a obj p) }] }
        " serializing list"
      with ⟨r2, a2⟩
    rw [he2] at hr
    cases r2 with
    | ok =>
      have ha2 := enter_ok_fields h _ a2 _ he2
      simp only [] at hr
      have hfp : (if (PyList_items (h.heap obj)).length > SRL_MASK_ARRAYREF_COUNT
          then ptr_succ p else p) = flag_ptr h obj p := rfl
      rw [hfp] at hr
      rcases hv : srl_buf_cat_varint h
          (SRL_SET_FBIT a2 (flag_ptr h obj p)) P.SRL_HDR_REFP
          (ptr_diff h (flag_ptr h obj p) (SRL_SET_FBIT a2 (flag_ptr h obj p)).buf_start)
        with ⟨r3, a3⟩
      rw [hv] at hr
      simp only [Prod.mk.injEq] at hr
      obtain ⟨hr1, hr2⟩ := hr
      subst hr1
      refine ⟨?_, ?_, ?_⟩
      · intro hn
        subst hn
        have := cat_varint_fail h _ a3 _ _ _ hv (by simp)
        simp at this
      · intro hh _
        have := cat_varint_reliable h hh (SRL_SET_FBIT a2 (flag_ptr h obj p))
          P.SRL_HDR_REFP
          (ptr_diff h (flag_ptr h obj p) (SRL_SET_FBIT a2 (flag_ptr h obj p)).buf_start)
        rw [hv] at this
        exact this
      · intro hok
        subst hok
        obtain ⟨e1, e2, e3, e4, e5, e6, e7, e8⟩ := emitted_varint h _ a3 _ _ hv
        obtain ⟨f1, f2, f3, f4, f5, f6, f7, f8, _, _, _⟩ :=
          SRL_SET_FBIT_fields a2 (flag_ptr h obj p)
        have hbuf : (SRL_SET_FBIT a2 (flag_ptr h obj p)).buf =
            (SRL_SET_FBIT a (flag_ptr h obj p)).buf :=
          SRL_SET_FBIT_congr a a2 _ (by rw [ha2, ha1]) (by rw [ha2, ha1])
        have hd : ptr_diff h (flag_ptr h obj p) (SRL_SET_FBIT a2 (flag_ptr h obj p)).buf_start =
            emitter_ofs h a obj p := by
          rw [emitter_ofs_list h a obj p hl]
          unfold srl_encoder_t.buf_start
          rw [f8, ha2, ha1]
        rw [hd, hbuf] at e1
        have g2 := e2.trans f1
        have g3 := e3.trans f2
        have g4 := e4.trans f6
        have g5 := e5.trans f7
        have g6 := e6.trans f3
        have g7 := e7.trans f4
        have g8 := e8.trans f5
        subst hr2
        subst ha2
        subst ha1
        refine ⟨?_, ?_, ?_, ?_, ?_, ?_, ?_, ?_⟩ <;>
          simp [SRL_LEAVE_RECURSIVE_CALL, e1, g2, g3, g4, g5, g6, g7, g8, visit_of, found_ofs, hl,
            hf]
    | fail e =>
      simp only [Prod.mk.injEq] at hr
      refine ⟨by rw [← hr.1]; simp, ?_, by rw [← hr.1]; simp⟩
      intro hh hm
      have := enter_reliable h hh { a1 with visits := a1.visits ++
        [{ obj := obj, ofs := a1.buf.length, prior := some (emitter_ofs h a obj p) }] }
        " serializing list"
        (by rw [ha1]; exact hm)
      rw [he2] at this
      simp at this
    | nofuel =>
      exfalso
      rcases enter_fail_fields h _ a2 _ _ he2 (by simp) with ⟨h1, _⟩ | ⟨h1, _⟩ <;> simp at h1
  | fail e =>
    simp only [Prod.mk.injEq] at hr
    refine ⟨by rw [← hr.1]; simp, ?_, by rw [← hr.1]; simp⟩
    intro hh hm
    have := enter_reliable h hh a " while Sereal dumping object" hm
    rw [he] at this
    simp at this
  | nofuel =>
    exfalso
    rcases enter_fail_fields h _ a1 _ _ he (by simp) with ⟨h1, _⟩ | ⟨h1, _⟩ <;> simp at h1

/-- A call of the dispatcher on a list that the seen table does not hold:
either the item loop runs from the opened list and its outcome is the
outcome of the call, or a recursion guard or an allocation has failed. -/
theorem dump_list_cases (P : Protocol) (h : Host) (fuel : Nat) (a b : srl_encoder_t)
    (obj : Nat) (r : Ret)
    (hl : srl_classify (h.heap obj) = srl_type.LIST) (hf : srl_find_obj a obj = none)
    (hr : srl_dump_pyobj P h (fuel + 1) a obj = (r, b)) :
    (∃ e e1, ListOpened P h a obj e ∧
      srl_dump_items (srl_dump_pyobj P h fuel) (PyList_items (h.heap obj)) e = (r, e1) ∧
      b = SRL_LEAVE_RECURSIVE_CALL (SRL_LEAVE_RECURSIVE_CALL e1)) ∨
    (r ≠ Ret.ok ∧ r ≠ Ret.nofuel ∧ (h.reliable → a.max_recursion_depth ≠ 0)) := by
  simp only [srl_dump_pyobj] at hr
  rcases he : SRL_ENTER_RECURSIVE_CALL h a " while Sereal dumping object" with ⟨r1, a1⟩
  rw [he] at hr
  by_cases hr1 : r1 = Ret.ok
  · subst hr1
    have ha1 := enter_ok_fields h a a1 _ he
    have hfind : srl_find_obj a1 obj = none := by
      rw [find_congr a a1 (by rw [ha1]) obj]; exact hf
    simp only [hl, hfind, srl_dump_switch, srl_dump_pylist, Option.map_none',
      show (srl_type.LIST = srl_type.BOOL) = False from by simp, if_false] at hr
    rcases htr : srl_track_obj h { a1 with visits := a1.visits ++
        [{ obj := obj, ofs := a1.buf.length, prior := none }] } obj with ⟨r3, a3⟩
    rw [htr] at hr
    by_cases hr3 : r3 = Ret.ok
    · subst hr3
      have ha3 := track_ok_fields h _ a3 obj htr
      simp only [] at hr
      rcases he2 : SRL_ENTER_RECURSIVE_CALL h a3 " serializing list" with ⟨r2, a4⟩
      rw [he2] at hr
      by_cases hr2 : r2 = Ret.ok
      · subst hr2
        have ha4 := enter_ok_fields h _ a4 _ he2
        simp only [] at hr
        rcases hh : srl_dump_list_header P h a4 (PyList_items (h.heap obj)).length with ⟨r5, e⟩
        rw [hh] at hr
        by_cases hr5 : r5 = Ret.ok
        · subst hr5
          simp only [Prod.mk.injEq] at hr
          left
          refine ⟨e, (srl_dump_items (srl_dump_pyobj P h fuel) (PyList_items (h.heap obj)) e).2,
            ?_, ?_, hr.2.symm⟩
          · obtain ⟨e1, e2, e3, e4, e5, e6, e7, e8⟩ := list_header_emitted P h a4 e _ hh
            subst ha4
            subst ha3
            subst ha1
            refine ⟨?_, ?_, ?_, ?_, ?_, ?_, ?_, ?_⟩ <;>
              simp [e1, e2, e3, e4, e5, e6, e7, e8, srl_encoder_t.pos]
          · rw [← hr.1]
        · right
          have hrr : r = r5 ∧ b = SRL_LEAVE_RECURSIVE_CALL (SRL_LEAVE_RECURSIVE_CALL e) := by
            cases r5 <;> simp_all
          refine ⟨by rw [hrr.1]; exact hr5, ?_, ?_⟩
          · rw [hrr.1, (list_header_fail P h a4 e _ r5 hh hr5).1]; simp
          · intro hh2
            have := list_header_reliable P h hh2 a4 (PyList_items (h.heap obj)).length
            rw [hh] at this
            exact absurd this hr5
      · right
        have hrr : r = r2 := by cases r2 <;> simp_all
        subst hrr
        refine ⟨hr2, ?_, ?_⟩
        · intro hn
          subst hn
          rcases enter_fail_fields h _ a4 _ _ he2 (by simp) with ⟨h1, _⟩ | ⟨h1, _⟩ <;> simp at h1
        · intro hh2 hm
          have := enter_reliable h hh2 a3 " serializing list" (by rw [ha3, ha1]; exact hm)
          rw [he2] at this
          simp only [Prod.mk.injEq] at this
          exact hr2 this.1
    · right
      have hrr : r = r3 := by cases r3 <;> simp_all
      subst hrr
      obtain ⟨h1, _⟩ := track_fail_fields h _ a3 obj _ htr hr3
      refine ⟨hr3, by rw [h1]; simp, ?_⟩
      intro hh2
      have := track_reliable h hh2 { a1 with visits := a1.visits ++
        [{ obj := obj, ofs := a1.buf.length, prior := none }] } obj
      rw [htr] at this
      exact absurd this hr3
  · right
    have hrr : r = r1 := by cases r1 <;> simp_all
    subst hrr
    refine ⟨hr1, ?_, ?_⟩
    · intro hn
      subst hn
      rcases enter_fail_fields h _ a1 _ _ he (by simp) with ⟨h1, _⟩ | ⟨h1, _⟩ <;> simp at h1
    · intro hh2 hm
      have := enter_reliable h hh2 a " while Sereal dumping object" hm
      rw [he] at this
      simp only [Prod.mk.injEq] at this
      exact hr1 this.1

theorem items_mono (P : Protocol) (h : Host) (fuel : Nat) (items : List Nat) (a : srl_encoder_t) :
    Mono h a (srl_dump_items (srl_dump_pyobj P h fuel) items a).2 :=
  steps_mono h _ _ (steps_dump_items h _ (dump_steps P h fuel) items a)

theorem find_store (a b : srl_encoder_t) (obj : Nat) (k : Ptr) (x : Nat)
    (hs : b.obj_seenhash = some (PTABLE_store (a.obj_seenhash.getD []) obj k)) :
    srl_find_obj b x = if obj = x then some k else srl_find_obj a x := by
  unfold srl_find_obj
  rw [hs]
  unfold PTABLE_store PTABLE_fetch
  by_cases hx : obj = x
  · simp [hx, List.find?]
  · have : (obj == x) = false := by simpa using hx
    simp only [List.find?, this, hx, if_false]
    cases a.obj_seenhash <;> simp

theorem dump_long_reliable (P : Protocol) (h : Host) (hh : h.reliable) (a : srl_encoder_t)
    (l : Int) : (srl_dump_long P h a l).1 = Ret.ok := by
  unfold srl_dump_long srl_buf_cat_zigzag
  split <;> split <;>
    first
      | exact (srl_buf_cat_char_ok h hh.1 a _).1
      | exact (srl_buf_cat_varint_ok h hh.1 a _ _).1

theorem switch_reliable (P : Protocol) (h : Host) (hh : h.reliable)
    (dump : srl_encoder_t → Nat → Ret × srl_encoder_t) (a : srl_encoder_t) (obj : Nat)
    (pos : Option Ptr) (hl : srl_classify (h.heap obj) ≠ srl_type.LIST)
    (hn : srl_classify (h.heap obj) ≠ srl_type.NONE)
    (hu : h.heap obj ≠ PyObject.pyunicode none) :
    (srl_dump_switch P h dump (srl_classify (h.heap obj)) a obj pos).1 = Ret.ok := by
  cases ho : h.heap obj with
  | pybool v =>
    show (srl_dump_switch P h dump srl_type.BOOL a obj pos).1 = Ret.ok
    simp only [srl_dump_switch]
    exact (srl_buf_cat_char_ok h hh.1 a _).1
  | pyint l =>
    show (srl_dump_switch P h dump srl_type.INT a obj pos).1 = Ret.ok
    simp only [srl_dump_switch, srl_dump_pyint]
    cases pos with
    | none => exact dump_long_reliable P h hh a _
    | some d =>
      simp only []
      split <;> split <;>
        first
          | exact (srl_buf_cat_varint_ok h hh.1 a _ _).1
          | exact dump_long_reliable P h hh a _
  | pyfloat bits =>
    show (srl_dump_switch P h dump srl_type.FLOAT a obj pos).1 = Ret.ok
    simp only [srl_dump_switch, srl_dump_pyfloat]
    cases pos with
    | none => exact (srl_buf_cat_double_ok h hh.1 a _ _).1
    | some d =>
      simp only []
      split
      · exact (srl_buf_cat_varint_ok h hh.1 a _ _).1
      · exact (srl_buf_cat_double_ok h hh.1 a _ _).1
  | pystring s =>
    show (srl_dump_switch P h dump srl_type.STRING a obj pos).1 = Ret.ok
    simp only [srl_dump_switch, srl_dump_pystring, ho, PyString_AsStringAndSize]
    cases pos with
    | none => exact (srl_dump_binary_ok P h hh.1 a s).1
    | some d =>
      simp only []
      split
      · exact (srl_buf_cat_varint_ok h hh.1 a _ _).1
      · exact (srl_dump_binary_ok P h hh.1 a s).1
  | pyunicode u =>
    cases u with
    | none => exact absurd ho hu
    | some s =>
      show (srl_dump_switch P h dump srl_type.UNICODE a obj pos).1 = Ret.ok
      simp only [srl_dump_switch]
      by_cases hc : ∃ q, pos = some q ∧
          VARINT_LEN (ptr_diff h q a.buf_start) < s.length % 2 ^ 32
      · obtain ⟨q, hq, hlt⟩ := hc
        subst hq
        simp only [srl_dump_pyunicode, ho, PyUnicode_AsUTF8String, if_pos hlt]
        exact (srl_buf_cat_varint_ok h hh.1 a _ _).1
      · exact (srl_dump_pyunicode_inline P h hh.1 a obj pos s ho
          (fun q hq hlt => hc ⟨q, hq, hlt⟩)).1
  | pylist items => rw [ho] at hl; exact absurd rfl hl
  | other n => rw [ho] at hn; exact absurd rfl hn

/-- A failing call of the dispatcher on a value that is not a list, in a
reliable host and without a depth limit: the value is unsupported or its
transcoding fails, the visit is logged and nothing is appended. -/
theorem dump_scalar_fail (P : Protocol) (h : Host) (fuel : Nat) (a b : srl_encoder_t) (obj : Nat)
    (r : Ret) (hl : srl_classify (h.heap obj) ≠ srl_type.LIST)
    (hr : srl_dump_pyobj P h (fuel + 1) a obj = (r, b)) (hne : r ≠ Ret.ok) :
    r ≠ Ret.nofuel ∧
    (h.reliable → a.max_recursion_depth = 0 →
      b.buf = a.buf ∧
      b.visits = a.visits ++ [visit_of h a obj] ∧
      b.max_recursion_depth = a.max_recursion_depth ∧
      ((srl_classify (h.heap obj) = srl_type.NONE ∧
          r = Ret.fail (PyErr.NotImplementedError_type (tp_name (h.heap obj)))) ∨
        (h.heap obj = PyObject.pyunicode none ∧ r = Ret.fail PyErr.UnicodeError))) := by
  simp only [srl_dump_pyobj] at hr
  rcases he : SRL_ENTER_RECURSIVE_CALL h a " while Sereal dumping object" with ⟨r1, a1⟩
  rw [he] at hr
  by_cases hr1 : r1 = Ret.ok
  · subst hr1
    have ha1 := enter_ok_fields h a a1 _ he
    simp only [] at hr
    have hfind : srl_find_obj a1 obj = srl_find_obj a obj :=
      find_congr a a1 (by rw [ha1]) obj
    have hem : emitter_ofs h a1 obj = emitter_ofs h a obj := by
      funext p; exact emitter_ofs_congr h a a1 obj p (by rw [ha1])
    rw [hfind, hem] at hr
    -- the session in which the switch runs
    have key : ∀ (a3 : srl_encoder_t) (pos : Option Ptr) (r2 : Ret) (b2 : srl_encoder_t),
        srl_dump_switch P h (srl_dump_pyobj P h fuel) (srl_classify (h.heap obj)) a3 obj pos
          = (r2, b2) → r2 = r → SRL_LEAVE_RECURSIVE_CALL b2 = b →
        a3.buf = a.buf → a3.visits = a.visits ++ [visit_of h a obj] →
        a3.max_recursion_depth = a.max_recursion_depth →
        r ≠ Ret.nofuel ∧
        (h.reliable → a.max_recursion_depth = 0 →
          b.buf = a.buf ∧
          b.visits = a.visits ++ [visit_of h a obj] ∧
          b.max_recursion_depth = a.max_recursion_depth ∧
          ((srl_classify (h.heap obj) = srl_type.NONE ∧
              r = Ret.fail (PyErr.NotImplementedError_type (tp_name (h.heap obj)))) ∨
            (h.heap obj = PyObject.pyunicode none ∧ r = Ret.fail PyErr.UnicodeError))) := by
      intro a3 pos r2 b2 hsw h2 hb2 e1 e2 e3
      subst h2
      rcases switch_scalar_cases P h _ a3 b2 obj pos r2 hl hsw with
        ⟨h1, _⟩ | ⟨h1, h2⟩
      · exact absurd h1 hne
      · rw [h1] at hsw hb2
        refine ⟨by rcases h2 with h2 | ⟨h2, _⟩ | ⟨h2, _⟩ <;> (rw [h2]; simp), ?_⟩
        intro hh _
        rw [← hb2]
        refine ⟨e1, e2, e3, ?_⟩
        rcases h2 with h2 | ⟨h2, h3⟩ | ⟨h2, h3⟩
        · exfalso
          by_cases hn : srl_classify (h.heap obj) = srl_type.NONE
          · cases ho : h.heap obj <;> rw [ho] at hn <;> simp [srl_classify, PyInt_CheckExact,
              PyFloat_Check, PyString_Check, PyUnicode_Check, PyList_Check, PyBool_Check,
              PyInt_Check] at hn
            rw [ho] at hsw
            simp [srl_dump_switch, srl_classify, PyInt_CheckExact,
              PyFloat_Check, PyString_Check, PyUnicode_Check, PyList_Check, PyBool_Check,
              PyInt_Check] at hsw
            rw [h2] at hsw
            simp at hsw
          · by_cases hu : h.heap obj = PyObject.pyunicode none
            · rw [hu] at hsw
              simp [srl_dump_switch, srl_classify, PyInt_CheckExact,
                PyFloat_Check, PyString_Check, PyUnicode_Check, PyList_Check, PyBool_Check,
                PyInt_Check, srl_dump_pyunicode, hu, PyUnicode_AsUTF8String] at hsw
              rw [h2] at hsw
              simp at hsw
            · have := switch_reliable P h hh (srl_dump_pyobj P h fuel) a3 obj pos hl hn hu
              rw [hsw, h2] at this
              simp at this
        · exact Or.inr ⟨h3, h2⟩
        · exact Or.inl ⟨h3, h2⟩
    by_cases hb : srl_classify (h.heap obj) = srl_type.BOOL
    · simp only [hb, if_true, Option.map_none'] at hr
      rw [← hb] at hr
      rcases hsw : srl_dump_switch P h (srl_dump_pyobj P h fuel) (srl_classify (h.heap obj))
        { a1 with visits := a1.visits ++ [{ obj := obj, ofs := a1.buf.length, prior := none }] }
        obj none with ⟨r2, b2⟩
      rw [hsw] at hr
      simp only [Prod.mk.injEq] at hr
      exact key _ none r2 b2 hsw hr.1 hr.2 (by rw [ha1])
        (by rw [ha1]; simp [visit_of, found_ofs, hb]) (by rw [ha1])
    · simp only [hb, if_false] at hr
      cases hf : srl_find_obj a obj with
      | some p =>
        simp only [hf, Option.map_some'] at hr
        rcases hsw : srl_dump_switch P h (srl_dump_pyobj P h fuel) (srl_classify (h.heap obj))
          { a1 with visits := a1.visits ++
            [{ obj := obj, ofs := a1.buf.length, prior := some (emitter_ofs h a obj p) }] }
          obj (some p) with ⟨r2, b2⟩
        rw [hsw] at hr
        simp only [Prod.mk.injEq] at hr
        have := key _ (some p) r2 b2 hsw hr.1 hr.2 (by rw [ha1])
          (by rw [ha1]; simp [visit_of, found_ofs, hb, hf]) (by rw [ha1])
        exact this
      | none =>
        simp only [hf, Option.map_none'] at hr
        rcases htr : srl_track_obj h { a1 with visits := a1.visits ++
          [{ obj := obj, ofs := a1.buf.length, prior := none }] } obj with ⟨r3, a3⟩
        rw [htr] at hr
        by_cases hr3 : r3 = Ret.ok
        · subst hr3
          have ha3 := track_ok_fields h _ a3 obj htr
          simp only [] at hr
          rcases hsw : srl_dump_switch P h (srl_dump_pyobj P h fuel)
            (srl_classify (h.heap obj)) a3 obj none with ⟨r2, b2⟩
          rw [hsw] at hr
          simp only [Prod.mk.injEq] at hr
          have := key a3 none r2 b2 hsw hr.1 hr.2 (by rw [ha3, ha1])
            (by rw [ha3, ha1]; simp [visit_of, found_ofs, hb, hf]) (by rw [ha3, ha1])
          exact this
        · have hrr : r = r3 := by cases r3 <;> simp_all
          subst hrr
          obtain ⟨h1, _⟩ := track_fail_fields h _ a3 obj _ htr hr3
          refine ⟨by rw [h1]; simp, ?_⟩
          intro hh _
          have := track_reliable h hh { a1 with visits := a1.visits ++
            [{ obj := obj, ofs := a1.buf.length, prior := none }] } obj
          rw [htr] at this
          exact absurd this hr3
  · have hrr : r = r1 := by cases r1 <;> simp_all
    subst hrr
    refine ⟨?_, ?_⟩
    · intro hn
      subst hn
      rcases enter_fail_fields h _ a1 _ _ he (by simp) with ⟨h1, _⟩ | ⟨h1, _⟩ <;> simp at h1
    · intro hh2 hm
      have := enter_reliable h hh2 a " while Sereal dumping object" hm
      rw [he] at this
      simp only [Prod.mk.injEq] at this
      exact absurd this.1 hr1

/-! ## Outcomes and termination of the dispatcher -/

theorem unseen_mono (h : Host) (dom : Finset Nat) (a b : srl_encoder_t) (hm : Mono h a b) :
    unseen dom b ≤ unseen dom a := by
  unfold unseen
  apply Finset.card_le_card
  intro x hx
  simp only [Finset.mem_filter] at hx ⊢
  refine ⟨hx.1, ?_⟩
  cases hf : srl_find_obj a x with
  | none => rfl
  | some o =>
    have := hm.2.2.1 x o hf
    rw [hx.2] at this
    cases this

theorem unseen_open (P : Protocol) (h : Host) (dom : Finset Nat) (a e : srl_encoder_t) (obj : Nat)
    (hd : obj ∈ dom) (hf : srl_find_obj a obj = none) (ho : ListOpened P h a obj e) :
    unseen dom e < unseen dom a := by
  unfold unseen
  apply Finset.card_lt_card
  rw [Finset.ssubset_iff_of_subset]
  · refine ⟨obj, by simp [hd, hf], ?_⟩
    simp only [Finset.mem_filter, not_and]
    intro _
    rw [find_store a e obj a.pos obj ho.2.1, if_pos rfl]
    simp
  · intro x hx
    simp only [Finset.mem_filter] at hx ⊢
    refine ⟨hx.1, ?_⟩
    have := find_store a e obj a.pos x ho.2.1
    rw [hx.2] at this
    by_cases hxo : obj = x
    · rw [if_pos hxo] at this; cases this
    · rw [if_neg hxo] at this; exact this.symm

theorem items_fuel (h : Host) (dom : Finset Nat) (fuel : Nat)
    (dump : srl_encoder_t → Nat → Ret × srl_encoder_t)
    (hm : ∀ a x, Mono h a (dump a x).2)
    (hd : ∀ a x, unseen dom a < fuel → (dump a x).1 ≠ Ret.nofuel) (items : List Nat) :
    ∀ a, unseen dom a < fuel → (srl_dump_items dump items a).1 ≠ Ret.nofuel := by
  induction items with
  | nil => intro a _; simp [srl_dump_items]
  | cons x xs ih =>
    intro a ha
    simp only [srl_dump_items]
    have h1 := hd a x ha
    have h2 := hm a x
    rcases hr : dump a x with ⟨r, b⟩
    rw [hr] at h1 h2
    cases r with
    | ok =>
      exact ih b (lt_of_le_of_lt (unseen_mono h dom a b h2) ha)
    | fail e => simp
    | nofuel => exact absurd rfl h1

/-- Enough fuel: the dispatcher returns when its fuel exceeds the number of
lists that the seen table does not hold. -/
theorem dump_fuel (P : Protocol) (h : Host) (dom : Finset Nat)
    (hdom : ∀ x, srl_classify (h.heap x) = srl_type.LIST → x ∈ dom) :
    ∀ (fuel : Nat) (a : srl_encoder_t) (obj : Nat), unseen dom a < fuel →
      (srl_dump_pyobj P h fuel a obj).1 ≠ Ret.nofuel := by
  intro fuel
  induction fuel with
  | zero => intro a obj ha; exact absurd ha (by omega)
  | succ fuel ih =>
    intro a obj ha
    rcases hr : srl_dump_pyobj P h (fuel + 1) a obj with ⟨r, b⟩
    simp only []
    by_cases hl : srl_classify (h.heap obj) = srl_type.LIST
    · cases hf : srl_find_obj a obj with
      | some p => exact (dump_refp_cases P h fuel a b obj p r hl hf hr).1
      | none =>
        rcases dump_list_cases P h fuel a b obj r hl hf hr with ⟨e, e1, ho, hi, hb⟩ | ⟨_, h2, _⟩
        · have hlt := unseen_open P h dom a e obj (hdom obj hl) hf ho
          have := items_fuel h dom fuel (srl_dump_pyobj P h fuel)
            (fun a x => dump_mono P h fuel a x) ih (PyList_items (h.heap obj)) e (by omega)
          rw [hi] at this
          exact this
        · exact h2
    · by_cases hok : r = Ret.ok
      · rw [hok]; simp
      · exact (dump_scalar_fail P h fuel a b obj r hl hr hok).1

theorem header_state (P : Protocol) (h : Host) (args : srl_encoder_ctor_args) :
    (srl_write_header P h (fresh_session P args)).obj_seenhash = none ∧
    (srl_write_header P h (fresh_session P args)).visits = [] ∧
    (srl_write_header P h (fresh_session P args)).max_recursion_depth =
      args.max_recursion_depth := by
  obtain ⟨_, h2, h3, _, h5, _⟩ := srl_write_header_fields P h (fresh_session P args)
  exact ⟨h2, h3, h5⟩

/-! ## The buffer holds the bytes of the visits -/

/-- C5, the code at a failing input: the list `[L, S, L]`, with `L = [7]` and
`S` a byte string of 2000 bytes, dumped on the fresh session of version 1 in a
host in which `realloc` moves the buffer (`host_lsl true`, blocks at the
addresses 4096, 8192, ...).  `L` is recorded with the pointer to offset 7 of
the first block.  The append of `S` grows the buffer of 1023 bytes, which
moves to the second block.  At the second visit of `L` the flag bit is written
through the recorded pointer, which dangles (`stale_write`), and the offset is
the difference of the dangling pointer and the new `buf_start`.  The dump
succeeds.  Its output has the tag of `L` at offset 7 without the flag bit
(`0x41`), and ends with `REFP`, at the position 2012, and the varint of
`2^64 - 4096 + 7`: an offset that is not below the position of the `REFP`, and
that is not a position of the output.  In the host with the same heap whose
buffer grows in place (`host_lsl false`), the output has the flagged tag `0xC1`
at offset 7 and ends with `REFP 7`. -/
theorem refp_through_moved_buffer :
    (srl_encoder_dump srl_v1 (host_lsl true fun k => 4096 * (k + 1)) 3 session_v1 0).1 =
      DumpRet.bytes ([0x3D, 0x73, 0x72, 0x6C, 0x01, 0x00, 0x43, 0x41, 0x07, 0x26] ++
        varint 2000 ++ long_string ++ srl_v1.SRL_HDR_REFP :: varint (2 ^ 64 - 4096 + 7)) ∧
    ([0x3D, 0x73, 0x72, 0x6C, 0x01, 0x00, 0x43, 0x41, 0x07, 0x26] ++
        varint 2000 ++ long_string).length = 2012 ∧
    ¬ (2 ^ 64 - 4096 + 7 < 2012) ∧
    ([0x3D, 0x73, 0x72, 0x6C, 0x01, 0x00, 0x43, 0x41, 0x07, 0x26] ++
        varint 2000 ++ long_string ++
        srl_v1.SRL_HDR_REFP :: varint (2 ^ 64 - 4096 + 7)).length ≤ 2 ^ 64 - 4096 + 7 ∧
    srl_find_obj
      (srl_encoder_dump srl_v1 (host_lsl true fun k => 4096 * (k + 1)) 3 session_v1 0).2 1 =
      some { block := 0, ofs := 7 } ∧
    (srl_encoder_dump srl_v1 (host_lsl true fun k => 4096 * (k + 1)) 3 session_v1 0).2.buf_block
      = 1 ∧
    (srl_encoder_dump srl_v1 (host_lsl true fun k => 4096 * (k + 1)) 3 session_v1 0).2.stale_write
      = true ∧
    (srl_encoder_dump srl_v1 (host_lsl false fun k => 4096 * (k + 1)) 3 session_v1 0).1 =
      DumpRet.bytes ([0x3D, 0x73, 0x72, 0x6C, 0x01, 0x00, 0x43, 0xC1, 0x07, 0x26] ++
        varint 2000 ++ long_string ++ [srl_v1.SRL_HDR_REFP, 0x07]) ∧
    (srl_encoder_dump srl_v1 (host_lsl false fun k => 4096 * (k + 1)) 3 session_v1 0).2.stale_write
      = false := by
  decide!

/-- C8, the code at a failing input: two lists that differ by value are dumped
to the same bytes.  The lists are `[A, F, B, S, A]` and `[A, F, B, S, B]`, with
`A = [1]`, `B = [2]`, `F` a byte string of 13 bytes and `S` one of 2000 bytes;
`A` is recorded with the pointer to offset 7 and `B` with the pointer to offset
23 of the first block of the buffer, and the append of `S` moves the buffer to
a second block at the address 8192.  The last item is emitted as `REFP` with
the difference of the dangling pointer and the new `buf_start`: with the first
block at the address 4096 for the first list and at 4080 for the second, both
are `4096 + 7 - 8192 = 4080 + 23 - 8192`, as an unsigned long
`2^64 - 4096 + 7`, and neither tag is flagged.  No decoder can tell the two
outputs apart. -/
theorem dump_collision_after_move :
    (srl_encoder_dump srl_v1 (host_shared 1 4096) 3 session_v1 0).1 =
      DumpRet.bytes ([0x3D, 0x73, 0x72, 0x6C, 0x01, 0x00, 0x45, 0x41, 0x01, 0x6D] ++
        List.replicate 13 70 ++ [0x41, 0x02, 0x26] ++ varint 2000 ++ long_string ++
        srl_v1.SRL_HDR_REFP :: varint (2 ^ 64 - 4096 + 7)) ∧
    (srl_encoder_dump srl_v1 (host_shared 3 4080) 3 session_v1 0).1 =
      (srl_encoder_dump srl_v1 (host_shared 1 4096) 3 session_v1 0).1 ∧
    value_of (host_shared 1 4096) 3 0 =
      some (Value.list [Value.list [Value.int 1], Value.bytes (List.replicate 13 70),
        Value.list [Value.int 2], Value.bytes long_string, Value.list [Value.int 1]]) ∧
    value_of (host_shared 3 4080) 3 0 =
      some (Value.list [Value.list [Value.int 1], Value.bytes (List.replicate 13 70),
        Value.list [Value.int 2], Value.bytes long_string, Value.list [Value.int 2]]) ∧
    value_of (host_shared 1 4096) 3 0 ≠ value_of (host_shared 3 4080) 3 0 := by
  have v1 : value_of (host_shared 1 4096) 3 0 =
      some (Value.list [Value.list [Value.int 1], Value.bytes (List.replicate 13 70),
        Value.list [Value.int 2], Value.bytes long_string, Value.list [Value.int 1]]) := by
    simp [value_of, values_of, host_shared, scalar_value]
  have v2 : value_of (host_shared 3 4080) 3 0 =
      some (Value.list [Value.list [Value.int 1], Value.bytes (List.replicate 13 70),
        Value.list [Value.int 2], Value.bytes long_string, Value.list [Value.int 2]]) := by
    simp [value_of, values_of, host_shared, scalar_value]
  refine ⟨by decide!, by decide!, v1, v2, ?_⟩
  rw [v1, v2]
  simp

/-- C9, the code at a failing input: the list `[L, S, L]` of `host_lsl`, with
the same objects at the same addresses and the same configuration, dumped on
fresh sessions in two hosts that differ only in the addresses at which
`realloc` places the blocks of the buffer (4096, 8192, ... and 8192, 16384,
...).  Both dumps succeed, and their outputs differ: behind the `REFP` of the
second visit of `L` stands the difference of the dangling pointer recorded for
`L` and the new `buf_start`, `2^64 - 4096 + 7` in the one and `2^64 - 8192 + 7`
in the other.  The bytes depend on the addresses of the buffer. -/
theorem dump_depends_on_placement :
    (host_lsl true fun k => 4096 * (k + 1)).heap = (host_lsl true fun k => 8192 * (k + 1)).heap ∧
    (srl_encoder_dump srl_v1 (host_lsl true fun k => 4096 * (k + 1)) 3 session_v1 0).1 =
      DumpRet.bytes ([0x3D, 0x73, 0x72, 0x6C, 0x01, 0x00, 0x43, 0x41, 0x07, 0x26] ++
        varint 2000 ++ long_string ++ srl_v1.SRL_HDR_REFP :: varint (2 ^ 64 - 4096 + 7)) ∧
    (srl_encoder_dump srl_v1 (host_lsl true fun k => 8192 * (k + 1)) 3 session_v1 0).1 =
      DumpRet.bytes ([0x3D, 0x73, 0x72, 0x6C, 0x01, 0x00, 0x43, 0x41, 0x07, 0x26] ++
        varint 2000 ++ long_string ++ srl_v1.SRL_HDR_REFP :: varint (2 ^ 64 - 8192 + 7)) ∧
    (srl_encoder_dump srl_v1 (host_lsl true fun k => 4096 * (k + 1)) 3 session_v1 0).1 ≠
      (srl_encoder_dump srl_v1 (host_lsl true fun k => 8192 * (k + 1)) 3 session_v1 0).1 :=
  ⟨rfl, by decide!, by decide!, by decide!⟩

/-! ## All the outcomes of one call of the dispatcher -/

theorem enter_cases (h : Host) (a b : srl_encoder_t) (msg : String) (r : Ret)
    (hr : SRL_ENTER_RECURSIVE_CALL h a msg = (r, b)) :
    (r = Ret.ok ∧ b = entered a ∧
      (a.max_recursion_depth = 0 ∨ a.recursion_depth + 1 < a.max_recursion_depth)) ∨
    (r = Ret.fail (PyErr.RuntimeError_host msg) ∧ b = a ∧ h.recursion_limit ≠ none) ∨
    (r = Ret.fail (PyErr.RuntimeError_max_depth a.max_recursion_depth) ∧ b = entered a ∧
      a.max_recursion_depth ≠ 0 ∧ a.max_recursion_depth ≤ a.recursion_depth + 1) := by
  by_cases hok : r = Ret.ok
  · subst hok
    left
    refine ⟨rfl, enter_ok_fields h a b msg hr, ?_⟩
    unfold SRL_ENTER_RECURSIVE_CALL at hr
    split at hr
    · simp at hr
    · simp only [] at hr
      split at hr
      · simp at hr
      · rename_i hc
        simp only [Bool.and_eq_true, bne_iff_ne, ne_eq, decide_eq_true_eq, not_and, not_le] at hc
        by_cases hm : a.max_recursion_depth = 0
        · exact Or.inl hm
        · exact Or.inr (hc hm)
  · right
    rcases enter_fail_fields h a b msg r hr hok with ⟨h1, h2, lim, h3, _⟩ | ⟨h1, h2, h3, h4⟩
    · exact Or.inl ⟨h1, h2, by rw [h3]; simp⟩
    · exact Or.inr ⟨h1, h2, h3, h4⟩

theorem switch_memory (P : Protocol) (h : Host)
    (dump : srl_encoder_t → Nat → Ret × srl_encoder_t) (a b : srl_encoder_t) (obj : Nat)
    (pos : Option Ptr) (r : Ret) (hl : srl_classify (h.heap obj) ≠ srl_type.LIST)
    (hr : srl_dump_switch P h dump (srl_classify (h.heap obj)) a obj pos = (r, b))
    (hne : r ≠ Ret.ok) : OtherFail h obj r ∧ b = a := by
  rcases switch_scalar_cases P h dump a b obj pos r hl hr with ⟨h1, _⟩ | ⟨h1, h2⟩
  · exact absurd h1 hne
  · refine ⟨?_, h1⟩
    rcases h2 with h2 | ⟨h2, h3⟩ | ⟨h2, h3⟩
    · by_cases hn : srl_classify (h.heap obj) = srl_type.NONE
      · exfalso
        rw [hn] at hr
        simp only [srl_dump_switch, Prod.mk.injEq] at hr
        rw [h2] at hr
        simp at hr
      · by_cases hu : h.heap obj = PyObject.pyunicode none
        · exfalso
          rw [hu] at hr
          simp [srl_dump_switch, srl_classify, PyInt_CheckExact,
            PyFloat_Check, PyString_Check, PyUnicode_Check, PyList_Check, PyBool_Check,
            PyInt_Check, srl_dump_pyunicode, hu, PyUnicode_AsUTF8String] at hr
          rw [h2] at hr
          simp at hr
        · left
          refine ⟨h2, ?_⟩
          intro hh
          have := switch_reliable P h hh dump a obj pos hl hn hu
          rw [hr, h2] at this
          simp at this
    · exact Or.inr (Or.inl ⟨h2, h3⟩)
    · exact Or.inr (Or.inr ⟨h2, h3⟩)

theorem find_entered (a : srl_encoder_t) (x : Nat) :
    srl_find_obj (entered a) x = srl_find_obj a x := rfl

theorem emitter_entered (h : Host) (a : srl_encoder_t) (obj : Nat) :
    emitter_ofs h (entered a) obj = emitter_ofs h a obj := rfl

/-- A call of the dispatcher that fails has failed outside the item loop, in
one of the ways of `LeafFail`, or it is the call on a list that the seen table
did not hold and a call on one of its items has failed. -/
theorem dump_fail_cases (P : Protocol) (h : Host) (fuel : Nat) (a b : srl_encoder_t)
    (obj : Nat) (r : Ret) (hr : srl_dump_pyobj P h (fuel + 1) a obj = (r, b))
    (hne : r ≠ Ret.ok) :
    LeafFail h a obj r b ∨
    (srl_classify (h.heap obj) = srl_type.LIST ∧ srl_find_obj a obj = none ∧
      (a.max_recursion_depth = 0 ∨ a.recursion_depth + 2 < a.max_recursion_depth) ∧
      ∃ e e1, ListOpened P h a obj e ∧
        srl_dump_items (srl_dump_pyobj P h fuel) (PyList_items (h.heap obj)) e = (r, e1) ∧
        b = SRL_LEAVE_RECURSIVE_CALL (SRL_LEAVE_RECURSIVE_CALL e1)) := by
  have hr0 := hr
  simp only [srl_dump_pyobj] at hr
  rcases he : SRL_ENTER_RECURSIVE_CALL h a " while Sereal dumping object" with ⟨r1, a1⟩
  rw [he] at hr
  rcases enter_cases h a a1 _ r1 he with ⟨h1, h2, h3⟩ | ⟨h1, h2, h3⟩ | ⟨h1, h2, h3, h4⟩
  · subst h1
    subst h2
    simp only [find_entered, emitter_entered] at hr
    by_cases hl : srl_classify (h.heap obj) = srl_type.LIST
    · have hvis : ({
            obj := obj
            ofs := (entered a).buf.length
            prior := (srl_find_obj a obj).map (emitter_ofs h a obj) } : Visit) =
          visit_of h a obj := by
        simp [visit_of, found_ofs, hl, entered]
      cases hf : srl_find_obj a obj with
      | some p =>
        left
        simp only [hl, hf, srl_dump_switch, srl_dump_pylist, Option.map_some', Option.map_none',
          show (srl_type.LIST = srl_type.BOOL) = False from by simp, if_false] at hr
        rw [hf, Option.map_some'] at hvis
        rcases he2 : SRL_ENTER_RECURSIVE_CALL h { entered a with visits := (entered a).visits ++
            [{ obj := obj, ofs := (entered a).buf.length, prior := some (emitter_ofs h a obj p) }] }
            " serializing list"
          with ⟨r2, a2⟩
        rw [he2] at hr
        rcases enter_cases h _ a2 _ r2 he2 with ⟨k1, k2, k3⟩ | ⟨k1, k2, k3⟩ | ⟨k1, k2, k3, k4⟩
        · subst k1
          simp only [] at hr
          have hfp : (if (PyList_items (h.heap obj)).length > SRL_MASK_ARRAYREF_COUNT
              then ptr_succ p else p) = flag_ptr h obj p := rfl
          rw [hfp] at hr
          obtain ⟨_, f2, _, _, _, f6, f7, _⟩ := SRL_SET_FBIT_fields a2 (flag_ptr h obj p)
          rcases hv : srl_buf_cat_varint h
              (SRL_SET_FBIT a2 (flag_ptr h obj p)) P.SRL_HDR_REFP
              (ptr_diff h (flag_ptr h obj p) (SRL_SET_FBIT a2 (flag_ptr h obj p)).buf_start)
            with ⟨r3, a3⟩
          rw [hv] at hr
          simp only [Prod.mk.injEq] at hr
          obtain ⟨hr1, hr2⟩ := hr
          subst hr1
          obtain ⟨q1, q2⟩ := cat_varint_fail h _ a3 _ _ _ hv hne
          refine LeafFail.other _ _ (Or.inl ⟨q1, ?_⟩) h3 ?_ ?_ ?_
          · intro hh
            have := cat_varint_reliable h hh (SRL_SET_FBIT a2 (flag_ptr h obj p))
              P.SRL_HDR_REFP
              (ptr_diff h (flag_ptr h obj p) (SRL_SET_FBIT a2 (flag_ptr h obj p)).buf_start)
            rw [hv] at this
            exact hne this
          · rw [← hr2, q2]
            simp only [SRL_LEAVE_RECURSIVE_CALL]
            rw [f6, k2]; simp [entered]
          · rw [← hr2, q2]
            simp only [SRL_LEAVE_RECURSIVE_CALL]
            rw [f7, k2]; simp [entered]
          · rw [← hr2, q2, ← hvis]
            simp only [SRL_LEAVE_RECURSIVE_CALL]
            rw [f2, k2]; simp [entered]
        · subst k1
          simp only [Prod.mk.injEq] at hr
          obtain ⟨hr1, hr2⟩ := hr
          subst hr1
          refine LeafFail.probe2 _ hl h3 k3 ?_ ?_ ?_
          · rw [← hr2, k2]; simp [SRL_LEAVE_RECURSIVE_CALL, entered]
          · rw [← hr2, k2]; simp [SRL_LEAVE_RECURSIVE_CALL, entered]
          · rw [← hr2, k2, ← hvis]; simp [SRL_LEAVE_RECURSIVE_CALL, entered]
        · subst k1
          simp only [Prod.mk.injEq] at hr
          obtain ⟨hr1, hr2⟩ := hr
          subst hr1
          have hm : a.max_recursion_depth ≠ 0 := k3
          have h5 : a.recursion_depth + 1 < a.max_recursion_depth := by
            rcases h3 with h3 | h3
            · exact absurd h3 hm
            · exact h3
          have h6 : a.max_recursion_depth ≤ a.recursion_depth + 2 := k4
          refine LeafFail.ceiling2 _ hl hm h5 h6 ?_ ?_ ?_
          · rw [← hr2, k2]; simp [SRL_LEAVE_RECURSIVE_CALL, entered]
          · rw [← hr2, k2]; simp [SRL_LEAVE_RECURSIVE_CALL, entered]
          · rw [← hr2, k2, ← hvis]; simp [SRL_LEAVE_RECURSIVE_CALL, entered]
      | none =>
        simp only [hl, hf, srl_dump_switch, srl_dump_pylist, Option.map_some', Option.map_none',
          show (srl_type.LIST = srl_type.BOOL) = False from by simp, if_false] at hr
        rw [hf, Option.map_none'] at hvis
        rcases htr : srl_track_obj h { entered a with visits := (entered a).visits ++
            [{ obj := obj, ofs := (entered a).buf.length, prior := none }] } obj with ⟨r3, a3⟩
        rw [htr] at hr
        by_cases hr3 : r3 = Ret.ok
        · subst hr3
          have ha3 := track_ok_fields h _ a3 obj htr
          simp only [] at hr
          rcases he2 : SRL_ENTER_RECURSIVE_CALL h a3 " serializing list" with ⟨r2, a4⟩
          rw [he2] at hr
          rcases enter_cases h _ a4 _ r2 he2 with ⟨k1, k2, k3⟩ | ⟨k1, k2, k3⟩ | ⟨k1, k2, k3, k4⟩
          · subst k1
            simp only [] at hr
            rcases hh : srl_dump_list_header P h a4 (PyList_items (h.heap obj)).length
              with ⟨r5, e⟩
            rw [hh] at hr
            by_cases hr5 : r5 = Ret.ok
            · right
              subst hr5
              simp only [Prod.mk.injEq] at hr
              refine ⟨hl, rfl, ?_, e,
                (srl_dump_items (srl_dump_pyobj P h fuel) (PyList_items (h.heap obj)) e).2,
                ?_, ?_, hr.2.symm⟩
              · rw [ha3] at k3
                exact k3
              · obtain ⟨e1, e2, e3, e4, e5, e6, e7, e8⟩ := list_header_emitted P h a4 e _ hh
                subst k2
                subst ha3
                refine ⟨?_, ?_, ?_, ?_, ?_, ?_, ?_, ?_⟩ <;>
                  simp [e1, e2, e3, e4, e5, e6, e7, e8, entered, srl_encoder_t.pos]
              · rw [← hr.1]
            · left
              have hrr : r = r5 ∧ b = SRL_LEAVE_RECURSIVE_CALL (SRL_LEAVE_RECURSIVE_CALL e) := by
                cases r5 <;> simp_all
              obtain ⟨q1, q2⟩ := list_header_fail P h a4 e _ r5 hh hr5
              rw [hrr.1, hrr.2, q2, k2, ha3]
              refine LeafFail.other _ _ (Or.inl ⟨q1, ?_⟩) h3 ?_ ?_ ?_
              · intro hh2
                have := list_header_reliable P h hh2 a4 (PyList_items (h.heap obj)).length
                rw [hh] at this
                exact hr5 this
              · simp [SRL_LEAVE_RECURSIVE_CALL, entered]
              · simp [SRL_LEAVE_RECURSIVE_CALL, entered]
              · rw [← hvis]; simp [SRL_LEAVE_RECURSIVE_CALL, entered]
          · left
            subst k1
            simp only [Prod.mk.injEq] at hr
            obtain ⟨hr1, hr2⟩ := hr
            subst hr1
            refine LeafFail.probe2 _ hl h3 k3 ?_ ?_ ?_
            · rw [← hr2, k2, ha3]; simp [SRL_LEAVE_RECURSIVE_CALL, entered]
            · rw [← hr2, k2, ha3]; simp [SRL_LEAVE_RECURSIVE_CALL, entered]
            · rw [← hr2, k2, ha3, ← hvis]; simp [SRL_LEAVE_RECURSIVE_CALL, entered]
          · left
            subst k1
            simp only [Prod.mk.injEq] at hr
            obtain ⟨hr1, hr2⟩ := hr
            subst hr1
            rw [ha3] at k3 k4
            have hm : a.max_recursion_depth ≠ 0 := k3
            have h5 : a.recursion_depth + 1 < a.max_recursion_depth := by
              rcases h3 with h3 | h3
              · exact absurd h3 hm
              · exact h3
            have h6 : a.max_recursion_depth ≤ a.recursion_depth + 2 := k4
            rw [show (a3.max_recursion_depth) = a.max_recursion_depth from by rw [ha3]; rfl]
            refine LeafFail.ceiling2 _ hl hm h5 h6 ?_ ?_ ?_
            · rw [← hr2, k2, ha3]; simp [SRL_LEAVE_RECURSIVE_CALL, entered]
            · rw [← hr2, k2, ha3]; simp [SRL_LEAVE_RECURSIVE_CALL, entered]
            · rw [← hr2, k2, ha3, ← hvis]; simp [SRL_LEAVE_RECURSIVE_CALL, entered]
        · left
          have hrr : r = r3 ∧ b = SRL_LEAVE_RECURSIVE_CALL a3 := by
            cases r3 <;> simp_all
          obtain ⟨q1, q2⟩ := track_fail_fields h _ a3 obj _ htr hr3
          rw [hrr.1, hrr.2, q2]
          refine LeafFail.other _ _ (Or.inl ⟨q1, ?_⟩) h3 ?_ ?_ ?_
          · intro hh2
            have := track_reliable h hh2 { entered a with visits := (entered a).visits ++
              [{ obj := obj, ofs := (entered a).buf.length, prior := none }] } obj
            rw [htr] at this
            exact hr3 this
          · simp [SRL_LEAVE_RECURSIVE_CALL, entered]
          · simp [SRL_LEAVE_RECURSIVE_CALL, entered]
          · rw [← hvis]; simp [SRL_LEAVE_RECURSIVE_CALL, entered]
    · left
      have key : ∀ (a3 : srl_encoder_t) (pos : Option Ptr) (r2 : Ret) (b2 : srl_encoder_t),
          srl_dump_switch P h (srl_dump_pyobj P h fuel) (srl_classify (h.heap obj)) a3 obj pos
            = (r2, b2) → r2 = r → SRL_LEAVE_RECURSIVE_CALL b2 = b →
          a3.recursion_depth = a.recursion_depth + 1 →
          a3.py_recursion_depth = a.py_recursion_depth + 1 →
          a3.visits = a.visits ++ [visit_of h a obj] → LeafFail h a obj r b := by
        intro a3 pos r2 b2 hsw e1 e2 e3 e4 e5
        subst e1
        obtain ⟨q1, q2⟩ := switch_memory P h _ a3 b2 obj pos r2 hl hsw hne
        refine LeafFail.other _ _ q1 h3 ?_ ?_ ?_
        · rw [← e2, q2]; simp [SRL_LEAVE_RECURSIVE_CALL, e3]
        · rw [← e2, q2]; simp [SRL_LEAVE_RECURSIVE_CALL, e4]
        · rw [← e2, q2]; simp [SRL_LEAVE_RECURSIVE_CALL, e5]
      by_cases hb : srl_classify (h.heap obj) = srl_type.BOOL
      · simp only [hb, if_true, Option.map_none'] at hr
        rw [← hb] at hr
        rcases hsw : srl_dump_switch P h (srl_dump_pyobj P h fuel) (srl_classify (h.heap obj))
          { entered a with visits := (entered a).visits ++
            [{ obj := obj, ofs := (entered a).buf.length, prior := none }] }
          obj none with ⟨r2, b2⟩
        rw [hsw] at hr
        simp only [Prod.mk.injEq] at hr
        exact key _ none r2 b2 hsw hr.1 hr.2 rfl rfl (by simp [visit_of, found_ofs, hb, entered])
      · simp only [hb, if_false] at hr
        cases hf : srl_find_obj a obj with
        | some p =>
          simp only [hf, Option.map_some'] at hr
          rcases hsw : srl_dump_switch P h (srl_dump_pyobj P h fuel) (srl_classify (h.heap obj))
            { entered a with visits := (entered a).visits ++
              [{ obj := obj, ofs := (entered a).buf.length,
                 prior := some (emitter_ofs h a obj p) }] }
            obj (some p) with ⟨r2, b2⟩
          rw [hsw] at hr
          simp only [Prod.mk.injEq] at hr
          exact key _ (some p) r2 b2 hsw hr.1 hr.2 rfl rfl
            (by simp [visit_of, found_ofs, hb, hf, entered])
        | none =>
          simp only [hf, Option.map_none'] at hr
          rcases htr : srl_track_obj h { entered a with visits := (entered a).visits ++
            [{ obj := obj, ofs := (entered a).buf.length, prior := none }] } obj with ⟨r3, a3⟩
          rw [htr] at hr
          by_cases hr3 : r3 = Ret.ok
          · subst hr3
            have ha3 := track_ok_fields h _ a3 obj htr
            simp only [] at hr
            rcases hsw : srl_dump_switch P h (srl_dump_pyobj P h fuel)
              (srl_classify (h.heap obj)) a3 obj none with ⟨r2, b2⟩
            rw [hsw] at hr
            simp only [Prod.mk.injEq] at hr
            exact key a3 none r2 b2 hsw hr.1 hr.2 (by rw [ha3]; rfl) (by rw [ha3]; rfl)
              (by rw [ha3]; simp [visit_of, found_ofs, hb, hf, entered])
          · have hrr : r = r3 ∧ b = SRL_LEAVE_RECURSIVE_CALL a3 := by
              cases r3 <;> simp_all
            obtain ⟨q1, q2⟩ := track_fail_fields h _ a3 obj _ htr hr3
            rw [hrr.1, hrr.2, q2]
            refine LeafFail.other _ _ (Or.inl ⟨q1, ?_⟩) h3 ?_ ?_ ?_
            · intro hh2
              have := track_reliable h hh2 { entered a with visits := (entered a).visits ++
                [{ obj := obj, ofs := (entered a).buf.length, prior := none }] } obj
              rw [htr] at this
              exact hr3 this
            · simp [SRL_LEAVE_RECURSIVE_CALL, entered]
            · simp [SRL_LEAVE_RECURSIVE_CALL, entered]
            · simp [SRL_LEAVE_RECURSIVE_CALL, entered, visit_of, found_ofs, hb, hf]
  · left
    subst h1
    simp only [Prod.mk.injEq] at hr
    rw [← hr.1, ← hr.2, h2]
    exact LeafFail.probe1 h3
  · left
    subst h1
    simp only [Prod.mk.injEq] at hr
    rw [← hr.1, ← hr.2, h2]
    exact LeafFail.ceiling1 h3 h4

/-- A successful call of the dispatcher has passed the ceiling of its own
recursion guard and, on a list, of the guard of `srl_dump_pylist`. -/
theorem dump_ok_ceiling (P : Protocol) (h : Host) (fuel : Nat) (a b : srl_encoder_t)
    (obj : Nat) (hr : srl_dump_pyobj P h (fuel + 1) a obj = (Ret.ok, b)) :
    (a.max_recursion_depth = 0 ∨ a.recursion_depth + 1 < a.max_recursion_depth) ∧
    (srl_classify (h.heap obj) = srl_type.LIST →
      a.max_recursion_depth = 0 ∨ a.recursion_depth + 2 < a.max_recursion_depth) := by
  simp only [srl_dump_pyobj] at hr
  rcases he : SRL_ENTER_RECURSIVE_CALL h a " while Sereal dumping object" with ⟨r1, a1⟩
  rw [he] at hr
  rcases enter_cases h a a1 _ r1 he with ⟨h1, h2, h3⟩ | ⟨h1, h2, h3⟩ | ⟨h1, h2, h3, h4⟩
  · refine ⟨h3, ?_⟩
    intro hl
    subst h1
    subst h2
    simp only [find_entered, emitter_entered] at hr
    cases hf : srl_find_obj a obj with
    | some p =>
      simp only [hl, hf, srl_dump_switch, srl_dump_pylist, Option.map_some', Option.map_none',
        show (srl_type.LIST = srl_type.BOOL) = False from by simp, if_false] at hr
      rcases he2 : SRL_ENTER_RECURSIVE_CALL h { entered a with visits := (entered a).visits ++
          [{ obj := obj, ofs := (entered a).buf.length, prior := some (emitter_ofs h a obj p) }] }
          " serializing list"
        with ⟨r2, a2⟩
      rw [he2] at hr
      rcases enter_cases h _ a2 _ r2 he2 with ⟨k1, k2, k3⟩ | ⟨k1, k2, k3⟩ | ⟨k1, k2, k3, k4⟩
      · exact k3
      · subst k1; simp at hr
      · subst k1; simp at hr
    | none =>
      simp only [hl, hf, srl_dump_switch, srl_dump_pylist, Option.map_some', Option.map_none',
        show (srl_type.LIST = srl_type.BOOL) = False from by simp, if_false] at hr
      rcases htr : srl_track_obj h { entered a with visits := (entered a).visits ++
          [{ obj := obj, ofs := (entered a).buf.length, prior := none }] } obj with ⟨r3, a3⟩
      rw [htr] at hr
      by_cases hr3 : r3 = Ret.ok
      · subst hr3
        have ha3 := track_ok_fields h _ a3 obj htr
        simp only [] at hr
        rcases he2 : SRL_ENTER_RECURSIVE_CALL h a3 " serializing list" with ⟨r2, a4⟩
        rw [he2] at hr
        rcases enter_cases h _ a4 _ r2 he2 with ⟨k1, k2, k3⟩ | ⟨k1, k2, k3⟩ | ⟨k1, k2, k3, k4⟩
        · rw [ha3] at k3
          exact k3
        · subst k1; simp at hr
        · subst k1; simp at hr
      · exfalso
        cases r3 <;> simp_all
  · subst h1; simp at hr
  · subst h1; simp at hr

/-- A failing item loop: the items before the failing one have succeeded, and
the call on that item has returned the result of the loop. -/
theorem items_fail_call (dump : srl_encoder_t → Nat → Ret × srl_encoder_t) :
    ∀ (items : List Nat) (e e1 : srl_encoder_t) (r : Ret),
      srl_dump_items dump items e = (r, e1) → r ≠ Ret.ok →
      ∃ pre x post c, items = pre ++ x :: post ∧
        srl_dump_items dump pre e = (Ret.ok, c) ∧ dump c x = (r, e1) := by
  intro items
  induction items with
  | nil =>
    intro e e1 r hr hne
    simp only [srl_dump_items, Prod.mk.injEq] at hr
    exact absurd hr.1.symm hne
  | cons x xs ih =>
    intro e e1 r hr hne
    simp only [srl_dump_items] at hr
    rcases hx : dump e x with ⟨r0, c⟩
    rw [hx] at hr
    by_cases h0 : r0 = Ret.ok
    · subst h0
      simp only [] at hr
      obtain ⟨pre, y, post, c2, q1, q2, q3⟩ := ih c e1 r hr hne
      refine ⟨x :: pre, y, post, c2, by rw [q1]; rfl, ?_, q3⟩
      simp only [srl_dump_items, hx, q2]
    · have : r = r0 ∧ e1 = c := by cases r0 <;> simp_all
      refine ⟨[], x, xs, e, rfl, rfl, ?_⟩
      rw [hx, this.1, this.2]

/-- The errors of the dispatcher: never the error of a requested
compression, and the error of the ceiling only when a ceiling is set and with
the value of the ceiling. -/
theorem dump_errors (P : Protocol) (h : Host) : ∀ (fuel : Nat) (a b : srl_encoder_t) (obj : Nat)
    (e : PyErr), srl_dump_pyobj P h fuel a obj = (Ret.fail e, b) →
    e ≠ PyErr.NotImplementedError_snappy ∧
    (∀ n, e = PyErr.RuntimeError_max_depth n →
      a.max_recursion_depth ≠ 0 ∧ n = a.max_recursion_depth) ∧
    (∀ msg, e = PyErr.RuntimeError_host msg → h.recursion_limit ≠ none) := by
  intro fuel
  induction fuel with
  | zero => intro a b obj e hr; simp [srl_dump_pyobj] at hr
  | succ fuel ih =>
    intro a b obj e hr
    rcases dump_fail_cases P h fuel a b obj _ hr (by simp) with hc | ⟨_, _, _, e0, e1, ho, hi, _⟩
    · have hkind : ∀ (r : Ret) (b : srl_encoder_t), LeafFail h a obj r b → r = Ret.fail e →
          e ≠ PyErr.NotImplementedError_snappy ∧
          (∀ n, e = PyErr.RuntimeError_max_depth n →
            a.max_recursion_depth ≠ 0 ∧ n = a.max_recursion_depth) ∧
          (∀ msg, e = PyErr.RuntimeError_host msg → h.recursion_limit ≠ none) := by
        intro r b hc hre
        cases hc with
        | probe1 h1 =>
          simp only [Ret.fail.injEq] at hre
          subst hre
          refine ⟨?_, ?_, ?_⟩
          · simp
          · intro n hn; cases hn
          · intro _ _; exact h1
        | ceiling1 h1 h2 =>
          simp only [Ret.fail.injEq] at hre
          subst hre
          refine ⟨?_, ?_, ?_⟩
          · simp
          · intro n hn
            simp only [PyErr.RuntimeError_max_depth.injEq] at hn
            exact ⟨h1, hn.symm⟩
          · intro m hm; cases hm
        | probe2 b h1 h2 h3 =>
          simp only [Ret.fail.injEq] at hre
          subst hre
          refine ⟨?_, ?_, ?_⟩
          · simp
          · intro n hn; cases hn
          · intro _ _; exact h3
        | ceiling2 b h1 h2 h3 =>
          simp only [Ret.fail.injEq] at hre
          subst hre
          refine ⟨?_, ?_, ?_⟩
          · simp
          · intro n hn
            simp only [PyErr.RuntimeError_max_depth.injEq] at hn
            exact ⟨h2, hn.symm⟩
          · intro m hm; cases hm
        | other r b h1 =>
          subst hre
          rcases h1 with ⟨h1, _⟩ | ⟨h1, _⟩ | ⟨h1, _⟩ <;>
            · simp only [Ret.fail.injEq] at h1
              subst h1
              refine ⟨?_, ?_, ?_⟩
              · simp
              · intro n hn; cases hn
              · intro m hm; cases hm
      exact hkind _ _ hc rfl
    · obtain ⟨pre, x, post, c, _, q2, q3⟩ :=
        items_fail_call _ _ e0 e1 _ hi (by simp)
      obtain ⟨k1, k2, k3⟩ := ih c e1 x e q3
      have hm : c.max_recursion_depth = a.max_recursion_depth := by
        have m1 := (items_mono P h fuel pre e0).2.2.2.2.2.2
        rw [q2] at m1
        simp only [] at m1
        rw [m1, ho.2.2.2.2.2.2.1]
      rw [hm] at k2
      exact ⟨k1, k2, k3⟩

theorem have_option_or_iff (enc : srl_encoder_t) (x y : Nat) :
    SRL_ENC_HAVE_OPTION enc (x ||| y) = true ↔
      (SRL_ENC_HAVE_OPTION enc x = true ∨ SRL_ENC_HAVE_OPTION enc y = true) := by
  constructor
  · intro hxy
    by_contra hc
    simp only [not_or, Bool.not_eq_true] at hc
    have : SRL_ENC_HAVE_OPTION enc (x ||| y) = false := by
      unfold SRL_ENC_HAVE_OPTION at hc ⊢
      simp only [bne_eq_false_iff_eq] at hc ⊢
      rw [Nat.and_or_distrib_left, hc.1, hc.2]
      rfl
    rw [this] at hxy
    cases hxy
  · intro hc
    by_contra hn
    simp only [Bool.not_eq_true] at hn
    obtain ⟨h1, h2⟩ := have_option_or enc x y hn
    rcases hc with hc | hc
    · rw [h1] at hc; cases hc
    · rw [h2] at hc; cases hc

/-! ## C11: the compression modes are not implemented -/

/-- C11: `srl_encoder_dump` fails with the not-implemented error of the
compression modes if and only if the flags of the session contain
`COMPRESS_SNAPPY` or `COMPRESS_SNAPPY_INCREMENTAL`, whatever the root value, the
host and the fuel; the session is then returned as it was: no header is
written and the buffer, the seen table and the depth counters are unchanged.
When neither flag is set the dump is the header, written with `ENCODING_RAW`,
followed by the dispatcher on the session behind the header; so every header
that a dump writes carries `ENCODING_RAW`.  (The error of an unsupported type
is also a `NotImplementedError` for Python; it is the other error of the
specification, with a different message, and the dispatcher never raises the
one of the compression modes.) -/
theorem snappy_not_implemented (P : Protocol) (h : Host) (fuel : Nat) (enc : srl_encoder_t)
    (root : Nat) :
    ((srl_encoder_dump P h fuel enc root).1 = DumpRet.fail PyErr.NotImplementedError_snappy ↔
      (SRL_ENC_HAVE_OPTION enc P.SRL_F_COMPRESS_SNAPPY = true ∨
        SRL_ENC_HAVE_OPTION enc P.SRL_F_COMPRESS_SNAPPY_INCREMENTAL = true)) ∧
    ((SRL_ENC_HAVE_OPTION enc P.SRL_F_COMPRESS_SNAPPY = true ∨
        SRL_ENC_HAVE_OPTION enc P.SRL_F_COMPRESS_SNAPPY_INCREMENTAL = true) →
      (srl_encoder_dump P h fuel enc root).2 = enc) ∧
    (¬ (SRL_ENC_HAVE_OPTION enc P.SRL_F_COMPRESS_SNAPPY = true ∨
        SRL_ENC_HAVE_OPTION enc P.SRL_F_COMPRESS_SNAPPY_INCREMENTAL = true) →
      (srl_write_header P h enc).buf = enc.buf ++ (P.SRL_MAGIC_STRING ++
        [(P.SRL_PROTOCOL_VERSION ||| P.SRL_PROTOCOL_ENCODING_RAW) % 256, 0]) ∧
      (srl_encoder_dump P h fuel enc root).2 =
        (srl_dump_pyobj P h fuel (srl_write_header P h enc) root).2 ∧
      ∀ out, (srl_encoder_dump P h fuel enc root).1 = DumpRet.bytes out →
        out = (srl_dump_pyobj P h fuel (srl_write_header P h enc) root).2.buf) := by
  rw [← have_option_or_iff]
  cases hopt : SRL_ENC_HAVE_OPTION enc
      (P.SRL_F_COMPRESS_SNAPPY ||| P.SRL_F_COMPRESS_SNAPPY_INCREMENTAL) with
  | true =>
    have hd : srl_encoder_dump P h fuel enc root =
        (DumpRet.fail PyErr.NotImplementedError_snappy, enc) := by
      unfold srl_encoder_dump
      simp [hopt]
    rw [hd]
    simp
  | false =>
    obtain ⟨ho1, ho2⟩ := have_option_or _ _ _ hopt
    have hw := (srl_write_header_fields P h enc).1
    rw [ho1, ho2] at hw
    simp only [Bool.false_eq_true, if_false] at hw
    have hd : srl_encoder_dump P h fuel enc root =
        (match (srl_dump_pyobj P h fuel (srl_write_header P h enc) root).1 with
          | Ret.ok => DumpRet.bytes (srl_dump_pyobj P h fuel (srl_write_header P h enc) root).2.buf
          | Ret.fail e => DumpRet.fail e
          | Ret.nofuel => DumpRet.nofuel,
         (srl_dump_pyobj P h fuel (srl_write_header P h enc) root).2) := by
      unfold srl_encoder_dump
      simp only [hopt, Bool.not_false, if_true]
      rcases srl_dump_pyobj P h fuel (srl_write_header P h enc) root with ⟨r, b⟩
      cases r <;> rfl
    rw [hd]
    rcases hr : srl_dump_pyobj P h fuel (srl_write_header P h enc) root with ⟨r, b⟩
    refine ⟨?_, by simp, ?_⟩
    · simp only [Bool.false_eq_true, iff_false]
      cases r with
      | ok => simp
      | nofuel => simp
      | fail e =>
        simp only [DumpRet.fail.injEq]
        exact (dump_errors P h fuel _ b root e hr).1
    · intro _
      refine ⟨hw, rfl, ?_⟩
      intro out ho
      cases r with
      | ok => simp only [DumpRet.bytes.injEq] at ho; exact ho.symm
      | nofuel => simp at ho
      | fail e => simp at ho

/-- C11, witness: with the flag `COMPRESS_SNAPPY` the dump of `True` fails with
the error of the compression modes and returns the session as it was; with
the default flags it does not fail with that error. -/
theorem snappy_not_implemented_witness :
    srl_encoder_dump srl_v1 (host_of fun _ => PyObject.pybool true) 1
        (fresh_session srl_v1 { flags := 2, max_recursion_depth := 0 }) 0 =
      (DumpRet.fail PyErr.NotImplementedError_snappy,
        fresh_session srl_v1 { flags := 2, max_recursion_depth := 0 }) ∧
    (srl_encoder_dump srl_v1 (host_of fun _ => PyObject.pybool true) 1 session_v1 0).1 ≠
      DumpRet.fail PyErr.NotImplementedError_snappy :=
  ⟨Prod.ext
    ((snappy_not_implemented srl_v1 (host_of fun _ => PyObject.pybool true) 1
      (fresh_session srl_v1 { flags := 2, max_recursion_depth := 0 }) 0).1.2
        (Or.inl (by decide)))
    ((snappy_not_implemented srl_v1 (host_of fun _ => PyObject.pybool true) 1
      (fresh_session srl_v1 { flags := 2, max_recursion_depth := 0 }) 0).2.1
        (Or.inl (by decide))),
   fun hc => absurd ((snappy_not_implemented srl_v1 (host_of fun _ => PyObject.pybool true) 1
      session_v1 0).1.1 hc) (by decide)⟩

/-! ## The dispatcher against the traversal of the specification -/

theorem misc_of_other (h : Host) (x : Nat) (r : Ret) (ho : OtherFail h x r) : MiscFail h r :=
  ⟨x, ho⟩

theorem misc_not_ok (h : Host) (r : Ret) (hm : MiscFail h r) :
    r ≠ Ret.ok ∧ r ≠ Ret.nofuel ∧ ∀ n, r ≠ Ret.fail (PyErr.RuntimeError_max_depth n) := by
  obtain ⟨x, hx⟩ := hm
  rcases hx with ⟨h1, _⟩ | ⟨h1, _⟩ | ⟨h1, _⟩ <;> (subst h1; simp)

/-- A failing call outside the item loop, when the host probe never refuses. -/
theorem leaf_fail_ceiling (h : Host) (a b : srl_encoder_t) (obj : Nat) (r : Ret)
    (hp : h.recursion_limit = none) (hc : LeafFail h a obj r b) :
    (r = Ret.fail (PyErr.RuntimeError_max_depth a.max_recursion_depth) ∧
      a.max_recursion_depth ≠ 0 ∧
      (a.max_recursion_depth ≤ a.recursion_depth + 1 ∨
        (srl_classify (h.heap obj) = srl_type.LIST ∧
          a.max_recursion_depth ≤ a.recursion_depth + 2))) ∨
    (MiscFail h r ∧
      (a.max_recursion_depth = 0 ∨ a.recursion_depth + 1 < a.max_recursion_depth)) := by
  cases hc with
  | probe1 h1 => exact absurd hp h1
  | ceiling1 h1 h2 => exact Or.inl ⟨rfl, h1, Or.inl h2⟩
  | probe2 b h1 h2 h3 => exact absurd hp h3
  | ceiling2 b h1 h2 h3 h4 => exact Or.inl ⟨rfl, h2, Or.inr ⟨h1, h4⟩⟩
  | other r b h1 h2 => exact Or.inr ⟨⟨obj, h1⟩, h2⟩

theorem walk_items_agree (P : Protocol) (h : Host) (m j fuel : Nat)
    (hd : ∀ (seen : List Nat) (a : srl_encoder_t) (obj : Nat),
      a.max_recursion_depth = m → a.recursion_depth = 2 * j → SeenLists h a seen →
      WalkAgrees h m j (ceiling_walk h m fuel j seen obj) (srl_dump_pyobj P h fuel a obj).1
        (srl_dump_pyobj P h fuel a obj).2) :
    ∀ (items : List Nat) (seen : List Nat) (e : srl_encoder_t),
      e.max_recursion_depth = m → e.recursion_depth = 2 * j → SeenLists h e seen →
      WalkAgrees h m j (walk_items (ceiling_walk h m fuel j) items seen)
        (srl_dump_items (srl_dump_pyobj P h fuel) items e).1
        (srl_dump_items (srl_dump_pyobj P h fuel) items e).2 := by
  intro items
  induction items with
  | nil =>
    intro seen e _ h2 h3
    right
    exact ⟨rfl, h3, h2⟩
  | cons x xs ih =>
    intro seen e h1 h2 h3
    have hx := hd seen e x h1 h2 h3
    have hmx := (dump_mono P h fuel e x).2.2.2.2.2.2
    simp only [srl_dump_items, walk_items]
    rcases hr : srl_dump_pyobj P h fuel e x with ⟨r, c⟩
    rw [hr] at hx hmx
    simp only [] at hx hmx
    rcases hx with hx | hx
    · left
      obtain ⟨q1, q2, _⟩ := misc_not_ok h r hx
      cases r with
      | ok => exact absurd rfl q1
      | nofuel => exact absurd rfl q2
      | fail err => exact hx
    · cases hw : ceiling_walk h m fuel j seen x with
      | hit =>
        rw [hw] at hx
        simp only [] at hx
        subst hx
        right
        rfl
      | nofuel =>
        rw [hw] at hx
        simp only [] at hx
        subst hx
        right
        rfl
      | done s1 =>
        rw [hw] at hx
        simp only [] at hx
        obtain ⟨k1, k2, k3⟩ := hx
        subst k1
        simp only []
        exact ih s1 c (by rw [hmx, h1]) k3 k2

theorem seenlists_store (h : Host) (a e : srl_encoder_t) (obj : Nat) (seen : List Nat)
    (hs : SeenLists h a seen)
    (he : e.obj_seenhash = some (PTABLE_store (a.obj_seenhash.getD []) obj a.pos)) :
    SeenLists h e (obj :: seen) := by
  intro x hx
  rw [find_store a e obj a.pos x he]
  by_cases hxo : obj = x
  · subst hxo; simp
  · rw [if_neg hxo, hs x hx]
    simp [Ne.symm hxo]

/-- The dispatcher agrees with the traversal of the specification on the
ceiling, when the host probe never refuses. -/
theorem walk_agrees (P : Protocol) (h : Host) (m : Nat) (hp : h.recursion_limit = none)
    (hm : m ≠ 0) :
    ∀ (fuel j : Nat) (seen : List Nat) (a : srl_encoder_t) (obj : Nat),
      a.max_recursion_depth = m → a.recursion_depth = 2 * j → SeenLists h a seen →
      WalkAgrees h m j (ceiling_walk h m fuel j seen obj) (srl_dump_pyobj P h fuel a obj).1
        (srl_dump_pyobj P h fuel a obj).2 := by
  intro fuel
  induction fuel with
  | zero =>
    intro j seen a obj _ _ _
    right
    rfl
  | succ fuel ih =>
    intro j seen a obj h1 h2 h3
    rcases hr : srl_dump_pyobj P h (fuel + 1) a obj with ⟨r, b⟩
    simp only []
    -- what a failure outside the item loop is
    have hleaf : LeafFail h a obj r b →
        (r = Ret.fail (PyErr.RuntimeError_max_depth m) ∧
          (m ≤ 2 * j + 1 ∨ (srl_classify (h.heap obj) = srl_type.LIST ∧ m ≤ 2 * j + 2))) ∨
        (MiscFail h r ∧ 2 * j + 1 < m) := by
      intro hc
      rcases leaf_fail_ceiling h a b obj r hp hc with ⟨q1, _, q3⟩ | ⟨q1, q2⟩
      · rw [h1, h2] at q3
        rw [h1] at q1
        exact Or.inl ⟨q1, q3⟩
      · rw [h1, h2] at q2
        exact Or.inr ⟨q1, by rcases q2 with q2 | q2 <;> [exact absurd q2 hm; exact q2]⟩
    have hok : r = Ret.ok → 2 * j + 1 < m ∧
        (srl_classify (h.heap obj) = srl_type.LIST → 2 * j + 2 < m) := by
      intro hrok
      subst hrok
      obtain ⟨q1, q2⟩ := dump_ok_ceiling P h fuel a b obj hr
      rw [h1, h2] at q1 q2
      refine ⟨by rcases q1 with q1 | q1 <;> [exact absurd q1 hm; exact q1], ?_⟩
      intro hl
      rcases q2 hl with q | q
      · exact absurd q hm
      · exact q
    -- the item loop of a list that the seen table did not hold
    have hloop : srl_classify (h.heap obj) = srl_type.LIST → obj ∉ seen →
        ∀ e e1, ListOpened P h a obj e →
          srl_dump_items (srl_dump_pyobj P h fuel) (PyList_items (h.heap obj)) e = (r, e1) →
          b = SRL_LEAVE_RECURSIVE_CALL (SRL_LEAVE_RECURSIVE_CALL e1) →
          WalkAgrees h m j (walk_items (ceiling_walk h m fuel (j + 1))
            (PyList_items (h.heap obj)) (obj :: seen)) r b := by
      intro hl hns e e1 ho hi hb
      have hse := seenlists_store h a e obj seen h3 ho.2.1
      have := walk_items_agree P h m (j + 1) fuel (fun s a0 x => ih (j + 1) s a0 x)
        (PyList_items (h.heap obj)) (obj :: seen) e (by rw [ho.2.2.2.2.2.2.1, h1])
        (by rw [ho.2.2.2.1, h2]; ring) hse
      rw [hi] at this
      simp only [] at this
      rcases this with hmisc | hw
      · exact Or.inl hmisc
      · right
        cases hwi : walk_items (ceiling_walk h m fuel (j + 1)) (PyList_items (h.heap obj))
            (obj :: seen) with
        | hit => rw [hwi] at hw; exact hw
        | nofuel => rw [hwi] at hw; exact hw
        | done s1 =>
          rw [hwi] at hw
          simp only [] at hw ⊢
          obtain ⟨k1, k2, k3⟩ := hw
          refine ⟨k1, ?_, ?_⟩
          · intro x hx
            rw [hb]
            exact k2 x hx
          · rw [hb]
            simp only [SRL_LEAVE_RECURSIVE_CALL, k3]
            omega
    simp only [ceiling_walk]
    by_cases c1 : m ≤ 2 * j + 1
    · rw [if_pos c1]
      by_cases hrok : r = Ret.ok
      · have := (hok hrok).1
        omega
      · rcases dump_fail_cases P h fuel a b obj r hr hrok with hc | ⟨_, _, q, _⟩
        · rcases hleaf hc with ⟨q1, _⟩ | ⟨_, q2⟩
          · exact Or.inr q1
          · omega
        · rw [h1, h2] at q
          rcases q with q | q
          · exact absurd q hm
          · omega
    · rw [if_neg c1]
      by_cases hl : srl_classify (h.heap obj) = srl_type.LIST
      · rw [if_pos hl]
        by_cases c2 : m ≤ 2 * j + 2
        · rw [if_pos c2]
          by_cases hrok : r = Ret.ok
          · have := (hok hrok).2 hl
            omega
          · rcases dump_fail_cases P h fuel a b obj r hr hrok with hc | ⟨_, _, q, _⟩
            · rcases hleaf hc with ⟨q1, _⟩ | ⟨q1, _⟩
              · exact Or.inr q1
              · exact Or.inl q1
            · rw [h1, h2] at q
              rcases q with q | q
              · exact absurd q hm
              · omega
        · rw [if_neg c2]
          by_cases hs : obj ∈ seen
          · rw [if_pos hs]
            have hf := (h3 obj hl).2 hs
            cases hfo : srl_find_obj a obj with
            | none => exact absurd hfo hf
            | some p =>
              by_cases hrok : r = Ret.ok
              · subst hrok
                obtain ⟨_, _, q⟩ := dump_refp_cases P h fuel a b obj p Ret.ok hl hfo hr
                obtain ⟨_, _, e3, e4, _⟩ := q rfl
                right
                refine ⟨rfl, ?_, by rw [e4, h2]⟩
                intro x hx
                rw [find_congr a b e3]
                exact h3 x hx
              · rcases dump_fail_cases P h fuel a b obj r hr hrok with hc | ⟨_, q, _⟩
                · rcases hleaf hc with ⟨_, q2⟩ | ⟨q1, _⟩
                  · rcases q2 with q2 | ⟨_, q2⟩ <;> omega
                  · exact Or.inl q1
                · rw [hfo] at q
                  cases q
          · rw [if_neg hs]
            have hfo : srl_find_obj a obj = none := by
              by_contra hne
              exact hs ((h3 obj hl).1 hne)
            by_cases hrok : r = Ret.ok
            · rcases dump_list_cases P h fuel a b obj r hl hfo hr with
                ⟨e, e1, ho, hi, hb⟩ | ⟨q, _⟩
              · exact hloop hl hs e e1 ho hi hb
              · exact absurd hrok q
            · rcases dump_fail_cases P h fuel a b obj r hr hrok with hc | ⟨_, _, _, e, e1, ho, hi, hb⟩
              · rcases hleaf hc with ⟨_, q2⟩ | ⟨q1, _⟩
                · rcases q2 with q2 | ⟨_, q2⟩ <;> omega
                · exact Or.inl q1
              · exact hloop hl hs e e1 ho hi hb
      · rw [if_neg hl]
        by_cases hrok : r = Ret.ok
        · subst hrok
          obtain ⟨_, _, _, _, e5, e6, _⟩ := dump_scalar_ok P h (fuel + 1) a b obj hl hr
          right
          refine ⟨rfl, ?_, by rw [e6, h2]⟩
          intro x hx
          split at e5
          · rw [find_store a b obj a.pos x e5]
            by_cases hxo : obj = x
            · subst hxo; exact absurd hx hl
            · rw [if_neg hxo]; exact h3 x hx
          · rw [find_congr a b e5]; exact h3 x hx
        · rcases dump_fail_cases P h fuel a b obj r hr hrok with hc | ⟨q, _⟩
          · rcases hleaf hc with ⟨_, q2⟩ | ⟨q1, _⟩
            · rcases q2 with q2 | ⟨q2, _⟩
              · omega
              · exact absurd q2 hl
            · exact Or.inl q1
          · exact absurd q hl

/-- The dump on a session with neither snappy flag set: the result of the
dispatcher on the session behind the header. -/
theorem encoder_dump_eq (P : Protocol) (h : Host) (fuel : Nat) (enc : srl_encoder_t) (root : Nat)
    (hs : SRL_ENC_HAVE_OPTION enc
      (P.SRL_F_COMPRESS_SNAPPY ||| P.SRL_F_COMPRESS_SNAPPY_INCREMENTAL) = false) :
    srl_encoder_dump P h fuel enc root =
      (match (srl_dump_pyobj P h fuel (srl_write_header P h enc) root).1 with
        | Ret.ok => DumpRet.bytes (srl_dump_pyobj P h fuel (srl_write_header P h enc) root).2.buf
        | Ret.fail e => DumpRet.fail e
        | Ret.nofuel => DumpRet.nofuel,
       (srl_dump_pyobj P h fuel (srl_write_header P h enc) root).2) := by
  unfold srl_encoder_dump
  simp only [hs, Bool.not_false, if_true]
  rcases srl_dump_pyobj P h fuel (srl_write_header P h enc) root with ⟨r, b⟩
  cases r <;> rfl

theorem encoder_dump_fail (P : Protocol) (h : Host) (fuel : Nat) (enc : srl_encoder_t)
    (root : Nat) (e : PyErr)
    (hs : SRL_ENC_HAVE_OPTION enc
      (P.SRL_F_COMPRESS_SNAPPY ||| P.SRL_F_COMPRESS_SNAPPY_INCREMENTAL) = false) :
    (srl_encoder_dump P h fuel enc root).1 = DumpRet.fail e ↔
      (srl_dump_pyobj P h fuel (srl_write_header P h enc) root).1 = Ret.fail e := by
  rw [encoder_dump_eq P h fuel enc root hs]
  rcases srl_dump_pyobj P h fuel (srl_write_header P h enc) root with ⟨r, b⟩
  cases r <;> simp

/-! ## C10: unsupported values are rejected, and only they -/

theorem trav_items_sound (h : Host) (w : List Nat → List Nat → Nat → TravRet)
    (hw : ∀ seen order x, TravSound h order (w seen order x)) :
    ∀ (items seen order : List Nat), TravSound h order (trav_items w items seen order) := by
  intro items
  induction items with
  | nil =>
    intro seen order
    exact ⟨[], by simp, by simp⟩
  | cons x xs ih =>
    intro seen order
    have hx := hw seen order x
    simp only [trav_items]
    cases hwx : w seen order x with
    | unsupported o y => rw [hwx] at hx; exact hx
    | nofuel => trivial
    | done s1 o1 =>
      rw [hwx] at hx
      simp only []
      obtain ⟨mid, e1, e2⟩ := hx
      have := ih s1 o1
      cases ht : trav_items w xs s1 o1 with
      | unsupported o y =>
        rw [ht] at this
        obtain ⟨k1, mid2, k2, k3⟩ := this
        refine ⟨k1, mid ++ mid2, by rw [k2, e1, List.append_assoc], ?_⟩
        intro z hz
        rcases List.mem_append.1 hz with hz | hz
        · exact e2 z hz
        · exact k3 z hz
      | nofuel => trivial
      | done s2 o2 =>
        rw [ht] at this
        obtain ⟨mid2, k2, k3⟩ := this
        refine ⟨mid ++ mid2, by rw [k2, e1, List.append_assoc], ?_⟩
        intro z hz
        rcases List.mem_append.1 hz with hz | hz
        · exact e2 z hz
        · exact k3 z hz

/-- The traversal stops at an unsupported value, and only passes supported
ones. -/
theorem traversal_sound (h : Host) :
    ∀ (fuel : Nat) (seen order : List Nat) (obj : Nat),
      TravSound h order (traversal h fuel seen order obj) := by
  intro fuel
  induction fuel with
  | zero => intro seen order obj; trivial
  | succ fuel ih =>
    intro seen order obj
    simp only [traversal]
    by_cases hn : srl_classify (h.heap obj) = srl_type.NONE
    · rw [if_pos hn]
      exact ⟨hn, [], by simp, by simp⟩
    · rw [if_neg hn]
      have hone : ∀ s, TravSound h order (TravRet.done s (order ++ [obj])) := by
        intro s
        refine ⟨[obj], rfl, ?_⟩
        intro y hy
        simp only [List.mem_singleton] at hy
        rw [hy]; exact hn
      by_cases hl : srl_classify (h.heap obj) = srl_type.LIST
      · rw [if_pos hl]
        by_cases hs : obj ∈ seen
        · rw [if_pos hs]; exact hone seen
        · rw [if_neg hs]
          have := trav_items_sound h (traversal h fuel) ih (PyList_items (h.heap obj))
            (obj :: seen) (order ++ [obj])
          cases ht : trav_items (traversal h fuel) (PyList_items (h.heap obj)) (obj :: seen)
              (order ++ [obj]) with
          | unsupported o y =>
            rw [ht] at this
            obtain ⟨k1, mid, k2, k3⟩ := this
            refine ⟨k1, obj :: mid, by rw [k2]; simp, ?_⟩
            intro z hz
            rcases List.mem_cons.1 hz with hz | hz
            · rw [hz]; exact hn
            · exact k3 z hz
          | nofuel => trivial
          | done s2 o2 =>
            rw [ht] at this
            obtain ⟨mid, k2, k3⟩ := this
            refine ⟨obj :: mid, by rw [k2]; simp, ?_⟩
            intro z hz
            rcases List.mem_cons.1 hz with hz | hz
            · rw [hz]; exact hn
            · exact k3 z hz
      · rw [if_neg hl]; exact hone seen

theorem trav_items_agree (P : Protocol) (h : Host) (fuel : Nat)
    (hd : ∀ (seen : List Nat) (a : srl_encoder_t) (obj : Nat),
      a.max_recursion_depth = 0 → SeenLists h a seen →
      TravAgrees h (traversal h fuel seen (a.visits.map Visit.obj) obj)
        (srl_dump_pyobj P h fuel a obj).1 (srl_dump_pyobj P h fuel a obj).2) :
    ∀ (items : List Nat) (seen : List Nat) (e : srl_encoder_t),
      e.max_recursion_depth = 0 → SeenLists h e seen →
      TravAgrees h (trav_items (traversal h fuel) items seen (e.visits.map Visit.obj))
        (srl_dump_items (srl_dump_pyobj P h fuel) items e).1
        (srl_dump_items (srl_dump_pyobj P h fuel) items e).2 := by
  intro items
  induction items with
  | nil =>
    intro seen e _ h3
    exact ⟨rfl, h3, rfl⟩
  | cons x xs ih =>
    intro seen e h1 h3
    have hx := hd seen e x h1 h3
    have hmx := (dump_mono P h fuel e x).2.2.2.2.2.2
    simp only [srl_dump_items, trav_items]
    rcases hr : srl_dump_pyobj P h fuel e x with ⟨r, c⟩
    rw [hr] at hx hmx
    simp only [] at hx hmx
    cases hw : traversal h fuel seen (e.visits.map Visit.obj) x with
    | unsupported o y =>
      rw [hw] at hx
      obtain ⟨k1, k2⟩ := hx
      subst k1
      exact ⟨rfl, k2⟩
    | nofuel =>
      rw [hw] at hx
      simp only [TravAgrees] at hx
      subst hx
      rfl
    | done s1 o1 =>
      rw [hw] at hx
      obtain ⟨k1, k2, k3⟩ := hx
      subst k1
      simp only []
      rw [← k3]
      exact ih s1 c (by rw [hmx, h1]) k2

/-- The dispatcher agrees with the traversal of the specification, in a
reliable host in which no transcoding fails and without a depth limit. -/
theorem trav_agrees (P : Protocol) (h : Host) (hh : h.reliable)
    (hu : ∀ x, h.heap x ≠ PyObject.pyunicode none) :
    ∀ (fuel : Nat) (seen : List Nat) (a : srl_encoder_t) (obj : Nat),
      a.max_recursion_depth = 0 → SeenLists h a seen →
      TravAgrees h (traversal h fuel seen (a.visits.map Visit.obj) obj)
        (srl_dump_pyobj P h fuel a obj).1 (srl_dump_pyobj P h fuel a obj).2 := by
  intro fuel
  induction fuel with
  | zero =>
    intro seen a obj _ _
    rfl
  | succ fuel ih =>
    intro seen a obj h1 h3
    rcases hr : srl_dump_pyobj P h (fuel + 1) a obj with ⟨r, b⟩
    simp only [traversal]
    have hvis : (a.visits ++ [visit_of h a obj]).map Visit.obj =
        a.visits.map Visit.obj ++ [obj] := by
      simp [visit_of]
    by_cases hn : srl_classify (h.heap obj) = srl_type.NONE
    · rw [if_pos hn]
      have hl : srl_classify (h.heap obj) ≠ srl_type.LIST := by rw [hn]; simp
      have hne : r ≠ Ret.ok := by
        intro hrok
        subst hrok
        exact (dump_scalar_ok P h (fuel + 1) a b obj hl hr).1 hn
      obtain ⟨_, q⟩ := dump_scalar_fail P h fuel a b obj r hl hr hne
      obtain ⟨q1, q2, _, q4⟩ := q hh h1
      refine ⟨?_, by rw [q2, hvis], visit_of h a obj, by rw [q2]; simp, by rw [q1]; rfl⟩
      rcases q4 with ⟨_, q5⟩ | ⟨q5, _⟩
      · exact q5
      · exact absurd q5 (hu obj)
    · rw [if_neg hn]
      by_cases hl : srl_classify (h.heap obj) = srl_type.LIST
      · rw [if_pos hl]
        by_cases hs : obj ∈ seen
        · rw [if_pos hs]
          have hf := (h3 obj hl).2 hs
          cases hfo : srl_find_obj a obj with
          | none => exact absurd hfo hf
          | some p =>
            obtain ⟨_, q2, q3⟩ := dump_refp_cases P h fuel a b obj p r hl hfo hr
            have hrok := q2 hh h1
            obtain ⟨_, e2, e3, _⟩ := q3 hrok
            refine ⟨hrok, ?_, by rw [e2, hvis]⟩
            intro x hx
            rw [find_congr a b e3]
            exact h3 x hx
        · rw [if_neg hs]
          have hfo : srl_find_obj a obj = none := by
            by_contra hne
            exact hs ((h3 obj hl).1 hne)
          rcases dump_list_cases P h fuel a b obj r hl hfo hr with
            ⟨e, e1, ho, hi, hb⟩ | ⟨_, _, q⟩
          · have hse := seenlists_store h a e obj seen h3 ho.2.1
            have hev : e.visits.map Visit.obj = a.visits.map Visit.obj ++ [obj] := by
              rw [ho.2.2.1]; simp
            have := trav_items_agree P h fuel ih (PyList_items (h.heap obj)) (obj :: seen) e
              (by rw [ho.2.2.2.2.2.2.1, h1]) hse
            rw [hi, hev] at this
            simp only [] at this
            cases hw : trav_items (traversal h fuel) (PyList_items (h.heap obj)) (obj :: seen)
                (a.visits.map Visit.obj ++ [obj]) with
            | unsupported o y =>
              rw [hw] at this
              obtain ⟨k1, k2, k3⟩ := this
              exact ⟨k1, by rw [hb]; exact k2, by rw [hb]; exact k3⟩
            | nofuel =>
              rw [hw] at this
              exact this
            | done s1 o1 =>
              rw [hw] at this
              obtain ⟨k1, k2, k3⟩ := this
              refine ⟨k1, ?_, by rw [hb]; exact k3⟩
              intro x hx
              rw [hb]
              exact k2 x hx
          · exact absurd h1 (q hh)
      · rw [if_neg hl]
        by_cases hrok : r = Ret.ok
        · subst hrok
          obtain ⟨_, _, _, e4, e5, _⟩ := dump_scalar_ok P h (fuel + 1) a b obj hl hr
          refine ⟨rfl, ?_, by rw [e4, hvis]⟩
          intro x hx
          split at e5
          · rw [find_store a b obj a.pos x e5]
            by_cases hxo : obj = x
            · subst hxo; exact absurd hx hl
            · rw [if_neg hxo]; exact h3 x hx
          · rw [find_congr a b e5]; exact h3 x hx
        · obtain ⟨_, q⟩ := dump_scalar_fail P h fuel a b obj r hl hr hrok
          obtain ⟨_, _, _, q4⟩ := q hh h1
          rcases q4 with ⟨q5, _⟩ | ⟨q5, _⟩
          · exact absurd q5 hn
          · exact absurd q5 (hu obj)

/-- C10: on a fresh session with neither snappy flag set and
`max_recursion_depth = 0`, in a host where no allocation fails, the recursion
probe never refuses and no transcoding fails, the dump is compared with
`traversal`, the depth-first, left-to-right traversal of the root value that
does not descend into a list object already visited.  Both return as soon as
the fuel exceeds the number of list objects of the heap, and one runs out of
fuel exactly when the other does.  The dump fails if and only if the traversal
reaches a value classified `NONE`.  When the traversal reaches such a value
`x`, having passed the values `order` (all of them supported): the failure is
the not-implemented error for the type of `x`; the dispatcher has been called
on the values of `order` and then on `x`, in this order, and on no value
behind `x`; and the write position is the one at which `x` was dispatched, so
that nothing is encoded behind it.  When the traversal comes to its end, all
the values passed are supported, the dump returns the buffer, and the
dispatcher has been called on the values passed, in this order. -/
theorem unsupported_rejected (P : Protocol) (h : Host) (fuel : Nat)
    (args : srl_encoder_ctor_args) (root : Nat) (hh : h.reliable)
    (hu : ∀ x, h.heap x ≠ PyObject.pyunicode none)
    (hs : SRL_ENC_HAVE_OPTION (fresh_session P args)
      (P.SRL_F_COMPRESS_SNAPPY ||| P.SRL_F_COMPRESS_SNAPPY_INCREMENTAL) = false)
    (hmax : args.max_recursion_depth = 0) :
    (∀ dom : Finset Nat, (∀ x, srl_classify (h.heap x) = srl_type.LIST → x ∈ dom) →
      dom.card < fuel →
      (srl_encoder_dump P h fuel (fresh_session P args) root).1 ≠ DumpRet.nofuel ∧
      traversal h fuel [] [] root ≠ TravRet.nofuel) ∧
    ((srl_encoder_dump P h fuel (fresh_session P args) root).1 = DumpRet.nofuel ↔
      traversal h fuel [] [] root = TravRet.nofuel) ∧
    ((∃ e, (srl_encoder_dump P h fuel (fresh_session P args) root).1 = DumpRet.fail e) ↔
      ∃ order x, traversal h fuel [] [] root = TravRet.unsupported order x) ∧
    (∀ order x, traversal h fuel [] [] root = TravRet.unsupported order x →
      srl_classify (h.heap x) = srl_type.NONE ∧
      (∀ y ∈ order, srl_classify (h.heap y) ≠ srl_type.NONE) ∧
      (srl_encoder_dump P h fuel (fresh_session P args) root).1 =
        DumpRet.fail (PyErr.NotImplementedError_type (tp_name (h.heap x))) ∧
      (srl_encoder_dump P h fuel (fresh_session P args) root).2.visits.map Visit.obj =
        order ++ [x] ∧
      ∃ v, (srl_encoder_dump P h fuel (fresh_session P args) root).2.visits.getLast? = some v ∧
        (srl_encoder_dump P h fuel (fresh_session P args) root).2.buf.length = v.ofs) ∧
    (∀ seen order, traversal h fuel [] [] root = TravRet.done seen order →
      (∀ y ∈ order, srl_classify (h.heap y) ≠ srl_type.NONE) ∧
      (srl_encoder_dump P h fuel (fresh_session P args) root).1 =
        DumpRet.bytes (srl_encoder_dump P h fuel (fresh_session P args) root).2.buf ∧
      (srl_encoder_dump P h fuel (fresh_session P args) root).2.visits.map Visit.obj =
        order) := by
  obtain ⟨w1, w2, w3⟩ := header_state P h args
  have hseen : SeenLists h (srl_write_header P h (fresh_session P args)) [] := by
    intro x _
    unfold srl_find_obj
    rw [w1]
    simp
  have hag := trav_agrees P h hh hu fuel [] (srl_write_header P h (fresh_session P args)) root
    (by rw [w3]; exact hmax) hseen
  rw [w2, List.map_nil] at hag
  have hsound := traversal_sound h fuel [] [] root
  rw [encoder_dump_eq P h fuel (fresh_session P args) root hs]
  rcases hr : srl_dump_pyobj P h fuel (srl_write_header P h (fresh_session P args)) root
    with ⟨r, b⟩
  rw [hr] at hag
  simp only [] at hag ⊢
  have hterm : ∀ dom : Finset Nat, (∀ x, srl_classify (h.heap x) = srl_type.LIST → x ∈ dom) →
      dom.card < fuel → r ≠ Ret.nofuel := by
    intro dom hdom hlt
    have hfu := dump_fuel P h dom hdom fuel (srl_write_header P h (fresh_session P args)) root
      (lt_of_le_of_lt (by unfold unseen; exact Finset.card_le_card (Finset.filter_subset _ _)) hlt)
    rw [hr] at hfu
    exact hfu
  cases hw : traversal h fuel [] [] root with
  | unsupported o y =>
    rw [hw] at hag hsound
    obtain ⟨k1, k2, k3⟩ := hag
    obtain ⟨s1, mid, s2, s3⟩ := hsound
    subst k1
    rw [List.nil_append] at s2
    subst s2
    refine ⟨fun dom hdom hlt => ⟨by simp, by simp⟩, by simp, ?_, ?_, by simp⟩
    · exact ⟨fun _ => ⟨o, y, rfl⟩, fun _ => ⟨_, rfl⟩⟩
    · intro order x hox
      simp only [TravRet.unsupported.injEq] at hox
      obtain ⟨e1, e2⟩ := hox
      subst e1
      subst e2
      exact ⟨s1, s3, rfl, k2, k3⟩
  | nofuel =>
    rw [hw] at hag
    simp only [TravAgrees] at hag
    subst hag
    refine ⟨fun dom hdom hlt => absurd rfl (hterm dom hdom hlt), by simp, ?_, by simp, by simp⟩
    simp
  | done s1 o1 =>
    rw [hw] at hag hsound
    obtain ⟨k1, _, k3⟩ := hag
    obtain ⟨mid, s2, s3⟩ := hsound
    subst k1
    rw [List.nil_append] at s2
    subst s2
    refine ⟨fun dom hdom hlt => ⟨by simp, by simp⟩, by simp, by simp, by simp, ?_⟩
    intro seen order hox
    simp only [TravRet.done.injEq] at hox
    obtain ⟨_, e2⟩ := hox
    subst e2
    exact ⟨s3, rfl, k3⟩

/-- C10, witness: the list `[5, 5, d]` with `d` of an unsupported type `dict`
and both items `5` the same object: the traversal passes the list and twice the
integer and reaches `d`; the dump fails with the error for `dict`, the
dispatcher having been called on the list, twice on the integer, and on `d`. -/
theorem unsupported_rejected_witness :
    traversal (host_of fun x => if x = 0 then PyObject.pylist [1, 1, 2]
        else if x = 1 then PyObject.pyint 5 else PyObject.other "dict") 2 [] [] 0 =
      TravRet.unsupported [0, 1, 1] 2 ∧
    (srl_encoder_dump srl_v1 (host_of fun x => if x = 0 then PyObject.pylist [1, 1, 2]
        else if x = 1 then PyObject.pyint 5 else PyObject.other "dict") 2
        (fresh_session srl_v1 (default_encoder_ctor_args srl_v1)) 0).1 =
      DumpRet.fail (PyErr.NotImplementedError_type "dict") ∧
    (srl_encoder_dump srl_v1 (host_of fun x => if x = 0 then PyObject.pylist [1, 1, 2]
        else if x = 1 then PyObject.pyint 5 else PyObject.other "dict") 2
        (fresh_session srl_v1 (default_encoder_ctor_args srl_v1)) 0).2.visits.map Visit.obj =
      [0, 1, 1] ++ [2] :=
  have ht : traversal (host_of fun x => if x = 0 then PyObject.pylist [1, 1, 2]
        else if x = 1 then PyObject.pyint 5 else PyObject.other "dict") 2 [] [] 0 =
      TravRet.unsupported [0, 1, 1] 2 := by decide
  ⟨ht,
    ((unsupported_rejected srl_v1 (host_of fun x => if x = 0 then PyObject.pylist [1, 1, 2]
        else if x = 1 then PyObject.pyint 5 else PyObject.other "dict") 2
      (default_encoder_ctor_args srl_v1) 0 ⟨fun _ => rfl, fun _ => rfl, rfl⟩
      (by intro x; simp only [host_of]; split <;> [simp; (split <;> simp)])
      (by decide) rfl).2.2.2.1 [0, 1, 1] 2 ht).2.2.1,
    ((unsupported_rejected srl_v1 (host_of fun x => if x = 0 then PyObject.pylist [1, 1, 2]
        else if x = 1 then PyObject.pyint 5 else PyObject.other "dict") 2
      (default_encoder_ctor_args srl_v1) 0 ⟨fun _ => rfl, fun _ => rfl, rfl⟩
      (by intro x; simp only [host_of]; split <;> [simp; (split <;> simp)])
      (by decide) rfl).2.2.2.1 [0, 1, 1] 2 ht).2.2.2.1⟩

/-! ## C12: the ceiling on the recursion depth -/

/-- C12: the recursion ceiling, for a dump on a fresh session in a host whose
recursion probe never refuses.  (1) With `max_recursion_depth = 0` no dump
fails with the error of the ceiling, nor with the error of the probe.
(2) With `max_recursion_depth = m > 0` and no snappy flag, the dump is compared
with `ceiling_walk`, the traversal in the words of the specification (a value
enclosed in `j` lists is dispatched at the depth `2 j + 1`, a list enclosed in
`j` lists runs its list emitter at `2 j + 2`, also when it is emitted as
`REFP`; a `hit` is an entered depth `>= m`): if the dump fails with the error
of the ceiling then the traversal hits; if the traversal hits then the dump
fails, with the error of the ceiling or, before the depth is entered, with an
allocation, transcoding or unsupported-type error; and when no allocation
fails and every value is supported, the dump fails with the error of the
ceiling if and only if the traversal hits, and neither runs out of fuel once
the fuel exceeds the number of lists.  (3) With `m = 5` the dump of a chain of
ten nested one-element lists fails with the error of the ceiling; it returns
no bytes. -/
theorem recursion_ceiling (P : Protocol) (h : Host) (fuel : Nat) (args : srl_encoder_ctor_args)
    (root : Nat) :
    (h.recursion_limit = none → args.max_recursion_depth = 0 →
      ∀ e, (srl_encoder_dump P h fuel (fresh_session P args) root).1 = DumpRet.fail e →
        (∀ n, e ≠ PyErr.RuntimeError_max_depth n) ∧ (∀ msg, e ≠ PyErr.RuntimeError_host msg)) ∧
    (h.recursion_limit = none → args.max_recursion_depth ≠ 0 →
      SRL_ENC_HAVE_OPTION (fresh_session P args)
        (P.SRL_F_COMPRESS_SNAPPY ||| P.SRL_F_COMPRESS_SNAPPY_INCREMENTAL) = false →
      ((srl_encoder_dump P h fuel (fresh_session P args) root).1 =
          DumpRet.fail (PyErr.RuntimeError_max_depth args.max_recursion_depth) →
        ceiling_walk h args.max_recursion_depth fuel 0 [] root = WalkRet.hit) ∧
      (ceiling_walk h args.max_recursion_depth fuel 0 [] root = WalkRet.hit →
        (srl_encoder_dump P h fuel (fresh_session P args) root).1 =
          DumpRet.fail (PyErr.RuntimeError_max_depth args.max_recursion_depth) ∨
        ∃ e, (srl_encoder_dump P h fuel (fresh_session P args) root).1 = DumpRet.fail e ∧
          MiscFail h (Ret.fail e)) ∧
      (h.reliable → (∀ x, srl_classify (h.heap x) ≠ srl_type.NONE ∧
          h.heap x ≠ PyObject.pyunicode none) →
        ((srl_encoder_dump P h fuel (fresh_session P args) root).1 =
            DumpRet.fail (PyErr.RuntimeError_max_depth args.max_recursion_depth) ↔
          ceiling_walk h args.max_recursion_depth fuel 0 [] root = WalkRet.hit) ∧
        (∀ dom : Finset Nat, (∀ x, srl_classify (h.heap x) = srl_type.LIST → x ∈ dom) →
          dom.card < fuel →
          (srl_encoder_dump P h fuel (fresh_session P args) root).1 ≠ DumpRet.nofuel ∧
          ceiling_walk h args.max_recursion_depth fuel 0 [] root ≠ WalkRet.nofuel))) ∧
    (srl_encoder_dump srl_v1
        (host_of fun x => if x < 10 then PyObject.pylist [x + 1] else PyObject.pyint 0) 12
        (fresh_session srl_v1 { flags := 1, max_recursion_depth := 5 }) 0).1 =
      DumpRet.fail (PyErr.RuntimeError_max_depth 5) := by
  refine ⟨?_, ?_, by decide⟩
  · intro hp hmax e he
    by_cases hs : SRL_ENC_HAVE_OPTION (fresh_session P args)
        (P.SRL_F_COMPRESS_SNAPPY ||| P.SRL_F_COMPRESS_SNAPPY_INCREMENTAL) = false
    · rw [encoder_dump_fail P h fuel _ root e hs] at he
      rcases hr : srl_dump_pyobj P h fuel (srl_write_header P h (fresh_session P args)) root
        with ⟨r, b⟩
      rw [hr] at he
      simp only [] at he
      subst he
      obtain ⟨_, k2, k3⟩ := dump_errors P h fuel _ b root e hr
      obtain ⟨_, _, w3⟩ := header_state P h args
      refine ⟨?_, ?_⟩
      · intro n hn
        have := (k2 n hn).1
        rw [w3] at this
        exact this hmax
      · intro msg hmsg
        exact k3 msg hmsg hp
    · have hd : srl_encoder_dump P h fuel (fresh_session P args) root =
          (DumpRet.fail PyErr.NotImplementedError_snappy, fresh_session P args) := by
        unfold srl_encoder_dump
        simp only [Bool.not_eq_false] at hs
        simp [hs]
      rw [hd] at he
      simp only [DumpRet.fail.injEq] at he
      subst he
      exact ⟨by simp, by simp⟩
  · intro hp hmax hs
    obtain ⟨w1, _, w3⟩ := header_state P h args
    have w4 := (srl_write_header_fields P h (fresh_session P args)).2.2.2.2.2.1
    have hseen : SeenLists h (srl_write_header P h (fresh_session P args)) [] := by
      intro x _
      unfold srl_find_obj
      rw [w1]
      simp
    have hag := walk_agrees P h args.max_recursion_depth hp hmax fuel 0 []
      (srl_write_header P h (fresh_session P args)) root w3 (by rw [w4]; rfl) hseen
    rw [encoder_dump_fail P h fuel _ root _ hs]
    rcases hr : srl_dump_pyobj P h fuel (srl_write_header P h (fresh_session P args)) root
      with ⟨r, b⟩
    rw [hr] at hag
    simp only [] at hag ⊢
    have hdir1 : r = Ret.fail (PyErr.RuntimeError_max_depth args.max_recursion_depth) →
        ceiling_walk h args.max_recursion_depth fuel 0 [] root = WalkRet.hit := by
      intro hrf
      rcases hag with hmisc | hw
      · exact absurd hrf ((misc_not_ok h r hmisc).2.2 _)
      · cases hwk : ceiling_walk h args.max_recursion_depth fuel 0 [] root with
        | hit => rfl
        | nofuel =>
          rw [hwk] at hw
          simp only [] at hw
          rw [hw] at hrf
          cases hrf
        | done s =>
          rw [hwk] at hw
          simp only [] at hw
          rw [hw.1] at hrf
          cases hrf
    have hdir2 : ceiling_walk h args.max_recursion_depth fuel 0 [] root = WalkRet.hit →
        r = Ret.fail (PyErr.RuntimeError_max_depth args.max_recursion_depth) ∨ MiscFail h r := by
      intro hwk
      rcases hag with hmisc | hw
      · exact Or.inr hmisc
      · rw [hwk] at hw
        exact Or.inl hw
    refine ⟨hdir1, ?_, ?_⟩
    · intro hwk
      rcases hdir2 hwk with q | q
      · exact Or.inl q
      · right
        obtain ⟨q1, q2, _⟩ := misc_not_ok h r q
        rw [encoder_dump_eq P h fuel _ root hs, hr]
        cases r with
        | ok => exact absurd rfl q1
        | nofuel => exact absurd rfl q2
        | fail e => exact ⟨e, rfl, q⟩
    · intro hh hsup
      have hnomisc : ¬ MiscFail h r := by
        rintro ⟨x, q⟩
        rcases q with ⟨_, q⟩ | ⟨_, q⟩ | ⟨_, q⟩
        · exact q hh
        · exact (hsup x).2 q
        · exact (hsup x).1 q
      refine ⟨⟨hdir1, ?_⟩, ?_⟩
      · intro hwk
        rcases hdir2 hwk with q | q
        · exact q
        · exact absurd q hnomisc
      · intro dom hdom hlt
        have hfu := dump_fuel P h dom hdom fuel (srl_write_header P h (fresh_session P args)) root
          (lt_of_le_of_lt (by unfold unseen; exact Finset.card_le_card (Finset.filter_subset _ _))
            hlt)
        rw [hr] at hfu
        simp only [] at hfu
        rw [encoder_dump_eq P h fuel _ root hs, hr]
        refine ⟨?_, ?_⟩
        · cases r with
          | ok => simp
          | fail e => simp
          | nofuel => exact absurd rfl hfu
        · intro hwk
          rcases hag with q | q
          · exact hnomisc q
          · rw [hwk] at q
            exact hfu q

/-- C12, witness: the chain of ten nested one-element lists under the ceiling
5: the dump fails with the error of the ceiling, so the traversal of the
specification enters a depth of 5 or more. -/
theorem recursion_ceiling_witness :
    ceiling_walk (host_of fun x => if x < 10 then PyObject.pylist [x + 1] else PyObject.pyint 0)
      5 12 0 [] 0 = WalkRet.hit :=
  ((recursion_ceiling srl_v1
    (host_of fun x => if x < 10 then PyObject.pylist [x + 1] else PyObject.pyint 0) 12
    { flags := 1, max_recursion_depth := 5 } 0).2.1 rfl (by decide) (by decide)).1 (by decide)

/-! ## C13, C14: the recursion depth after a call -/

theorem depth_left_misc (h : Host) (x : Nat) (r : Ret) (ho : OtherFail h x r) :
    depth_left r = 0 := by
  rcases ho with ⟨h1, _⟩ | ⟨h1, _⟩ | ⟨h1, _⟩ <;> (subst h1; rfl)

theorem depth_after_items (dump : srl_encoder_t → Nat → Ret × srl_encoder_t)
    (hd : ∀ a x, (dump a x).2.recursion_depth = a.recursion_depth + depth_left (dump a x).1 ∧
      (dump a x).2.py_recursion_depth = a.py_recursion_depth + depth_left (dump a x).1) :
    ∀ (items : List Nat) (e : srl_encoder_t),
      (srl_dump_items dump items e).2.recursion_depth =
        e.recursion_depth + depth_left (srl_dump_items dump items e).1 ∧
      (srl_dump_items dump items e).2.py_recursion_depth =
        e.py_recursion_depth + depth_left (srl_dump_items dump items e).1 := by
  intro items
  induction items with
  | nil => intro e; exact ⟨rfl, rfl⟩
  | cons x xs ih =>
    intro e
    have hx := hd e x
    simp only [srl_dump_items]
    rcases hr : dump e x with ⟨r, c⟩
    rw [hr] at hx
    simp only [] at hx
    cases r with
    | ok =>
      simp only [depth_left, Nat.add_zero] at hx
      have := ih c
      simp only []
      rw [hx.1, hx.2] at this
      exact this
    | fail err => exact hx
    | nofuel => exact hx

/-- The depth counters after a call of the dispatcher, whatever its result:
their values before the call, plus one after the failure on the ceiling. -/
theorem depth_after_call (P : Protocol) (h : Host) :
    ∀ (fuel : Nat) (a : srl_encoder_t) (obj : Nat),
      (srl_dump_pyobj P h fuel a obj).2.recursion_depth =
        a.recursion_depth + depth_left (srl_dump_pyobj P h fuel a obj).1 ∧
      (srl_dump_pyobj P h fuel a obj).2.py_recursion_depth =
        a.py_recursion_depth + depth_left (srl_dump_pyobj P h fuel a obj).1 := by
  intro fuel
  induction fuel with
  | zero => intro a obj; exact ⟨rfl, rfl⟩
  | succ fuel ih =>
    intro a obj
    rcases hr : srl_dump_pyobj P h (fuel + 1) a obj with ⟨r, b⟩
    simp only []
    have hloop : ∀ e e1, ListOpened P h a obj e →
        srl_dump_items (srl_dump_pyobj P h fuel) (PyList_items (h.heap obj)) e = (r, e1) →
        b = SRL_LEAVE_RECURSIVE_CALL (SRL_LEAVE_RECURSIVE_CALL e1) →
        b.recursion_depth = a.recursion_depth + depth_left r ∧
        b.py_recursion_depth = a.py_recursion_depth + depth_left r := by
      intro e e1 ho hi hb
      have := depth_after_items (srl_dump_pyobj P h fuel) ih (PyList_items (h.heap obj)) e
      rw [hi] at this
      simp only [] at this
      rw [hb]
      simp only [SRL_LEAVE_RECURSIVE_CALL, this.1, this.2, ho.2.2.2.1, ho.2.2.2.2.1]
      constructor <;> omega
    by_cases hrok : r = Ret.ok
    · subst hrok
      simp only [depth_left, Nat.add_zero]
      by_cases hl : srl_classify (h.heap obj) = srl_type.LIST
      · cases hf : srl_find_obj a obj with
        | some p =>
          obtain ⟨_, _, q⟩ := dump_refp_cases P h fuel a b obj p Ret.ok hl hf hr
          obtain ⟨_, _, _, e4, e5, _⟩ := q rfl
          exact ⟨e4, e5⟩
        | none =>
          rcases dump_list_cases P h fuel a b obj Ret.ok hl hf hr with
            ⟨e, e1, ho, hi, hb⟩ | ⟨q, _⟩
          · simpa [depth_left] using hloop e e1 ho hi hb
          · exact absurd rfl q
      · obtain ⟨_, _, _, _, _, e6, e7, _⟩ := dump_scalar_ok P h (fuel + 1) a b obj hl hr
        exact ⟨e6, e7⟩
    · rcases dump_fail_cases P h fuel a b obj r hr hrok with hc | ⟨_, _, _, e, e1, ho, hi, hb⟩
      · cases hc with
        | probe1 h1 => exact ⟨rfl, rfl⟩
        | ceiling1 h1 h2 => exact ⟨rfl, rfl⟩
        | probe2 b h1 h2 h3 h4 h5 => exact ⟨h4, h5⟩
        | ceiling2 b h1 h2 h3 h4 h5 h6 => exact ⟨h5, h6⟩
        | other r b h1 h2 h3 h4 =>
          rw [depth_left_misc h obj r h1]
          exact ⟨h3, h4⟩
      · exact hloop e e1 ho hi hb

/-- C13: the depth is not balanced on the exit taken when the ceiling is
hit.  On a fresh session with `max_recursion_depth = 1` the dispatcher fails
on `True` with the ceiling error and leaves `recursion_depth = 1`, where it
was 0 before the call; and the dump of a chain of ten nested one-element
lists under the ceiling 5 fails with the ceiling error and leaves both
`recursion_depth` and the counter of the interpreter at 1. -/
theorem depth_unbalanced_after_ceiling :
    (srl_dump_pyobj srl_v1 (host_of fun _ => PyObject.pybool true) 1
        (fresh_session srl_v1 { flags := 0, max_recursion_depth := 1 }) 0).1 =
      Ret.fail (PyErr.RuntimeError_max_depth 1) ∧
    (srl_dump_pyobj srl_v1 (host_of fun _ => PyObject.pybool true) 1
        (fresh_session srl_v1 { flags := 0, max_recursion_depth := 1 }) 0).2.recursion_depth = 1 ∧
    (fresh_session srl_v1 { flags := 0, max_recursion_depth := 1 }).recursion_depth = 0 ∧
    (srl_encoder_dump srl_v1
        (host_of fun x => if x < 10 then PyObject.pylist [x + 1] else PyObject.pyint 0) 12
        (fresh_session srl_v1 { flags := 0, max_recursion_depth := 5 }) 0).1 =
      DumpRet.fail (PyErr.RuntimeError_max_depth 5) ∧
    (srl_encoder_dump srl_v1
        (host_of fun x => if x < 10 then PyObject.pylist [x + 1] else PyObject.pyint 0) 12
        (fresh_session srl_v1 { flags := 0, max_recursion_depth := 5 }) 0).2.recursion_depth = 1 ∧
    (srl_encoder_dump srl_v1
        (host_of fun x => if x < 10 then PyObject.pylist [x + 1] else PyObject.pyint 0) 12
        (fresh_session srl_v1 { flags := 0, max_recursion_depth := 5 }) 0).2.py_recursion_depth = 1 := by
  decide

theorem dump_ok_inner (P : Protocol) (h : Host) (fuel : Nat) (a b : srl_encoder_t)
    (obj : Nat) (hr : srl_dump_pyobj P h (fuel + 1) a obj = (Ret.ok, b)) :
    ∃ b2, b = SRL_LEAVE_RECURSIVE_CALL b2 ∧ b2.recursion_depth = a.recursion_depth + 1 ∧
      (srl_classify (h.heap obj) = srl_type.LIST →
        ∃ b3, b2 = SRL_LEAVE_RECURSIVE_CALL b3 ∧ b3.recursion_depth = a.recursion_depth + 2) := by
  have hr0 := hr
  simp only [srl_dump_pyobj] at hr
  rcases he : SRL_ENTER_RECURSIVE_CALL h a " while Sereal dumping object" with ⟨r1, a1⟩
  rw [he] at hr
  rcases enter_cases h a a1 _ r1 he with ⟨h1, h2, h3⟩ | ⟨h1, h2, h3⟩ | ⟨h1, h2, h3, h4⟩
  · subst h1
    subst h2
    simp only [find_entered, emitter_entered] at hr
    by_cases hl : srl_classify (h.heap obj) = srl_type.LIST
    · cases hf : srl_find_obj a obj with
      | some p =>
        simp only [hl, hf, srl_dump_switch, srl_dump_pylist, Option.map_some', Option.map_none',
          show (srl_type.LIST = srl_type.BOOL) = False from by simp, if_false] at hr
        rcases he2 : SRL_ENTER_RECURSIVE_CALL h { entered a with visits := (entered a).visits ++
            [{ obj := obj, ofs := (entered a).buf.length, prior := some (emitter_ofs h a obj p) }] }
            " serializing list"
          with ⟨r2, a2⟩
        rw [he2] at hr
        rcases enter_cases h _ a2 _ r2 he2 with ⟨k1, k2, k3⟩ | ⟨k1, k2, k3⟩ | ⟨k1, k2, k3, k4⟩
        · subst k1
          simp only [] at hr
          have hfp : (if (PyList_items (h.heap obj)).length > SRL_MASK_ARRAYREF_COUNT
              then ptr_succ p else p) = flag_ptr h obj p := rfl
          rw [hfp] at hr
          obtain ⟨_, _, _, _, _, f6, _⟩ := SRL_SET_FBIT_fields a2 (flag_ptr h obj p)
          rcases hv : srl_buf_cat_varint h
              (SRL_SET_FBIT a2 (flag_ptr h obj p)) P.SRL_HDR_REFP
              (ptr_diff h (flag_ptr h obj p) (SRL_SET_FBIT a2 (flag_ptr h obj p)).buf_start)
            with ⟨r3, a3⟩
          rw [hv] at hr
          simp only [Prod.mk.injEq] at hr
          obtain ⟨hr1, hr2⟩ := hr
          subst hr1
          obtain ⟨_, _, _, e4, _⟩ := emitted_varint h _ a3 _ _ hv
          have h3rd : a3.recursion_depth = a.recursion_depth + 2 := by
            rw [e4, f6, k2]; simp [entered]
          refine ⟨SRL_LEAVE_RECURSIVE_CALL a3, hr2.symm, ?_, fun _ => ⟨a3, rfl, h3rd⟩⟩
          simp [SRL_LEAVE_RECURSIVE_CALL, h3rd]
        · subst k1; simp at hr
        · subst k1; simp at hr
      | none =>
        rcases dump_list_cases P h fuel a b obj Ret.ok hl hf hr0 with
          ⟨e, e1, ho, hi, hb⟩ | ⟨q, _⟩
        · have := (depth_after_items (srl_dump_pyobj P h fuel) (depth_after_call P h fuel)
            (PyList_items (h.heap obj)) e).1
          rw [hi] at this
          simp only [depth_left, Nat.add_zero] at this
          have h1rd : e1.recursion_depth = a.recursion_depth + 2 := by
            rw [this, ho.2.2.2.1]
          refine ⟨SRL_LEAVE_RECURSIVE_CALL e1, hb, ?_, fun _ => ⟨e1, rfl, h1rd⟩⟩
          simp [SRL_LEAVE_RECURSIVE_CALL, h1rd]
        · exact absurd rfl q
    · have key : ∀ (a3 : srl_encoder_t) (pos : Option Ptr) (r2 : Ret) (b2 : srl_encoder_t),
          srl_dump_switch P h (srl_dump_pyobj P h fuel) (srl_classify (h.heap obj)) a3 obj pos
            = (r2, b2) → r2 = Ret.ok → SRL_LEAVE_RECURSIVE_CALL b2 = b →
          a3.recursion_depth = a.recursion_depth + 1 →
          ∃ b2, b = SRL_LEAVE_RECURSIVE_CALL b2 ∧ b2.recursion_depth = a.recursion_depth + 1 ∧
            (srl_classify (h.heap obj) = srl_type.LIST →
              ∃ b3, b2 = SRL_LEAVE_RECURSIVE_CALL b3 ∧
                b3.recursion_depth = a.recursion_depth + 2) := by
        intro a3 pos r2 b2 hsw e1 e2 e3
        subst e1
        rcases switch_scalar_cases P h _ a3 b2 obj pos Ret.ok hl hsw with ⟨_, _, _, q⟩ | ⟨_, q⟩
        · exact ⟨b2, e2.symm, by rw [q.2.2.2.1, e3], fun hc => absurd hc hl⟩
        · simp at q
      by_cases hb : srl_classify (h.heap obj) = srl_type.BOOL
      · simp only [hb, if_true, Option.map_none'] at hr
        rw [← hb] at hr
        rcases hsw : srl_dump_switch P h (srl_dump_pyobj P h fuel) (srl_classify (h.heap obj))
          { entered a with visits := (entered a).visits ++
            [{ obj := obj, ofs := (entered a).buf.length, prior := none }] }
          obj none with ⟨r2, b2⟩
        rw [hsw] at hr
        simp only [Prod.mk.injEq] at hr
        exact key _ none r2 b2 hsw hr.1 hr.2 rfl
      · simp only [hb, if_false] at hr
        cases hf : srl_find_obj a obj with
        | some p =>
          simp only [hf, Option.map_some'] at hr
          rcases hsw : srl_dump_switch P h (srl_dump_pyobj P h fuel) (srl_classify (h.heap obj))
            { entered a with visits := (entered a).visits ++
              [{ obj := obj, ofs := (entered a).buf.length,
                 prior := some (emitter_ofs h a obj p) }] }
            obj (some p) with ⟨r2, b2⟩
          rw [hsw] at hr
          simp only [Prod.mk.injEq] at hr
          exact key _ (some p) r2 b2 hsw hr.1 hr.2 rfl
        | none =>
          simp only [hf, Option.map_none'] at hr
          rcases htr : srl_track_obj h { entered a with visits := (entered a).visits ++
            [{ obj := obj, ofs := (entered a).buf.length, prior := none }] } obj with ⟨r3, a3⟩
          rw [htr] at hr
          by_cases hr3 : r3 = Ret.ok
          · subst hr3
            have ha3 := track_ok_fields h _ a3 obj htr
            simp only [] at hr
            rcases hsw : srl_dump_switch P h (srl_dump_pyobj P h fuel)
              (srl_classify (h.heap obj)) a3 obj none with ⟨r2, b2⟩
            rw [hsw] at hr
            simp only [Prod.mk.injEq] at hr
            exact key a3 none r2 b2 hsw hr.1 hr.2 (by rw [ha3]; rfl)
          · exfalso
            cases r3 <;> simp_all
  · subst h1; simp at hr
  · subst h1; simp at hr

theorem depth_loop_states (P : Protocol) (h : Host) (fuel : Nat) (items : List Nat)
    (e e1 : srl_encoder_t)
    (hi : srl_dump_items (srl_dump_pyobj P h fuel) items e = (Ret.ok, e1)) :
    ∀ i, i ≤ items.length →
      (run_items (srl_dump_pyobj P h fuel) (items.take i) e).recursion_depth =
        e.recursion_depth := by
  obtain ⟨_, hall⟩ := srl_dump_items_ok _ items e e1 hi
  intro i
  induction i with
  | zero => intro _; rfl
  | succ i ih =>
    intro hle
    have hlt : i < items.length := hle
    rw [run_items_take_succ _ items e i hlt]
    have := (depth_after_call P h fuel
      (run_items (srl_dump_pyobj P h fuel) (items.take i) e) (items.get ⟨i, hlt⟩)).1
    rw [hall i hlt] at this
    simp only [depth_left, Nat.add_zero] at this
    rw [this]
    exact ih (Nat.le_of_lt hlt)

theorem depth_of_success (P : Protocol) (h : Host) (g : Nat) (a b : srl_encoder_t) (obj : Nat)
    (hr : srl_dump_pyobj P h g a obj = (Ret.ok, b)) :
    b.recursion_depth = a.recursion_depth ∧
    b.py_recursion_depth = a.py_recursion_depth ∧
    (∃ b2, b = SRL_LEAVE_RECURSIVE_CALL b2 ∧ b2.recursion_depth = a.recursion_depth + 1 ∧
      (srl_classify (h.heap obj) = srl_type.LIST →
        ∃ b3, b2 = SRL_LEAVE_RECURSIVE_CALL b3 ∧
          b3.recursion_depth = a.recursion_depth + 2)) ∧
    (srl_classify (h.heap obj) = srl_type.LIST → srl_find_obj a obj = none →
      ∃ e, ListOpened P h a obj e ∧
        b = SRL_LEAVE_RECURSIVE_CALL (SRL_LEAVE_RECURSIVE_CALL
          (run_items (srl_dump_pyobj P h (g - 1)) (PyList_items (h.heap obj)) e)) ∧
        ∀ i, i ≤ (PyList_items (h.heap obj)).length →
          (run_items (srl_dump_pyobj P h (g - 1))
            ((PyList_items (h.heap obj)).take i) e).recursion_depth =
            a.recursion_depth + 2) := by
  cases g with
  | zero => simp [srl_dump_pyobj] at hr
  | succ fuel =>
    have hd := depth_after_call P h (fuel + 1) a obj
    rw [hr] at hd
    simp only [depth_left, Nat.add_zero] at hd
    refine ⟨hd.1, hd.2, dump_ok_inner P h fuel a b obj hr, ?_⟩
    intro hl hf
    rcases dump_list_cases P h fuel a b obj Ret.ok hl hf hr with
      ⟨e, e1, ho, hi, hb⟩ | ⟨q, _⟩
    · obtain ⟨he1, _⟩ := srl_dump_items_ok _ _ e e1 hi
      refine ⟨e, ho, ?_, ?_⟩
      · rw [hb, he1]; rfl
      · intro i hle
        have := depth_loop_states P h fuel _ e e1 hi i hle
        simp only [Nat.add_sub_cancel]
        rw [this, ho.2.2.2.1]
    · exact absurd rfl q

/-- C14: when the dump returns bytes, the session it leaves has the
`recursion_depth` of the session it was called on (0 when that session is
fresh), whatever the root and whatever `max_recursion_depth`; the session is
the result of a leave on a state of depth one more.  The same holds of every
successful dispatcher call, those nested in the dump included: the depth
after the call is the depth before it, the call ends with a leave applied to a
state of depth one more (for a list: two leaves applied to a state of depth
two more), and for a list visited for the first time every state of the item
loop, from which the nested calls start, has depth two more than before the
call.  So no state of the call has a depth below the one before the call, and
no leave is applied at depth 0. -/
theorem depth_restored_after_success (P : Protocol) (h : Host) (fuel : Nat)
    (enc e : srl_encoder_t) (root : Nat) (out : List Nat)
    (hd : srl_encoder_dump P h fuel enc root = (DumpRet.bytes out, e)) :
    e.recursion_depth = enc.recursion_depth ∧
    (∀ args, enc = fresh_session P args → e.recursion_depth = 0) ∧
    (∃ b2, e = SRL_LEAVE_RECURSIVE_CALL b2 ∧ b2.recursion_depth = enc.recursion_depth + 1) ∧
    ∀ (g : Nat) (a b : srl_encoder_t) (obj : Nat),
      srl_dump_pyobj P h g a obj = (Ret.ok, b) →
      b.recursion_depth = a.recursion_depth ∧
      b.py_recursion_depth = a.py_recursion_depth ∧
      (∃ b2, b = SRL_LEAVE_RECURSIVE_CALL b2 ∧ b2.recursion_depth = a.recursion_depth + 1 ∧
        (srl_classify (h.heap obj) = srl_type.LIST →
          ∃ b3, b2 = SRL_LEAVE_RECURSIVE_CALL b3 ∧
            b3.recursion_depth = a.recursion_depth + 2)) ∧
      (srl_classify (h.heap obj) = srl_type.LIST → srl_find_obj a obj = none →
        ∃ e0, ListOpened P h a obj e0 ∧
          b = SRL_LEAVE_RECURSIVE_CALL (SRL_LEAVE_RECURSIVE_CALL
            (run_items (srl_dump_pyobj P h (g - 1)) (PyList_items (h.heap obj)) e0)) ∧
          ∀ i, i ≤ (PyList_items (h.heap obj)).length →
            (run_items (srl_dump_pyobj P h (g - 1))
              ((PyList_items (h.heap obj)).take i) e0).recursion_depth =
              a.recursion_depth + 2) := by
  have hroot : srl_dump_pyobj P h fuel (srl_write_header P h enc) root = (Ret.ok, e) := by
    unfold srl_encoder_dump at hd
    by_cases hs : SRL_ENC_HAVE_OPTION enc
        (P.SRL_F_COMPRESS_SNAPPY ||| P.SRL_F_COMPRESS_SNAPPY_INCREMENTAL) = true
    · simp [hs] at hd
    · simp only [hs, Bool.not_false, Bool.not_eq_true, if_true] at hd
      rcases hq : srl_dump_pyobj P h fuel (srl_write_header P h enc) root with ⟨r, b⟩
      rw [hq] at hd
      cases r <;> simp at hd
      rw [hd.2]
  have hw : (srl_write_header P h enc).recursion_depth = enc.recursion_depth := by
    exact (srl_write_header_fields P h enc).2.2.2.2.2.1
  obtain ⟨k1, _, ⟨b2, k3, k4, _⟩, _⟩ := depth_of_success P h fuel _ e root hroot
  refine ⟨by rw [k1, hw], ?_, ⟨b2, k3, by rw [k4, hw]⟩, ?_⟩
  · intro args ha
    rw [k1, hw, ha]
    rfl
  · intro g a b obj hr
    exact depth_of_success P h g a b obj hr

/-- C14, witness: the list `[x, L, x]` that holds itself and twice the integer
object `x = 300`, under the ceiling 7: the dump returns bytes and leaves the
depth 0 of the fresh session. -/
theorem depth_restored_after_success_witness :
    srl_encoder_dump srl_v1 (host_of fun x => if x = 0 then PyObject.pylist [1, 0, 1]
        else PyObject.pyint 300) 3
      (fresh_session srl_v1 { flags := 0, max_recursion_depth := 7 }) 0 =
      (DumpRet.bytes [61, 115, 114, 108, 1, 0, 195, 32, 172, 2, 41, 6, 47, 7],
        (srl_encoder_dump srl_v1 (host_of fun x => if x = 0 then PyObject.pylist [1, 0, 1]
          else PyObject.pyint 300) 3
          (fresh_session srl_v1 { flags := 0, max_recursion_depth := 7 }) 0).2) ∧
    (srl_encoder_dump srl_v1 (host_of fun x => if x = 0 then PyObject.pylist [1, 0, 1]
        else PyObject.pyint 300) 3
      (fresh_session srl_v1 { flags := 0, max_recursion_depth := 7 }) 0).2.recursion_depth =
      (fresh_session srl_v1 { flags := 0, max_recursion_depth := 7 }).recursion_depth :=
  have hd : srl_encoder_dump srl_v1 (host_of fun x => if x = 0 then PyObject.pylist [1, 0, 1]
        else PyObject.pyint 300) 3
      (fresh_session srl_v1 { flags := 0, max_recursion_depth := 7 }) 0 =
      (DumpRet.bytes [61, 115, 114, 108, 1, 0, 195, 32, 172, 2, 41, 6, 47, 7],
        (srl_encoder_dump srl_v1 (host_of fun x => if x = 0 then PyObject.pylist [1, 0, 1]
          else PyObject.pyint 300) 3
          (fresh_session srl_v1 { flags := 0, max_recursion_depth := 7 }) 0).2) := by decide
  ⟨hd, (depth_restored_after_success _ _ _ _ _ _ _ hd).1⟩

/-! ## C16: the dump of -1 -/

/-- C16, counterexample to the claim as stated: under the protocol values of
version 1 (`NEG_LOW = 0x10`) the dump of `-1` on a fresh session is the header
followed by the byte `0x1F`, which is `NEG_LOW | ((-1) + 32) = 0x10 | 0x1F`; it
is not the header followed by `0x3F`. -/
theorem dump_minus_one_not_3F :
    (srl_encoder_dump srl_v1 (host_of fun _ => PyObject.pyint (-1)) 1 session_v1 0).1 =
      DumpRet.bytes [0x3D, 0x73, 0x72, 0x6C, 0x01, 0x00, 0x1F] ∧
    (srl_encoder_dump srl_v1 (host_of fun _ => PyObject.pyint (-1)) 1 session_v1 0).1 ≠
      DumpRet.bytes [0x3D, 0x73, 0x72, 0x6C, 0x01, 0x00, 0x3F] ∧
    srl_v1.SRL_HDR_NEG_LOW ||| to_char ((-1) + 32) = 0x1F := by
  decide

/-- C16, amended: in a host where no allocation fails and the recursion
probe never refuses, on a fresh session with neither snappy flag set and a
ceiling other than 1, the dump of an integer object of value `-1` returns (with
any fuel from 1 on) the header followed by the single value byte
`NEG_LOW | 31`, where `31 = (-1) + 32`.  With `NEG_LOW = 0x10` that byte is
`0x1F`. -/
theorem dump_minus_one (P : Protocol) (h : Host) (fuel : Nat) (args : srl_encoder_ctor_args)
    (root : Nat) (hh : h.reliable)
    (hs : SRL_ENC_HAVE_OPTION (fresh_session P args)
      (P.SRL_F_COMPRESS_SNAPPY ||| P.SRL_F_COMPRESS_SNAPPY_INCREMENTAL) = false)
    (hm : args.max_recursion_depth ≠ 1)
    (hroot : h.heap root = PyObject.pyint (-1)) (hf : 0 < fuel) :
    (srl_encoder_dump P h fuel (fresh_session P args) root).1 =
      DumpRet.bytes (P.SRL_MAGIC_STRING ++
        [(P.SRL_PROTOCOL_VERSION ||| P.SRL_PROTOCOL_ENCODING_RAW) % 256, 0] ++
        [P.SRL_HDR_NEG_LOW ||| 31]) ∧
    to_char ((-1) + 32) = 31 ∧
    (P.SRL_HDR_NEG_LOW = 0x10 → P.SRL_HDR_NEG_LOW ||| 31 = 0x1F) := by
  refine ⟨?_, by decide, fun e => by rw [e]; decide⟩
  obtain ⟨g, rfl⟩ : ∃ g, fuel = g + 1 := ⟨fuel - 1, by omega⟩
  rw [encoder_dump_eq P h (g + 1) _ root hs]
  have hl : srl_classify (h.heap root) ≠ srl_type.LIST := by rw [hroot]; decide
  obtain ⟨w1, w2, w3, _, w5, w6, _⟩ := srl_write_header_fields P h (fresh_session P args)
  have hsn := have_option_or _ _ _ hs
  rw [hsn.1, hsn.2] at w1
  simp only [Bool.false_eq_true, if_false] at w1
  have hfind : srl_find_obj (srl_write_header P h (fresh_session P args)) root = none := by
    unfold srl_find_obj
    rw [w2]
    rfl
  rcases hr : srl_dump_pyobj P h (g + 1) (srl_write_header P h (fresh_session P args)) root
    with ⟨r, b⟩
  cases r with
  | ok =>
    obtain ⟨_, _, hb, _⟩ := dump_scalar_ok P h (g + 1) _ b root hl hr
    simp only []
    unfold found_ofs at hb
    rw [hb, w1, hfind, hroot]
    have : srl_classify (PyObject.pyint (-1)) ≠ srl_type.BOOL := by decide
    simp only [this, if_false]
    rfl
  | nofuel =>
    exact absurd rfl (dump_scalar_fail P h g _ b root Ret.nofuel hl hr (by simp)).1
  | fail e =>
    exfalso
    rcases dump_fail_cases P h g _ b root _ hr (by simp) with hlf | ⟨q, _⟩
    · cases hlf with
      | probe1 hp => exact hp hh.2.2
      | ceiling1 h1 h2 =>
        rw [w5, w6] at h2
        rw [w5] at h1
        have h3 : (fresh_session P args).max_recursion_depth = args.max_recursion_depth := rfl
        have h4 : (fresh_session P args).recursion_depth = 0 := rfl
        rw [h3] at h1 h2
        rw [h4] at h2
        omega
      | probe2 b q => exact hl q
      | ceiling2 b q => exact hl q
      | other r b ho =>
        rcases ho with ⟨_, q⟩ | ⟨_, q⟩ | ⟨_, q⟩
        · exact q hh
        · rw [hroot] at q; exact absurd q (by simp)
        · rw [hroot] at q; exact absurd q (by decide)
    · exact hl q

/-- C16, witness: the dump of `-1` on the fresh session of version 1 with the
default arguments. -/
theorem dump_minus_one_witness :
    (srl_encoder_dump srl_v1 (host_of fun _ => PyObject.pyint (-1)) 1
      (fresh_session srl_v1 (default_encoder_ctor_args srl_v1)) 0).1 =
      DumpRet.bytes (srl_v1.SRL_MAGIC_STRING ++
        [(srl_v1.SRL_PROTOCOL_VERSION ||| srl_v1.SRL_PROTOCOL_ENCODING_RAW) % 256, 0] ++
        [srl_v1.SRL_HDR_NEG_LOW ||| 31]) :=
  (dump_minus_one srl_v1 (host_of fun _ => PyObject.pyint (-1)) 1
    (default_encoder_ctor_args srl_v1) 0 ⟨fun _ => rfl, fun _ => rfl, rfl⟩ (by decide)
    (by decide) rfl (by decide)).1

/-! ## C18: the length estimate `VARINT_LEN` -/

/-- C18: at `x = 2^39 - 128 = 549755813760`, an unsigned 64-bit value,
`VARINT_LEN(x)` is 0: it is not `1 + x / 128 = 2^32`, and it is below the
number of bytes of `varint(x)`, which is 6.  The dump of a list that holds
twice the integer object of value `x` evaluates `VARINT_LEN` at `x` on the
second visit. -/
theorem VARINT_LEN_wraps :
    549755813760 < 2 ^ 64 ∧ VARINT_LEN 549755813760 = 0 ∧
    1 + 549755813760 / 128 = 2 ^ 32 ∧ (varint 549755813760).length = 6 ∧
    ¬ ((varint 549755813760).length ≤ VARINT_LEN 549755813760) ∧
    copy_test (PyObject.pyint 549755813760) 7 = false ∧
    (srl_encoder_dump srl_v1 (host_of fun x => if x = 0 then PyObject.pylist [1, 1]
        else PyObject.pyint 549755813760) 2 session_v1 0).1 =
      DumpRet.bytes [0x3D, 0x73, 0x72, 0x6C, 0x01, 0x00, 0x42,
        0x20, 0x80, 0xFF, 0xFF, 0xFF, 0xFF, 0x0F,
        0x20, 0x80, 0xFF, 0xFF, 0xFF, 0xFF, 0x0F] := by
  decide

theorem VARINT_LEN_sound_below_wrap (x : Nat) (hx : x < 2 ^ 39 - 128) :
    VARINT_LEN x = 1 + x / 128 ∧ (varint x).length ≤ VARINT_LEN x ∧
    1 ≤ (varint x).length := by
  rw [VARINT_LEN_small x hx]
  exact ⟨rfl, varint_length_le x, varint_length_pos x⟩

/-! ## C15: a second dump on the same session -/

theorem varint_length_bound : ∀ (k n : Nat), n < 2 ^ (7 * (k + 1)) → (varint n).length ≤ k + 1 := by
  intro k
  induction k with
  | zero =>
    intro n hn
    rw [varint_eq, if_pos (by simpa using hn)]
    simp
  | succ k ih =>
    intro n hn
    rw [varint_eq]
    by_cases h1 : n < 128
    · simp [h1]
    · simp only [h1, if_false, List.length_cons]
      have : n / 128 < 2 ^ (7 * (k + 1)) := by
        rw [Nat.div_lt_iff_lt_mul (by norm_num)]
        have e : 2 ^ (7 * (k + 1 + 1)) = 2 ^ (7 * (k + 1)) * 128 := by
          rw [show 7 * (k + 1 + 1) = 7 * (k + 1) + 7 by ring, pow_add]; norm_num
        omega
      have := ih (n / 128) this
      omega

/-- The varint of an unsigned 64-bit number has at most
`SRL_MAX_VARINT_LENGTH` bytes. -/
theorem varint_length_max (n : Nat) (hn : n < 2 ^ 64) :
    (varint n).length ≤ SRL_MAX_VARINT_LENGTH :=
  varint_length_bound 9 n (lt_of_lt_of_le hn (by norm_num))

/-- A successful `BUF_SIZE_ASSERT` changes the capacity only, and leaves room
for the asserted number of bytes. -/
theorem BUF_SIZE_ASSERT_room (h : Host) (enc enc1 : srl_encoder_t) (n : Nat)
    (ha : BUF_SIZE_ASSERT h enc n = (Ret.ok, enc1)) :
    enc1.buf = enc.buf ∧ enc1.overrun = enc.overrun ∧ enc.buf.length + n ≤ enc1.buf_size := by
  unfold BUF_SIZE_ASSERT at ha
  split at ha
  · simp only [Prod.mk.injEq, true_and] at ha
    subst ha
    exact ⟨rfl, rfl, by assumption⟩
  · split at ha
    · simp only [Prod.mk.injEq, true_and] at ha
      subst ha
      exact ⟨rfl, rfl, le_max_right _ _⟩
    · simp at ha

/-- An unchecked append of bytes that fit into the capacity does not run over
the end of the buffer. -/
theorem nocheck_str_fits (enc : srl_encoder_t) (str : List Nat)
    (hfit : enc.buf.length + str.length ≤ enc.buf_size) :
    (srl_buf_cat_str_nocheck enc str).overrun = enc.overrun ∧
    (srl_buf_cat_str_nocheck enc str).buf = enc.buf ++ str ∧
    (srl_buf_cat_str_nocheck enc str).buf_size = enc.buf_size := by
  refine ⟨?_, rfl, rfl⟩
  have : ¬ enc.buf_size < enc.buf.length + str.length := by omega
  simp [srl_buf_cat_str_nocheck, this]

theorem nocheck_char_fits (enc : srl_encoder_t) (c : Nat)
    (hfit : enc.buf.length + 1 ≤ enc.buf_size) :
    (srl_buf_cat_char_nocheck enc c).overrun = enc.overrun ∧
    (srl_buf_cat_char_nocheck enc c).buf = enc.buf ++ [c] ∧
    (srl_buf_cat_char_nocheck enc c).buf_size = enc.buf_size :=
  nocheck_str_fits enc [c] hfit

theorem nocheck_varint_fits (enc : srl_encoder_t) (tag n : Nat)
    (hfit : enc.buf.length + (1 + (varint n).length) ≤ enc.buf_size) :
    (srl_buf_cat_varint_nocheck enc tag n).overrun = enc.overrun ∧
    (srl_buf_cat_varint_nocheck enc tag n).buf = enc.buf ++ tag :: varint n ∧
    (srl_buf_cat_varint_nocheck enc tag n).buf_size = enc.buf_size := by
  unfold srl_buf_cat_varint_nocheck
  obtain ⟨c1, c2, c3⟩ := nocheck_char_fits enc tag (by omega)
  obtain ⟨s1, s2, s3⟩ := nocheck_str_fits (srl_buf_cat_char_nocheck enc tag) (varint n)
    (by rw [c2, c3, List.length_append]; simp only [List.length_singleton]; omega)
  exact ⟨by rw [s1, c1], by rw [s2, c2]; simp, by rw [s3, c3]⟩

/-- C19: the capacity assertions cover the unchecked appends that follow
them.  In `srl_write_header`, when its `BUF_SIZE_ASSERT` of
`sizeof(MAGIC) + 1 + 1` (the magic string, its terminating zero counted, and
two more) has succeeded, the `|MAGIC| + 1 + 1` bytes appended (4 + 1 + 1 for
the four-byte magic string) are at most the amount asserted.  In
`srl_dump_binary` and in `srl_dump_pyunicode`, for a string of `n < 2^64`
bytes, a successful call has appended `1 + n` bytes (short form) or
`1 + |varint(n)| + n` bytes, at most the `1 + MAX_VARINT_LENGTH + n` asserted
(in `srl_dump_pyunicode` the `COPY` form, a checked append, is the third
possibility).  In the long form of the list header, for `len < 2^64`, the
`1 + 1 + |varint(len)|` bytes are at most the `1 + 1 + MAX_VARINT_LENGTH`
asserted.  At each of these sites the session after the appends has its
buffer within the capacity, and the flag `overrun`, which an unchecked append
past the capacity raises, is what it was before. -/
theorem asserts_cover_nocheck_appends (P : Protocol) (h : Host) (enc : srl_encoder_t) :
    (∀ enc1, BUF_SIZE_ASSERT h enc ((P.SRL_MAGIC_STRING.length + 1) + 1 + 1) = (Ret.ok, enc1) →
      (srl_write_header P h enc).overrun = enc.overrun ∧
      (srl_write_header P h enc).buf.length = enc.buf.length + (P.SRL_MAGIC_STRING.length + 1 + 1) ∧
      P.SRL_MAGIC_STRING.length + 1 + 1 ≤ (P.SRL_MAGIC_STRING.length + 1) + 1 + 1 ∧
      (srl_write_header P h enc).buf.length ≤ (srl_write_header P h enc).buf_size) ∧
    (∀ p b, p.length < 2 ^ 64 → srl_dump_binary P h enc p = (Ret.ok, b) →
      b.overrun = enc.overrun ∧
      b.buf.length = enc.buf.length +
        (if p.length ≤ SRL_MASK_SHORT_BINARY_LEN then 1 + p.length
         else 1 + (varint p.length).length + p.length) ∧
      (if p.length ≤ SRL_MASK_SHORT_BINARY_LEN then 1 + p.length
         else 1 + (varint p.length).length + p.length) ≤ 1 + SRL_MAX_VARINT_LENGTH + p.length ∧
      b.buf.length ≤ b.buf_size) ∧
    (∀ obj p b, PyUnicode_AsUTF8String (h.heap obj) = some p → p.length < 2 ^ 64 →
      srl_dump_pyunicode P h enc obj none = (Ret.ok, b) →
      b.overrun = enc.overrun ∧
      b.buf.length = enc.buf.length + (1 + (varint p.length).length + p.length) ∧
      1 + (varint p.length).length + p.length ≤ 1 + SRL_MAX_VARINT_LENGTH + p.length ∧
      b.buf.length ≤ b.buf_size) ∧
    (∀ obj p q b, PyUnicode_AsUTF8String (h.heap obj) = some p → p.length < 2 ^ 64 →
      ptr_diff h q enc.buf_start < 2 ^ 64 →
      srl_dump_pyunicode P h enc obj (some q) = (Ret.ok, b) →
      b.overrun = enc.overrun ∧ b.buf.length ≤ b.buf_size) ∧
    (∀ len b, SRL_MASK_ARRAYREF_COUNT < len → len < 2 ^ 64 →
      srl_dump_list_header P h enc len = (Ret.ok, b) →
      b.overrun = enc.overrun ∧
      b.buf.length = enc.buf.length + (1 + 1 + (varint len).length) ∧
      1 + 1 + (varint len).length ≤ 1 + 1 + SRL_MAX_VARINT_LENGTH ∧
      b.buf.length ≤ b.buf_size) := by
  have hbin : ∀ (e : srl_encoder_t) (tag : Nat) (p : List Nat) (b : srl_encoder_t),
      p.length < 2 ^ 64 →
      (match BUF_SIZE_ASSERT h e (1 + SRL_MAX_VARINT_LENGTH + p.length) with
        | (Ret.ok, enc1) =>
          (Ret.ok, srl_buf_cat_str_nocheck (srl_buf_cat_varint_nocheck enc1 tag p.length) p)
        | r => r) = (Ret.ok, b) →
      b.overrun = e.overrun ∧
      b.buf.length = e.buf.length + (1 + (varint p.length).length + p.length) ∧
      b.buf.length ≤ b.buf_size := by
    intro e tag p b hp hr
    have hv := varint_length_max p.length hp
    rcases ha : BUF_SIZE_ASSERT h e (1 + SRL_MAX_VARINT_LENGTH + p.length) with ⟨r, enc1⟩
    rw [ha] at hr
    cases r with
    | ok =>
      obtain ⟨a1, a2, a3⟩ := BUF_SIZE_ASSERT_room h e enc1 _ ha
      simp only [Prod.mk.injEq, true_and] at hr
      obtain ⟨v1, v2, v3⟩ := nocheck_varint_fits enc1 tag p.length (by rw [a1]; omega)
      obtain ⟨s1, s2, s3⟩ := nocheck_str_fits (srl_buf_cat_varint_nocheck enc1 tag p.length) p
        (by rw [v2, v3, a1]; simp only [List.length_append, List.length_cons]; omega)
      rw [← hr]
      refine ⟨by rw [s1, v1, a2], ?_, ?_⟩
      · rw [s2, v2, a1]; simp only [List.length_append, List.length_cons]; omega
      · rw [s2, s3, v2, v3, a1]; simp only [List.length_append, List.length_cons]; omega
    | fail e => simp at hr
    | nofuel => simp at hr
  refine ⟨?_, ?_, ?_, ?_, ?_⟩
  · intro enc1 ha
    obtain ⟨a1, a2, a3⟩ := BUF_SIZE_ASSERT_room h enc enc1 _ ha
    unfold srl_write_header
    simp only [ha]
    obtain ⟨s1, s2, s3⟩ := nocheck_str_fits enc1 P.SRL_MAGIC_STRING (by rw [a1]; omega)
    obtain ⟨c1, c2, c3⟩ := nocheck_char_fits (srl_buf_cat_str_nocheck enc1 P.SRL_MAGIC_STRING)
      ((P.SRL_PROTOCOL_VERSION |||
        (if SRL_ENC_HAVE_OPTION enc P.SRL_F_COMPRESS_SNAPPY then P.SRL_PROTOCOL_ENCODING_SNAPPY
         else if SRL_ENC_HAVE_OPTION enc P.SRL_F_COMPRESS_SNAPPY_INCREMENTAL then
           P.SRL_PROTOCOL_ENCODING_SNAPPY_INCREMENTAL
         else P.SRL_PROTOCOL_ENCODING_RAW)) % 256)
      (by rw [s2, s3, a1, List.length_append]; omega)
    obtain ⟨d1, d2, d3⟩ := nocheck_char_fits _ 0
      (show (srl_buf_cat_char_nocheck (srl_buf_cat_str_nocheck enc1 P.SRL_MAGIC_STRING)
        ((P.SRL_PROTOCOL_VERSION |||
        (if SRL_ENC_HAVE_OPTION enc P.SRL_F_COMPRESS_SNAPPY then P.SRL_PROTOCOL_ENCODING_SNAPPY
         else if SRL_ENC_HAVE_OPTION enc P.SRL_F_COMPRESS_SNAPPY_INCREMENTAL then
           P.SRL_PROTOCOL_ENCODING_SNAPPY_INCREMENTAL
         else P.SRL_PROTOCOL_ENCODING_RAW)) % 256)).buf.length + 1 ≤ _ by
        rw [c2, c3, s2, s3, a1]; simp only [List.length_append, List.length_singleton]; omega)
    refine ⟨by rw [d1, c1, s1, a2], ?_, by omega, ?_⟩
    · rw [d2, c2, s2, a1]; simp only [List.length_append, List.length_singleton]; omega
    · rw [d2, d3, c2, c3, s2, s3, a1]
      simp only [List.length_append, List.length_singleton]; omega
  · intro p b hp hr
    have hv := varint_length_max p.length hp
    by_cases hs : p.length ≤ SRL_MASK_SHORT_BINARY_LEN
    · unfold srl_dump_binary at hr
      simp only [hs, if_true] at hr
      rcases ha : BUF_SIZE_ASSERT h enc (1 + SRL_MAX_VARINT_LENGTH + p.length) with ⟨r, enc1⟩
      rw [ha] at hr
      cases r with
      | ok =>
        obtain ⟨a1, a2, a3⟩ := BUF_SIZE_ASSERT_room h enc enc1 _ ha
        simp only [Prod.mk.injEq, true_and] at hr
        obtain ⟨c1, c2, c3⟩ := nocheck_char_fits enc1
          (P.SRL_HDR_SHORT_BINARY_LOW ||| to_char p.length) (by rw [a1]; omega)
        obtain ⟨s1, s2, s3⟩ := nocheck_str_fits (srl_buf_cat_char_nocheck enc1
          (P.SRL_HDR_SHORT_BINARY_LOW ||| to_char p.length)) p
          (by rw [c2, c3, a1]; simp only [List.length_append, List.length_singleton]; omega)
        rw [← hr]
        simp only [hs, if_true]
        refine ⟨by rw [s1, c1, a2], ?_, by omega, ?_⟩
        · rw [s2, c2, a1]; simp only [List.length_append, List.length_singleton]; omega
        · rw [s2, s3, c2, c3, a1]
          simp only [List.length_append, List.length_singleton]; omega
      | fail e => simp at hr
      | nofuel => simp at hr
    · unfold srl_dump_binary at hr
      simp only [hs, if_false] at hr
      obtain ⟨k1, k2, k3⟩ := hbin enc P.SRL_HDR_BINARY p b hp hr
      simp only [hs, if_false]
      exact ⟨k1, k2, by omega, k3⟩
  · intro obj p b hu hp hr
    have hv := varint_length_max p.length hp
    unfold srl_dump_pyunicode at hr
    simp only [hu] at hr
    obtain ⟨k1, k2, k3⟩ := hbin enc P.SRL_HDR_STR_UTF8 p b hp hr
    exact ⟨k1, k2, by omega, k3⟩
  · intro obj p q b hu hp hq hr
    unfold srl_dump_pyunicode at hr
    simp only [hu] at hr
    by_cases hc : VARINT_LEN (ptr_diff h q enc.buf_start) < p.length % 2 ^ 32
    · simp only [hc, if_true] at hr
      unfold srl_buf_cat_varint at hr
      have hv := varint_length_max _ hq
      rcases ha : BUF_SIZE_ASSERT h enc (SRL_MAX_VARINT_LENGTH + 1) with ⟨r, enc1⟩
      rw [ha] at hr
      cases r with
      | ok =>
        obtain ⟨a1, a2, a3⟩ := BUF_SIZE_ASSERT_room h enc enc1 _ ha
        simp only [Prod.mk.injEq, true_and] at hr
        obtain ⟨v1, v2, v3⟩ := nocheck_varint_fits enc1 P.SRL_HDR_COPY
          (ptr_diff h q enc.buf_start) (by rw [a1]; omega)
        rw [← hr]
        refine ⟨by rw [v1, a2], ?_⟩
        rw [v2, v3, a1]; simp only [List.length_append, List.length_cons]; omega
      | fail e => simp at hr
      | nofuel => simp at hr
    · simp only [hc, if_false] at hr
      obtain ⟨k1, _, k3⟩ := hbin enc P.SRL_HDR_STR_UTF8 p b hp hr
      exact ⟨k1, k3⟩
  · intro len b hlong hlen hr
    have hv := varint_length_max len hlen
    unfold srl_dump_list_header at hr
    have hn : ¬ len ≤ SRL_MASK_ARRAYREF_COUNT := by omega
    simp only [hn, if_false] at hr
    rcases ha : BUF_SIZE_ASSERT h enc (1 + 1 + SRL_MAX_VARINT_LENGTH) with ⟨r, enc1⟩
    rw [ha] at hr
    cases r with
    | ok =>
      obtain ⟨a1, a2, a3⟩ := BUF_SIZE_ASSERT_room h enc enc1 _ ha
      simp only [Prod.mk.injEq, true_and] at hr
      obtain ⟨c1, c2, c3⟩ := nocheck_char_fits enc1 P.SRL_HDR_REFN (by rw [a1]; omega)
      obtain ⟨v1, v2, v3⟩ := nocheck_varint_fits (srl_buf_cat_char_nocheck enc1 P.SRL_HDR_REFN)
        P.SRL_HDR_ARRAY len
        (by rw [c2, c3, a1]; simp only [List.length_append, List.length_singleton]; omega)
      rw [← hr]
      refine ⟨by rw [v1, c1, a2], ?_, by omega, ?_⟩
      · rw [v2, c2, a1]
        simp only [List.length_append, List.length_cons, List.length_singleton, List.length_nil]; omega
      · rw [v2, v3, c2, c3, a1]
        simp only [List.length_append, List.length_cons, List.length_singleton, List.length_nil]; omega
    | fail e => simp at hr
    | nofuel => simp at hr

/-- C19, witness: a string of 3 bytes and the header of a list of 300 items on
the fresh session of version 1. -/
theorem asserts_cover_nocheck_appends_witness :
    (srl_dump_binary srl_v1 (host_of fun _ => PyObject.pybool true) session_v1
      [97, 98, 99]).2.overrun = session_v1.overrun ∧
    (srl_dump_list_header srl_v1 (host_of fun _ => PyObject.pybool true) session_v1
      300).2.buf.length = session_v1.buf.length + (1 + 1 + (varint 300).length) :=
  ⟨((asserts_cover_nocheck_appends srl_v1 (host_of fun _ => PyObject.pybool true)
      session_v1).2.1 [97, 98, 99] _ (by norm_num) (by decide)).1,
    ((asserts_cover_nocheck_appends srl_v1 (host_of fun _ => PyObject.pybool true)
      session_v1).2.2.2.2 300 _ (by decide) (by norm_num) (by decide)).2.1⟩

/-- The header is written whether or not its `BUF_SIZE_ASSERT` has succeeded:
`srl_write_header` does not look at the status.  When the assertion fails and
the buffer has no room for the `|MAGIC| + 1 + 1` bytes, the unchecked appends
run past the capacity. -/
theorem header_written_without_room (P : Protocol) (h : Host) (enc : srl_encoder_t)
    (hfail : BUF_SIZE_ASSERT h enc ((P.SRL_MAGIC_STRING.length + 1) + 1 + 1) =
      (Ret.fail PyErr.MemoryError, enc))
    (hfull : enc.buf_size < enc.buf.length + (P.SRL_MAGIC_STRING.length + 1 + 1)) :
    (srl_write_header P h enc).buf.length =
      enc.buf.length + (P.SRL_MAGIC_STRING.length + 1 + 1) ∧
    (srl_write_header P h enc).overrun = true := by
  unfold srl_write_header
  simp only [hfail]
  refine ⟨?_, ?_⟩
  · simp [srl_buf_cat_char_nocheck, srl_buf_cat_str_nocheck]
  · simp only [srl_buf_cat_char_nocheck, srl_buf_cat_str_nocheck, List.length_append,
      List.length_singleton, Bool.or_eq_true, decide_eq_true_eq]
    right
    omega

/-- With an initial buffer of 8 bytes and an allocator that refuses: the dump
of `True` fills the buffer without growing it; the header of a second dump on
the same session is then written past the capacity, and that dump fails with
the memory error only afterwards. -/
theorem header_written_without_room_example :
    (srl_encoder_dump { srl_v1 with INITIAL_BUFFER_SIZE := 8 }
      { heap := fun _ => PyObject.pybool true
        malloc_ok := fun _ => false
        ptable_ok := fun _ => true
        recursion_limit := none
        realloc_moves := fun _ _ => false
        block_addr := fun _ => 0 } 1
      (fresh_session { srl_v1 with INITIAL_BUFFER_SIZE := 8 }
        (default_encoder_ctor_args srl_v1)) 0).1 =
      DumpRet.bytes [0x3D, 0x73, 0x72, 0x6C, 0x01, 0x00, 0x3B] ∧
    (srl_encoder_dump { srl_v1 with INITIAL_BUFFER_SIZE := 8 }
      { heap := fun _ => PyObject.pybool true
        malloc_ok := fun _ => false
        ptable_ok := fun _ => true
        recursion_limit := none
        realloc_moves := fun _ _ => false
        block_addr := fun _ => 0 } 1
      (fresh_session { srl_v1 with INITIAL_BUFFER_SIZE := 8 }
        (default_encoder_ctor_args srl_v1)) 0).2.overrun = false ∧
    (srl_encoder_dump { srl_v1 with INITIAL_BUFFER_SIZE := 8 }
      { heap := fun _ => PyObject.pybool true
        malloc_ok := fun _ => false
        ptable_ok := fun _ => true
        recursion_limit := none
        realloc_moves := fun _ _ => false
        block_addr := fun _ => 0 } 1
      (srl_encoder_dump { srl_v1 with INITIAL_BUFFER_SIZE := 8 }
        { heap := fun _ => PyObject.pybool true
          malloc_ok := fun _ => false
          ptable_ok := fun _ => true
          recursion_limit := none
          realloc_moves := fun _ _ => false
          block_addr := fun _ => 0 } 1
        (fresh_session { srl_v1 with INITIAL_BUFFER_SIZE := 8 }
          (default_encoder_ctor_args srl_v1)) 0).2 0) =
      (DumpRet.fail PyErr.MemoryError,
        { buf := [0x3D, 0x73, 0x72, 0x6C, 0x01, 0x00, 0x3B, 0x3D, 0x73, 0x72, 0x6C, 0x01, 0x00]
          buf_size := 7
          buf_block := 0
          operational_flags := 0
          flags := 1
          max_recursion_depth := 0
          recursion_depth := 0
          obj_seenhash := none
          py_recursion_depth := 0
          overrun := true
          stale_write := false
          visits := [{ obj := 0, ofs := 6, prior := none }, { obj := 0, ofs := 13, prior := none }] }) := by
  decide

/-! ## C20: termination and the number of calls -/

theorem items_fuel_closed (h : Host) (dom : Finset Nat) (S : Finset Nat) (fuel : Nat)
    (dump : srl_encoder_t → Nat → Ret × srl_encoder_t)
    (hm : ∀ a x, Mono h a (dump a x).2)
    (hd : ∀ a x, x ∈ dom → unseen S a < fuel → (dump a x).1 ≠ Ret.nofuel) (items : List Nat)
    (hit : ∀ y ∈ items, y ∈ dom) :
    ∀ a, unseen S a < fuel → (srl_dump_items dump items a).1 ≠ Ret.nofuel := by
  induction items with
  | nil => intro a _; simp [srl_dump_items]
  | cons x xs ih =>
    intro a ha
    simp only [srl_dump_items]
    have h1 := hd a x (hit x (by simp)) ha
    have h2 := hm a x
    rcases hr : dump a x with ⟨r, b⟩
    rw [hr] at h1 h2
    cases r with
    | ok =>
      exact ih (fun y hy => hit y (by simp [hy])) b
        (lt_of_le_of_lt (unseen_mono h S a b h2) ha)
    | fail e => simp
    | nofuel => exact absurd rfl h1

/-- Enough fuel on a finite graph: the dispatcher returns when its fuel exceeds
the number of lists of the graph that the seen table does not hold. -/
theorem dump_fuel_closed (P : Protocol) (h : Host) (dom : Finset Nat) (hc : ItemsClosed h dom) :
    ∀ (fuel : Nat) (a : srl_encoder_t) (obj : Nat), obj ∈ dom →
      unseen (lists_of h dom) a < fuel →
      (srl_dump_pyobj P h fuel a obj).1 ≠ Ret.nofuel := by
  intro fuel
  induction fuel with
  | zero => intro a obj _ ha; exact absurd ha (by omega)
  | succ fuel ih =>
    intro a obj hobj ha
    rcases hr : srl_dump_pyobj P h (fuel + 1) a obj with ⟨r, b⟩
    simp only []
    by_cases hl : srl_classify (h.heap obj) = srl_type.LIST
    · cases hf : srl_find_obj a obj with
      | some p => exact (dump_refp_cases P h fuel a b obj p r hl hf hr).1
      | none =>
        rcases dump_list_cases P h fuel a b obj r hl hf hr with ⟨e, e1, ho, hi, hb⟩ | ⟨_, h2, _⟩
        · have hmem : obj ∈ lists_of h dom := by
            unfold lists_of; simp [hobj, hl]
          have hlt := unseen_open P h (lists_of h dom) a e obj hmem hf ho
          have := items_fuel_closed h dom (lists_of h dom) fuel (srl_dump_pyobj P h fuel)
            (fun a x => dump_mono P h fuel a x) ih (PyList_items (h.heap obj))
            (hc obj hobj) e (by omega)
          rw [hi] at this
          exact this
        · exact h2
    · by_cases hok : r = Ret.ok
      · rw [hok]; simp
      · exact (dump_scalar_fail P h fuel a b obj r hl hr hok).1

theorem pending_mono (h : Host) (dom : Finset Nat) (a b : srl_encoder_t) (hm : Mono h a b) :
    pending h dom b ≤ pending h dom a := by
  unfold pending
  apply Finset.sum_le_sum_of_subset
  intro x hx
  simp only [Finset.mem_filter] at hx ⊢
  refine ⟨hx.1, ?_⟩
  cases hf : srl_find_obj a x with
  | none => rfl
  | some o =>
    have := hm.2.2.1 x o hf
    rw [hx.2] at this
    cases this

theorem pending_congr (h : Host) (dom : Finset Nat) (a b : srl_encoder_t)
    (hs : b.obj_seenhash = a.obj_seenhash) : pending h dom b = pending h dom a := by
  unfold pending
  congr 1
  ext x
  simp only [Finset.mem_filter, find_congr a b hs x]

theorem pending_open (P : Protocol) (h : Host) (dom : Finset Nat) (a e : srl_encoder_t)
    (obj : Nat) (hd : obj ∈ dom) (hl : srl_classify (h.heap obj) = srl_type.LIST)
    (hf : srl_find_obj a obj = none) (ho : ListOpened P h a obj e) :
    pending h dom e + (PyList_items (h.heap obj)).length ≤ pending h dom a := by
  unfold pending
  have hmem : obj ∈ (lists_of h dom).filter (fun x => srl_find_obj a x = none) := by
    unfold lists_of; simp [hd, hl, hf]
  rw [← Finset.sum_erase_add _ _ hmem]
  apply Nat.add_le_add_right
  apply Finset.sum_le_sum_of_subset
  intro x hx
  simp only [Finset.mem_filter, Finset.mem_erase] at hx ⊢
  have := find_store a e obj a.pos x ho.2.1
  rw [hx.2] at this
  by_cases hxo : obj = x
  · rw [if_pos hxo] at this; cases this
  · rw [if_neg hxo] at this
    exact ⟨fun q => hxo q.symm, hx.1, this.symm⟩

theorem leave_visits (e : srl_encoder_t) :
    (SRL_LEAVE_RECURSIVE_CALL e).visits = e.visits ∧
    (SRL_LEAVE_RECURSIVE_CALL e).obj_seenhash = e.obj_seenhash := ⟨rfl, rfl⟩

theorem calls_bound_items (h : Host) (dom : Finset Nat)
    (dump : srl_encoder_t → Nat → Ret × srl_encoder_t)
    (hd : ∀ a x, x ∈ dom →
      (dump a x).2.visits.length + pending h dom (dump a x).2 ≤
        a.visits.length + 1 + pending h dom a) (items : List Nat)
    (hit : ∀ y ∈ items, y ∈ dom) :
    ∀ e, (srl_dump_items dump items e).2.visits.length +
        pending h dom (srl_dump_items dump items e).2 ≤
      e.visits.length + items.length + pending h dom e := by
  induction items with
  | nil => intro e; simp [srl_dump_items]
  | cons x xs ih =>
    intro e
    simp only [srl_dump_items, List.length_cons]
    have h1 := hd e x (hit x (by simp))
    rcases hr : dump e x with ⟨r, c⟩
    rw [hr] at h1
    simp only [] at h1
    cases r with
    | ok =>
      have := ih (fun y hy => hit y (by simp [hy])) c
      simp only []
      omega
    | fail err => simp only []; omega
    | nofuel => simp only []; omega

/-- The visits of one call of the dispatcher on an object of a finite graph:
at most one, and one more for each item of each list that the call records. -/
theorem calls_bound (P : Protocol) (h : Host) (dom : Finset Nat) (hc : ItemsClosed h dom) :
    ∀ (fuel : Nat) (a : srl_encoder_t) (obj : Nat), obj ∈ dom →
      (srl_dump_pyobj P h fuel a obj).2.visits.length +
          pending h dom (srl_dump_pyobj P h fuel a obj).2 ≤
        a.visits.length + 1 + pending h dom a := by
  intro fuel
  induction fuel with
  | zero => intro a obj _; simp [srl_dump_pyobj]
  | succ fuel ih =>
    intro a obj hobj
    rcases hr : srl_dump_pyobj P h (fuel + 1) a obj with ⟨r, b⟩
    simp only []
    have hM := dump_mono P h (fuel + 1) a obj
    rw [hr] at hM
    have hpm := pending_mono h dom a b hM
    have hlist : ∀ e e1, ListOpened P h a obj e →
        srl_classify (h.heap obj) = srl_type.LIST → srl_find_obj a obj = none →
        srl_dump_items (srl_dump_pyobj P h fuel) (PyList_items (h.heap obj)) e = (r, e1) →
        b = SRL_LEAVE_RECURSIVE_CALL (SRL_LEAVE_RECURSIVE_CALL e1) →
        b.visits.length + pending h dom b ≤ a.visits.length + 1 + pending h dom a := by
      intro e e1 ho hl hf hi hb
      have h1 := pending_open P h dom a e obj hobj hl hf ho
      have h2 := calls_bound_items h dom (srl_dump_pyobj P h fuel) ih
        (PyList_items (h.heap obj)) (hc obj hobj) e
      rw [hi] at h2
      simp only [] at h2
      have h3 : b.visits = e1.visits := by rw [hb]; rfl
      have h4 : pending h dom b = pending h dom e1 := pending_congr h dom e1 b (by rw [hb]; rfl)
      have h5 : e.visits.length = a.visits.length + 1 := by rw [ho.2.2.1]; simp
      rw [h3, h4]
      omega
    by_cases hok : r = Ret.ok
    · subst hok
      by_cases hl : srl_classify (h.heap obj) = srl_type.LIST
      · cases hf : srl_find_obj a obj with
        | some p =>
          obtain ⟨_, _, h3⟩ := dump_refp_cases P h fuel a b obj p Ret.ok hl hf hr
          obtain ⟨_, e2, _⟩ := h3 rfl
          rw [e2]; simp only [List.length_append, List.length_singleton]; omega
        | none =>
          rcases dump_list_cases P h fuel a b obj Ret.ok hl hf hr with
            ⟨e, e1, ho, hi, hb⟩ | ⟨q, _⟩
          · exact hlist e e1 ho hl hf hi hb
          · exact absurd rfl q
      · obtain ⟨_, _, _, hv, _⟩ := dump_scalar_ok P h (fuel + 1) a b obj hl hr
        rw [hv]; simp only [List.length_append, List.length_singleton]; omega
    · rcases dump_fail_cases P h fuel a b obj r hr hok with hlf | ⟨hl, hf, _, e, e1, ho, hi, hb⟩
      · cases hlf with
        | probe1 _ => omega
        | ceiling1 _ _ =>
          have : (entered a).visits = a.visits := rfl
          rw [this]
          have := pending_congr h dom a (entered a) rfl
          omega
        | probe2 b _ _ _ _ _ hv =>
          rw [hv]; simp only [List.length_append, List.length_singleton]; omega
        | ceiling2 b _ _ _ _ _ _ hv =>
          rw [hv]; simp only [List.length_append, List.length_singleton]; omega
        | other r b _ _ _ _ hv =>
          rw [hv]; simp only [List.length_append, List.length_singleton]; omega
      · exact hlist e e1 ho hl hf hi hb

theorem recorded_mono (h : Host) (a b : srl_encoder_t) (hm : Mono h a b) (hv : b.visits = a.visits)
    (hr : Recorded h a) : Recorded h b := by
  intro v hvm hl
  rw [hv] at hvm
  cases hf : srl_find_obj a v.obj with
  | none => exact absurd hf (hr v hvm hl)
  | some o => rw [hm.2.2.1 _ o hf]; simp

theorem once_snoc (h : Host) (vs : List Visit) (v : Visit) (ho : VisitedOnce h vs)
    (hv : ∀ u ∈ vs, u.obj = v.obj → srl_classify (h.heap u.obj) = srl_type.LIST →
      v.prior ≠ none) : VisitedOnce h (vs ++ [v]) := by
  unfold VisitedOnce at *
  rw [List.pairwise_append]
  refine ⟨ho, List.pairwise_singleton _ _, ?_⟩
  intro u hu w hw
  simp only [List.mem_singleton] at hw
  subst hw
  exact hv u hu

theorem once_items (h : Host) (dump : srl_encoder_t → Nat → Ret × srl_encoder_t)
    (hd : ∀ a x, Recorded h a → VisitedOnce h a.visits →
      VisitedOnce h (dump a x).2.visits ∧ ((dump a x).1 = Ret.ok → Recorded h (dump a x).2))
    (items : List Nat) :
    ∀ e, Recorded h e → VisitedOnce h e.visits →
      VisitedOnce h (srl_dump_items dump items e).2.visits ∧
      ((srl_dump_items dump items e).1 = Ret.ok → Recorded h (srl_dump_items dump items e).2) := by
  induction items with
  | nil => intro e hr ho; exact ⟨ho, fun _ => hr⟩
  | cons x xs ih =>
    intro e hr ho
    simp only [srl_dump_items]
    have h1 := hd e x hr ho
    rcases hx : dump e x with ⟨r, c⟩
    rw [hx] at h1
    cases r with
    | ok => exact ih c (h1.2 rfl) h1.1
    | fail err => exact ⟨h1.1, fun q => by simp at q⟩
    | nofuel => exact ⟨h1.1, fun q => by simp at q⟩

/-- Only the first visit of a list finds no position, in every run of the
dispatcher, successful or not. -/
theorem once_dump (P : Protocol) (h : Host) :
    ∀ (fuel : Nat) (a : srl_encoder_t) (obj : Nat), Recorded h a → VisitedOnce h a.visits →
      VisitedOnce h (srl_dump_pyobj P h fuel a obj).2.visits ∧
      ((srl_dump_pyobj P h fuel a obj).1 = Ret.ok →
        Recorded h (srl_dump_pyobj P h fuel a obj).2) := by
  intro fuel
  induction fuel with
  | zero => intro a obj hr ho; exact ⟨ho, fun q => by simp [srl_dump_pyobj] at q⟩
  | succ fuel ih =>
    intro a obj hra hoa
    rcases hr : srl_dump_pyobj P h (fuel + 1) a obj with ⟨r, b⟩
    simp only []
    have hM := dump_mono P h (fuel + 1) a obj
    rw [hr] at hM
    have hkeep : ∀ u ∈ a.visits, srl_classify (h.heap u.obj) = srl_type.LIST →
        srl_find_obj b u.obj ≠ none := by
      intro u hu hl
      cases hf : srl_find_obj a u.obj with
      | none => exact absurd hf (hra u hu hl)
      | some o => rw [hM.2.2.1 _ o hf]; simp
    have hlist : ∀ e e1, ListOpened P h a obj e →
        srl_classify (h.heap obj) = srl_type.LIST → srl_find_obj a obj = none →
        srl_dump_items (srl_dump_pyobj P h fuel) (PyList_items (h.heap obj)) e = (r, e1) →
        b = SRL_LEAVE_RECURSIVE_CALL (SRL_LEAVE_RECURSIVE_CALL e1) →
        VisitedOnce h b.visits ∧ (r = Ret.ok → Recorded h b) := by
      intro e e1 ho hl hf hi hb
      have hre : Recorded h e := by
        intro u hu hlu
        rw [ho.2.2.1] at hu
        rw [find_store a e obj a.pos u.obj ho.2.1]
        by_cases hou : obj = u.obj
        · rw [if_pos hou]; simp
        · rw [if_neg hou]
          rcases List.mem_append.1 hu with hu | hu
          · exact hra u hu hlu
          · simp only [List.mem_singleton] at hu
            subst hu
            exact absurd rfl hou
      have hoe : VisitedOnce h e.visits := by
        rw [ho.2.2.1]
        apply once_snoc h _ _ hoa
        intro u hu huo hlu
        exfalso
        exact hra u hu hlu (by rw [huo]; exact hf)
      have := once_items h (srl_dump_pyobj P h fuel) ih (PyList_items (h.heap obj)) e hre hoe
      rw [hi] at this
      have h3 : b.visits = e1.visits := by rw [hb]; rfl
      refine ⟨by rw [h3]; exact this.1, fun q => ?_⟩
      have hr1 := this.2 q
      intro u hu hlu
      rw [h3] at hu
      rw [find_congr e1 b (by rw [hb]; rfl)]
      exact hr1 u hu hlu
    by_cases hok : r = Ret.ok
    · subst hok
      by_cases hl : srl_classify (h.heap obj) = srl_type.LIST
      · cases hf : srl_find_obj a obj with
        | some p =>
          obtain ⟨_, _, h3⟩ := dump_refp_cases P h fuel a b obj p Ret.ok hl hf hr
          obtain ⟨_, e2, e3, _⟩ := h3 rfl
          refine ⟨?_, fun _ => ?_⟩
          · rw [e2]
            exact once_snoc h _ _ hoa (fun u _ _ _ => by simp [visit_of, found_ofs, hl, hf])
          · intro u hu hlu
            rw [e2] at hu
            rcases List.mem_append.1 hu with hu | hu
            · exact hkeep u hu hlu
            · simp only [List.mem_singleton] at hu
              subst hu
              show srl_find_obj b obj ≠ none
              rw [find_congr a b e3, hf]; simp
        | none =>
          rcases dump_list_cases P h fuel a b obj Ret.ok hl hf hr with
            ⟨e, e1, ho, hi, hb⟩ | ⟨q, _⟩
          · exact hlist e e1 ho hl hf hi hb
          · exact absurd rfl q
      · obtain ⟨_, _, _, hv, _⟩ := dump_scalar_ok P h (fuel + 1) a b obj hl hr
        refine ⟨?_, fun _ => ?_⟩
        · rw [hv]
          apply once_snoc h _ _ hoa
          intro u _ huo hlu
          exfalso
          simp only [] at huo
          rw [huo] at hlu
          exact hl hlu
        · intro u hu hlu
          rw [hv] at hu
          rcases List.mem_append.1 hu with hu | hu
          · exact hkeep u hu hlu
          · simp only [List.mem_singleton] at hu
            subst hu
            exact absurd hlu hl
    · refine ⟨?_, fun q => absurd q hok⟩
      have hsn : ∀ (b : srl_encoder_t), b.visits = a.visits ++ [visit_of h a obj] →
          VisitedOnce h b.visits := by
        intro b hv
        rw [hv]
        apply once_snoc h _ _ hoa
        intro u hu huo hlu
        have hl : srl_classify (h.heap obj) = srl_type.LIST := by
          have : u.obj = obj := huo
          rw [← this]; exact hlu
        have hnb : ¬ srl_classify (h.heap obj) = srl_type.BOOL := by rw [hl]; simp
        have huo2 : u.obj = obj := huo
        have hne : srl_find_obj a obj ≠ none := by rw [← huo2]; exact hra u hu hlu
        cases hq : srl_find_obj a obj with
        | none => exact absurd hq hne
        | some p => simp [visit_of, found_ofs, hnb, hq]
      rcases dump_fail_cases P h fuel a b obj r hr hok with hlf | ⟨hl, hf, _, e, e1, ho, hi, hb⟩
      · cases hlf with
        | probe1 _ => exact hoa
        | ceiling1 _ _ => exact hoa
        | probe2 b _ _ _ _ _ hv => exact hsn b hv
        | ceiling2 b _ _ _ _ _ _ hv => exact hsn b hv
        | other r b _ _ _ _ hv => exact hsn b hv
      · exact (hlist e e1 ho hl hf hi hb).1

theorem once_count (h : Host) (vs : List Visit) (ho : VisitedOnce h vs) (x : Nat)
    (hl : srl_classify (h.heap x) = srl_type.LIST) :
    (vs.filter (fun v => decide (v.obj = x ∧ v.prior = none))).length ≤ 1 := by
  have hp : (vs.filter (fun v => decide (v.obj = x ∧ v.prior = none))).Pairwise
      (fun v w => v.obj = w.obj → srl_classify (h.heap v.obj) = srl_type.LIST →
        w.prior ≠ none) := List.Pairwise.sublist (List.filter_sublist _) ho
  match hq : vs.filter (fun v => decide (v.obj = x ∧ v.prior = none)) with
  | [] => rw [hq]; exact Nat.zero_le 1
  | [_] => rw [hq]; exact Nat.le_refl 1
  | u :: w :: rest =>
    exfalso
    rw [hq] at hp
    have hu : u ∈ vs.filter (fun v => decide (v.obj = x ∧ v.prior = none)) := by rw [hq]; simp
    have hw : w ∈ vs.filter (fun v => decide (v.obj = x ∧ v.prior = none)) := by rw [hq]; simp
    simp only [List.mem_filter, decide_eq_true_eq] at hu hw
    have := (List.pairwise_cons.1 hp).1 w (by simp) (by rw [hu.2.1, hw.2.1])
      (by rw [hu.2.1]; exact hl)
    exact this hw.2.2

theorem items_more_fuel (d1 d2 : srl_encoder_t → Nat → Ret × srl_encoder_t)
    (hd : ∀ a x, (d1 a x).1 ≠ Ret.nofuel → d2 a x = d1 a x) (items : List Nat) :
    ∀ e, (srl_dump_items d1 items e).1 ≠ Ret.nofuel →
      srl_dump_items d2 items e = srl_dump_items d1 items e := by
  induction items with
  | nil => intro e _; rfl
  | cons x xs ih =>
    intro e hne
    simp only [srl_dump_items] at hne ⊢
    rcases hx : d1 e x with ⟨r, c⟩
    rw [hx] at hne
    have h2 := hd e x
    rw [hx] at h2
    cases r with
    | ok =>
      rw [h2 (by simp)]
      simp only [] at hne ⊢
      exact ih c hne
    | fail err => rw [h2 (by simp)]
    | nofuel => exact absurd rfl hne

theorem switch_more_fuel (P : Protocol) (h : Host)
    (d1 d2 : srl_encoder_t → Nat → Ret × srl_encoder_t)
    (hd : ∀ a x, (d1 a x).1 ≠ Ret.nofuel → d2 a x = d1 a x) (type : srl_type)
    (enc : srl_encoder_t) (obj : Nat) (pos : Option Ptr)
    (hne : (srl_dump_switch P h d1 type enc obj pos).1 ≠ Ret.nofuel) :
    srl_dump_switch P h d2 type enc obj pos = srl_dump_switch P h d1 type enc obj pos := by
  cases type <;> try rfl
  simp only [srl_dump_switch, srl_dump_pylist] at hne ⊢
  rcases he : SRL_ENTER_RECURSIVE_CALL h enc " serializing list" with ⟨r1, enc1⟩
  rw [he] at hne
  cases r1 with
  | ok =>
    simp only [] at hne ⊢
    cases pos with
    | some p => rfl
    | none =>
      simp only [] at hne ⊢
      rcases hh : srl_dump_list_header P h enc1 (PyList_items (h.heap obj)).length with ⟨r2, enc3⟩
      rw [hh] at hne
      cases r2 with
      | ok =>
        simp only [] at hne ⊢
        rw [items_more_fuel d1 d2 hd _ enc3 hne]
      | fail err => rfl
      | nofuel => rfl
  | fail err => rfl
  | nofuel => rfl

/-- More fuel does not change a result of the dispatcher. -/
theorem dump_more_fuel (P : Protocol) (h : Host) :
    ∀ (fuel : Nat) (a : srl_encoder_t) (obj : Nat),
      (srl_dump_pyobj P h fuel a obj).1 ≠ Ret.nofuel →
      srl_dump_pyobj P h (fuel + 1) a obj = srl_dump_pyobj P h fuel a obj := by
  intro fuel
  induction fuel with
  | zero => intro a obj hne; simp [srl_dump_pyobj] at hne
  | succ fuel ih =>
    intro a obj hne
    rw [srl_dump_pyobj] at hne ⊢
    conv => rhs; rw [srl_dump_pyobj]
    rcases he : SRL_ENTER_RECURSIVE_CALL h a " while Sereal dumping object" with ⟨r1, enc1⟩
    rw [he] at hne
    cases r1 with
    | ok =>
      simp only [] at hne ⊢
      split
      · rename_i enc3 htr
        rw [htr] at hne
        simp only [] at hne
        rw [switch_more_fuel P h _ _ ih _ _ _ _ hne]
      · rfl
    | fail err => rfl
    | nofuel => rfl

theorem dump_fuel_le (P : Protocol) (h : Host) (f g : Nat) (hfg : f ≤ g) (a : srl_encoder_t)
    (obj : Nat) (hne : (srl_dump_pyobj P h f a obj).1 ≠ Ret.nofuel) :
    srl_dump_pyobj P h g a obj = srl_dump_pyobj P h f a obj := by
  induction g with
  | zero =>
    have : f = 0 := by omega
    rw [this]
  | succ g ih =>
    by_cases hfg1 : f = g + 1
    · rw [hfg1]
    · have := ih (by omega)
      rw [dump_more_fuel P h g a obj (by rw [this]; exact hne), this]

/-- C20: termination on shared and cyclic inputs, and the bound on the calls.
Let `dom` be a finite set of addresses that holds the root and, with every
list, its items (a finite object graph; a list may hold itself, directly or
through other lists).  On a fresh session the dump returns with any fuel above
the number of lists of `dom`, and with the same result for every such fuel.
The dispatcher has then been called (has logged a visit) at most
`1 + Σ length` times, the sum taken over the distinct lists of `dom`; of the
visits of one list only the first has found no position in the seen table, so
the items of each list are gone through at most once.  With
`max_recursion_depth = 0` and a probe that never refuses no call fails on a
recursion guard, so that every call of the dispatcher is a logged visit. -/
theorem dump_terminates_on_graphs (P : Protocol) (h : Host) (dom : Finset Nat)
    (hc : ItemsClosed h dom) (root : Nat) (hroot : root ∈ dom)
    (args : srl_encoder_ctor_args) (fuel : Nat) (hfuel : (lists_of h dom).card < fuel) :
    (srl_encoder_dump P h fuel (fresh_session P args) root).1 ≠ DumpRet.nofuel ∧
    (∀ g, fuel ≤ g → srl_encoder_dump P h g (fresh_session P args) root =
      srl_encoder_dump P h fuel (fresh_session P args) root) ∧
    (srl_encoder_dump P h fuel (fresh_session P args) root).2.visits.length ≤
      1 + Finset.sum (lists_of h dom) (fun x => (PyList_items (h.heap x)).length) ∧
    (∀ x, srl_classify (h.heap x) = srl_type.LIST →
      ((srl_encoder_dump P h fuel (fresh_session P args) root).2.visits.filter
        (fun v => decide (v.obj = x ∧ v.prior = none))).length ≤ 1) ∧
    (args.max_recursion_depth = 0 → h.recursion_limit = none →
      ∀ e, (srl_encoder_dump P h fuel (fresh_session P args) root).1 = DumpRet.fail e →
        (∀ n, e ≠ PyErr.RuntimeError_max_depth n) ∧ (∀ msg, e ≠ PyErr.RuntimeError_host msg)) := by
  by_cases hs : SRL_ENC_HAVE_OPTION (fresh_session P args)
      (P.SRL_F_COMPRESS_SNAPPY ||| P.SRL_F_COMPRESS_SNAPPY_INCREMENTAL) = true
  · have hsn : ∀ g, srl_encoder_dump P h g (fresh_session P args) root =
        (DumpRet.fail PyErr.NotImplementedError_snappy, fresh_session P args) := by
      intro g
      unfold srl_encoder_dump
      simp [hs]
    rw [hsn fuel]
    refine ⟨by simp, fun g _ => hsn g, by simp [fresh_session], fun x _ => by simp [fresh_session],
      ?_⟩
    intro _ _ e he
    simp only [DumpRet.fail.injEq] at he
    subst he
    exact ⟨fun n => by simp, fun m => by simp⟩
  · have hs0 : SRL_ENC_HAVE_OPTION (fresh_session P args)
        (P.SRL_F_COMPRESS_SNAPPY ||| P.SRL_F_COMPRESS_SNAPPY_INCREMENTAL) = false := by
      simpa using hs
    obtain ⟨w1, w2, w3⟩ := header_state P h args
    have hun : unseen (lists_of h dom) (srl_write_header P h (fresh_session P args)) < fuel := by
      unfold unseen
      exact lt_of_le_of_lt (Finset.card_filter_le _ _) hfuel
    have hnf := dump_fuel_closed P h dom hc fuel _ root hroot hun
    have hcb := calls_bound P h dom hc fuel (srl_write_header P h (fresh_session P args)) root hroot
    have hpe : pending h dom (srl_write_header P h (fresh_session P args)) ≤
        Finset.sum (lists_of h dom) (fun x => (PyList_items (h.heap x)).length) := by
      unfold pending
      exact Finset.sum_le_sum_of_subset (Finset.filter_subset _ _)
    have hon := (once_dump P h fuel (srl_write_header P h (fresh_session P args)) root
      (by intro v hv; rw [w2] at hv; cases hv)
      (by rw [w2]; exact List.Pairwise.nil)).1
    have hind : ∀ g, fuel ≤ g → srl_encoder_dump P h g (fresh_session P args) root =
        srl_encoder_dump P h fuel (fresh_session P args) root := by
      intro g hg
      rw [encoder_dump_eq P h g _ root hs0, encoder_dump_eq P h fuel _ root hs0,
        dump_fuel_le P h fuel g hg _ root hnf]
    rw [encoder_dump_eq P h fuel _ root hs0] at hind ⊢
    rcases hq : srl_dump_pyobj P h fuel (srl_write_header P h (fresh_session P args)) root
      with ⟨r, b⟩
    rw [hq] at hnf hcb hon hind
    simp only [] at hnf hcb hon hind ⊢
    refine ⟨?_, hind, ?_, ?_, ?_⟩
    · cases r with
      | ok => simp
      | fail e => simp
      | nofuel => exact absurd rfl hnf
    · rw [w2] at hcb
      simp only [List.length_nil] at hcb
      omega
    · intro x hl
      exact once_count h _ hon x hl
    · intro hm hp e he
      cases r with
      | ok => simp at he
      | nofuel => simp at he
      | fail e0 =>
        simp only [DumpRet.fail.injEq] at he
        subst he
        obtain ⟨_, k2, k3⟩ := dump_errors P h fuel _ b root e0 hq
        refine ⟨fun n hn => ?_, fun m hm2 => k3 m hm2 hp⟩
        have := (k2 n hn).1
        rw [w3] at this
        exact this hm

/-- C20, witness: the list `L = [L, x, x]` that holds itself and twice the
integer object `x`: one list of length 3, so the dump returns with fuel 2 and
logs at most 4 visits. -/
theorem dump_terminates_on_graphs_witness :
    (srl_encoder_dump srl_v1
        (host_of fun x => if x = 0 then PyObject.pylist [0, 1, 1] else PyObject.pyint 300) 2
        (fresh_session srl_v1 (default_encoder_ctor_args srl_v1)) 0).1 ≠ DumpRet.nofuel ∧
    (srl_encoder_dump srl_v1
        (host_of fun x => if x = 0 then PyObject.pylist [0, 1, 1] else PyObject.pyint 300) 2
        (fresh_session srl_v1 (default_encoder_ctor_args srl_v1)) 0).2.visits.length ≤
      1 + Finset.sum
        (lists_of (host_of fun x => if x = 0 then PyObject.pylist [0, 1, 1]
          else PyObject.pyint 300) {0, 1})
        (fun x => (PyList_items ((host_of fun x => if x = 0 then PyObject.pylist [0, 1, 1]
          else PyObject.pyint 300).heap x)).length) :=
  ⟨(dump_terminates_on_graphs srl_v1
      (host_of fun x => if x = 0 then PyObject.pylist [0, 1, 1] else PyObject.pyint 300)
      {0, 1} (by unfold ItemsClosed; decide) 0 (by decide)
      (default_encoder_ctor_args srl_v1) 2 (by decide)).1,
    (dump_terminates_on_graphs srl_v1
      (host_of fun x => if x = 0 then PyObject.pylist [0, 1, 1] else PyObject.pyint 300)
      {0, 1} (by unfold ItemsClosed; decide) 0 (by decide)
      (default_encoder_ctor_args srl_v1) 2 (by decide)).2.2.1⟩

/-! ## C17: the invariant of the seen table -/

end Sereal
